import Mathlib

/-!
# Merce vs Patri: scoring and aggregation engine (`src/app.js`)

A shallow embedding of the step-count tracker of `src/app.js`.

Modelling conventions.

* Step counts, points and bonuses are JavaScript numbers that hold integers; they
  are modelled as `Int`, an integer standing for the Number that holds it.
  `Math.floor(a / b)` on integers is floor division.  A document read by
  `JSON.parse` may hold any Number (see `JsVal`).
* The global mutable `state` is passed explicitly: every operation takes the state
  and returns the new one.  `DataManager.save()` (the write to `localStorage`) is
  not part of the state and is left out.
* The clock `new Date()` is the field `now` of `Runtime`, in milliseconds since the
  epoch.  Local time is UTC plus the offset `LocalTZA` of the time zone, which may
  change with the instant (daylight saving): `setDate` works on the local calendar
  and `toISOString` prints the UTC one.
* Strings are `String`; the text functions (`trim`, `split`, `parseInt`, the date
  pattern) are written over the list of characters.  `parseInt` yields the Number
  nearest to the numeral that it reads (`toDouble`); a numeral from `2^1024` on, which
  it reads as `Infinity`, is outside the integers of the model.
-/

namespace ContadorPasos

/-! ## CONFIG (`src/app.js`, lines 10-17) -/

/-- One point for each 1000 steps. -/
def POINTS_PER_STEPS : Int := 1000

/-- Recommended daily minimum; the streak threshold. -/
def MIN_DAILY_STEPS : Int := 5000

/-- Daily maximum of steps that count. -/
def MAX_DAILY_STEPS : Int := 20000

/-- Bonus for a day of 10000 steps or more. -/
def BONUS_10K : Int := 1

/-- Bonus awarded for a streak (named for seven days in a row with 8k+). -/
def BONUS_7_DAYS_8K : Int := 2

/-! ## Utils: scoring (`src/app.js`, lines 84-96) -/

/-- `Utils.calculatePoints`: `Math.floor(Math.min(steps, MAX_DAILY_STEPS) / POINTS_PER_STEPS)`. -/
def calculatePoints (steps : Int) : Int :=
  let cappedSteps := min steps MAX_DAILY_STEPS
  Int.fdiv cappedSteps POINTS_PER_STEPS

/-- `Utils.calculateBonus`: two independent `if`s, each adding to `bonus`. -/
def calculateBonus (steps : Int) (streak : Int) : Int :=
  let bonus : Int := 0
  let bonus := if steps ≥ 10000 then bonus + BONUS_10K else bonus
  let bonus := if streak ≥ 7 then bonus + BONUS_7_DAYS_8K else bonus
  bonus

/-! ## Values of the runtime

`JsVal` is a JavaScript value as `JSON.parse` builds it: a tree without sharing.
An array also carries named properties, because `importData` assigns `steps`,
`points` and `bonus` to whatever object sits under `merce` and `patri`, an array
included; `JSON.parse` itself yields arrays without named properties.

Numbers.  `num n` is the Number that holds the integer `n`.  `dec negative digits
point` is the Number `±0.d₁…dₖ × 10^point`, where `d₁…dₖ` are the decimal digits of
`digits`: the form in which `Number::toString` takes a number (its `s`, `k` and
`n`).  In a document that `JSON.parse` yields, a Number is `num n` when it is an
integer below `10^21` in absolute value and `dec` otherwise, with `digits` positive
and not a multiple of ten, the shortest digits that identify the Number (`5e-7` is
`dec false 5 (-6)`, `12.7` is `dec false 127 2`, `1e23` is `dec false 1 24`).
`JSON.parse` reads a numeral as the nearest Number, so that the numeral
`9007199254740993` yields `num 9007199254740992`.  A document holds neither `NaN` nor
an infinity. -/

/-- A JavaScript value built by `JSON.parse` and mutated by property assignment. -/
inductive JsVal where
  | null : JsVal
  | bool (b : Bool) : JsVal
  | num (n : Int) : JsVal
  | dec (negative : Bool) (digits : Nat) (point : Int) : JsVal
  | str (s : String) : JsVal
  | arr (items : List JsVal) (props : List (String × JsVal)) : JsVal
  | obj (fields : List (String × JsVal)) : JsVal

/-! ## Data model (`src/app.js`, lines 22-27 and 124-136) -/

/-- The two fixed players; `record[player]` is `DailyRecord.get`. -/
inductive Player where
  | merce : Player
  | patri : Player
  deriving DecidableEq, Repr

/-- One player's entry of a day: `{ steps, points, bonus }`. -/
structure PlayerDay where
  steps : Int
  points : Int
  bonus : Int
  deriving DecidableEq, Repr

/-- One daily record: `{ date, merce, patri }`. -/
structure DailyRecord where
  date : String
  merce : PlayerDay
  patri : PlayerDay
  deriving DecidableEq, Repr

/-- Property access `record[player]`. -/
def DailyRecord.get (r : DailyRecord) : Player → PlayerDay
  | Player.merce => r.merce
  | Player.patri => r.patri

/-- The application state as the add-record path builds it. -/
structure State where
  records : List DailyRecord
  weeklyPrenda : String
  achievements : JsVal
  monthlyWinners : List JsVal

/-- The initial state: no records, no garment, `{}` and `[]`. -/
def State.initial : State :=
  { records := [], weeklyPrenda := "", achievements := JsVal.obj [], monthlyWinners := [] }

/-- What the code reads from its environment.

* `now`: the time value of `new Date()`, milliseconds since the epoch (UTC).
* `localTZA t isUTC`: the offset of local time from UTC in milliseconds,
  `LocalTZA(t, isUTC)` of the standard: at the UTC instant `t` when `isUTC` is
  `true`, and for the local time value `t` when it is `false` (a local time that a
  change of offset skips or repeats is read with the offset before the change).
* `timeValue v`: the time value of `new Date(v)`, `none` for an invalid date
  (`NaN`).  The formats a runtime accepts beyond the ISO ones are its own choice,
  so the function is a parameter; `isoTimeValue` is the instance for date-only ISO
  strings. -/
structure Runtime where
  now : Int
  localTZA : Int → Bool → Int
  timeValue : JsVal → Option Int

/-! ## Calendar of the runtime (`toISOString`, `new Date("YYYY-MM-DD")`) -/

/-- Milliseconds in a day. -/
def msPerDay : Int := 86400000

/-- Year, month (1-12) and day of month (1-31) of a day number counted from
1970-01-01, in the proleptic Gregorian calendar. -/
def civilFromDays (day : Int) : Int × Int × Int :=
  let z := day + 719468
  let era := z / 146097
  let doe := z - era * 146097
  let yoe := (doe - doe / 1460 + doe / 36524 - doe / 146096) / 365
  let y := yoe + era * 400
  let doy := doe - (365 * yoe + yoe / 4 - yoe / 100)
  let mp := (5 * doy + 2) / 153
  let d := doy - (153 * mp + 2) / 5 + 1
  let m := if mp < 10 then mp + 3 else mp - 9
  (if m ≤ 2 then y + 1 else y, m, d)

/-- Day number counted from 1970-01-01 of a year, month (1-12) and day of month. -/
def daysFromCivil (y m d : Int) : Int :=
  let y := if m ≤ 2 then y - 1 else y
  let era := y / 400
  let yoe := y - era * 400
  let mp := if m > 2 then m - 3 else m + 9
  let doy := (153 * mp + 2) / 5 + d - 1
  let doe := yoe * 365 + yoe / 4 - yoe / 100 + doy
  era * 146097 + doe - 719468

/-- The decimal digit `n % 10` as a character. -/
def digitChar (n : Nat) : Char :=
  Char.ofNat (48 + n % 10)

/-- The last `width` decimal digits of `n`, zero padded. -/
def padDigits : Nat → Nat → List Char
  | 0, _ => []
  | width + 1, n => padDigits width (n / 10) ++ [digitChar n]

/-- The date part of `toISOString()` for a day number: `YYYY-MM-DD`, with the
expanded six-digit signed year outside 0..9999. -/
def isoDateOfDay (day : Int) : String :=
  let (y, m, d) := civilFromDays day
  let year :=
    if 0 ≤ y ∧ y ≤ 9999 then padDigits 4 y.toNat
    else if y < 0 then '-' :: padDigits 6 (-y).toNat
    else '+' :: padDigits 6 y.toNat
  String.mk (year ++ ['-'] ++ padDigits 2 m.toNat ++ ['-'] ++ padDigits 2 d.toNat)

/-- `date.toISOString().split('T')[0]` for the instant `t`: the UTC date. -/
def toISODate (t : Int) : String :=
  isoDateOfDay (t / msPerDay)

/-! ## Date objects

A `Date` object is its time value, an `Int` of milliseconds since the epoch. -/

/-- `LocalTime(t)`: the local time value of the UTC instant `t`. -/
def localTime (rt : Runtime) (t : Int) : Int :=
  t + rt.localTZA t true

/-- `UTC(t)`: the UTC instant of the local time value `tlocal`. -/
def utcOfLocal (rt : Runtime) (tlocal : Int) : Int :=
  tlocal - rt.localTZA tlocal false

/-- `Day(LocalTime(t))`: the local day number of the instant `t`. -/
def localDay (rt : Runtime) (t : Int) : Int :=
  localTime rt t / msPerDay

/-- `Date.prototype.getDay`: the local day of the week, 0 for Sunday.  Day 0
(1970-01-01) was a Thursday. -/
def getDay (rt : Runtime) (t : Int) : Int :=
  (localDay rt t + 4) % 7

/-- `Date.prototype.getDate`: the local day of the month. -/
def getDate (rt : Runtime) (t : Int) : Int :=
  (civilFromDays (localDay rt t)).2.2

/-- `Date.prototype.setDate(dt)`: the local time is taken to day `dt` of its month
(`dt` may lie outside the month) at the same time within the day, and the result is
converted back to UTC: `UTC(MakeDate(MakeDay(year, month, dt), TimeWithinDay(t)))`
for the local time `t`.  The day number of the first of the month is
`Day(t) - DateFromTime(t) + 1`.  The time values stay within the range of `Date`. -/
def setDate (rt : Runtime) (t : Int) (dt : Int) : Int :=
  let tlocal := localTime rt t
  let day := localDay rt t - getDate rt t + dt
  let newDate := day * msPerDay + tlocal % msPerDay
  utcOfLocal rt newDate

/-! ## DataManager: streak (`src/app.js`, lines 150-169) -/

/-- The body of the `for` loop of `getStreak`, with `fuel` iterations left, loop
counter `i` and the running `streak`.  `break` returns the streak. -/
def getStreakLoop (rt : Runtime) (state : State) (player : Player) : Nat → Nat → Nat → Nat
  | 0, _, streak => streak
  | fuel + 1, i, streak =>
    let today := rt.now
    let checkDate := setDate rt today (getDate rt today - (i : Int))
    let dateStr := toISODate checkDate
    match state.records.find? (fun r => r.date == dateStr) with
    | some record =>
      if (record.get player).steps ≥ MIN_DAILY_STEPS then
        getStreakLoop rt state player fuel (i + 1) (streak + 1)
      else if i > 0 then streak
      else getStreakLoop rt state player fuel (i + 1) streak
    | none =>
      if i > 0 then streak
      else getStreakLoop rt state player fuel (i + 1) streak

/-- `DataManager.getStreak`: `for (let i = 0; i < 365; i++)` from `streak = 0`. -/
def getStreak (rt : Runtime) (state : State) (player : Player) : Nat :=
  getStreakLoop rt state player 365 0 0

/-! ### The streak in the words of the specification -/

/-- The UTC day number of the current instant. -/
def currentDay (rt : Runtime) : Int :=
  rt.now / msPerDay

/-- Some record of the store is dated `day` and has at least 5000 steps for
`player`. -/
def qualifies (state : State) (player : Player) (day : Int) : Bool :=
  state.records.any (fun r => r.date == isoDateOfDay day &&
    decide ((r.get player).steps ≥ 5000))

/-- The streak as the specification words it: one for today when today qualifies,
plus the length of the run of qualifying days `t-1, t-2, ...` (at most 364 of them)
that ends at the first day that does not qualify. -/
def streakBySpec (rt : Runtime) (state : State) (player : Player) : Nat :=
  (if qualifies state player (currentDay rt) then 1 else 0) +
    ((List.range' 1 364).takeWhile
      (fun (i : Nat) => qualifies state player (currentDay rt - (i : Int)))).length

/-! ## DataManager: adding a record (`src/app.js`, lines 116-143) -/

/-- The difference `new Date(b.date) - new Date(a.date)` of the comparator, from
the two time values; a `NaN` difference counts as `+0`, as `Array.prototype.sort`
prescribes. -/
def dateDifference : Option Int → Option Int → Int
  | some tb, some ta => tb - ta
  | _, _ => 0

/-- `Array.prototype.sort(comparefn)`: a stable sort that leaves `a` before `b`
when `comparefn(a, b) ≤ 0`.  With a comparator that is not consistent (an invalid
date among the keys) the order is the runtime's choice; insertion is one such
choice. -/
def jsSort {α : Type} (comparefn : α → α → Int) (l : List α) : List α :=
  l.insertionSort (fun a b => comparefn a b ≤ 0)

/-- `state.records.sort((a, b) => new Date(b.date) - new Date(a.date))`. -/
def sortRecords (rt : Runtime) (records : List DailyRecord) : List DailyRecord :=
  jsSort (fun a b => dateDifference (rt.timeValue (JsVal.str b.date))
    (rt.timeValue (JsVal.str a.date))) records

/-- `DataManager.addRecord`: the new state and the record that is returned. -/
def addRecord (rt : Runtime) (state : State) (date : String) (merceSteps patriSteps : Int) :
    State × DailyRecord :=
  let state := { state with records := state.records.filter (fun r => r.date != date) }
  let mercePoints := calculatePoints merceSteps
  let patriPoints := calculatePoints patriSteps
  let record : DailyRecord :=
    { date := date
      merce :=
        { steps := merceSteps
          points := mercePoints
          bonus := calculateBonus merceSteps (getStreak rt state Player.merce) }
      patri :=
        { steps := patriSteps
          points := patriPoints
          bonus := calculateBonus patriSteps (getStreak rt state Player.patri) } }
  let state := { state with records := state.records ++ [record] }
  let state := { state with records := sortRecords rt state.records }
  (state, record)

/-! ## Utils: week bounds (`src/app.js`, lines 43-57) -/

/-- `Utils.getMonday(date)`. -/
def getMonday (rt : Runtime) (date : Int) : Int :=
  let d := date
  let day := getDay rt d
  let diff := getDate rt d - day + (if day = 0 then -6 else 1)
  setDate rt d diff

/-- `Utils.getSunday(date)`. -/
def getSunday (rt : Runtime) (date : Int) : Int :=
  let monday := getMonday rt date
  let sunday := monday
  setDate rt sunday (getDate rt monday + 6)

/-! ## DataManager: weekly aggregation (`src/app.js`, lines 171-186) -/

/-- `DataManager.getWeekRecords`: both bounds are taken from `new Date()`; a record
whose date is invalid fails both comparisons. -/
def getWeekRecords (rt : Runtime) (state : State) : List DailyRecord :=
  let monday := getMonday rt rt.now
  let sunday := getSunday rt rt.now
  state.records.filter (fun r =>
    match rt.timeValue (JsVal.str r.date) with
    | some date => decide (date ≥ monday) && decide (date ≤ sunday)
    | none => false)

/-- `DataManager.getWeeklyPoints`: `reduce` from 0 adding `points` and `bonus`. -/
def getWeeklyPoints (rt : Runtime) (state : State) (player : Player) : Int :=
  let weekRecords := getWeekRecords rt state
  weekRecords.foldl (fun sum r => sum + (r.get player).points + (r.get player).bonus) 0

/-! ## Text functions of the runtime -/

/-- The character is a decimal digit, as `\d` of the date pattern matches it. -/
def isDigit (c : Char) : Bool :=
  decide ('0' ≤ c ∧ c ≤ '9')

/-- White space and line terminators, as `trim` and `parseInt` skip them. -/
def isJsWhitespace (c : Char) : Bool :=
  c.toNat ∈ [0x9, 0xA, 0xB, 0xC, 0xD, 0x20, 0xA0, 0x1680, 0x2028, 0x2029, 0x202F, 0x205F,
    0x3000, 0xFEFF] || decide (0x2000 ≤ c.toNat ∧ c.toNat ≤ 0x200A)

/-- `String.prototype.trim` on the characters. -/
def trimChars (cs : List Char) : List Char :=
  ((cs.dropWhile isJsWhitespace).reverse.dropWhile isJsWhitespace).reverse

/-- `String.prototype.split(sep)` for a separator of one character: the pieces
between the separators, `[""]` for the empty string. -/
def splitChars (sep : Char) : List Char → List (List Char)
  | [] => [[]]
  | c :: cs =>
    if c = sep then [] :: splitChars sep cs
    else
      match splitChars sep cs with
      | [] => [[c]]
      | piece :: pieces => (c :: piece) :: pieces

/-- The value of a character as a digit of the radix, if it is one. -/
def radixDigit (radix : Nat) (c : Char) : Option Nat :=
  let v :=
    if '0' ≤ c ∧ c ≤ '9' then some (c.toNat - 48)
    else if 'a' ≤ c ∧ c ≤ 'z' then some (c.toNat - 87)
    else if 'A' ≤ c ∧ c ≤ 'Z' then some (c.toNat - 55)
    else none
  v.bind (fun d => if d < radix then some d else none)

/-- The longest prefix of digits of the radix, as digit values. -/
def leadingDigits (radix : Nat) : List Char → List Nat
  | [] => []
  | c :: cs =>
    match radixDigit radix c with
    | some d => d :: leadingDigits radix cs
    | none => []

/-- The sign that `parseInt` reads, and the characters after it. -/
def readSign : List Char → Int × List Char
  | [] => (1, [])
  | c :: rest =>
    if c = '-' then (-1, rest)
    else if c = '+' then (1, rest)
    else (1, c :: rest)

/-- The radix that `parseInt` chooses without a radix argument, 16 after a prefix
`0x` or `0X` and 10 otherwise, and the characters after the prefix. -/
def readRadix : List Char → Nat × List Char
  | c :: x :: rest =>
    if c = '0' ∧ (x = 'x' ∨ x = 'X') then (16, rest) else (10, c :: x :: rest)
  | cs => (10, cs)

/-- The integer `sign × mathInt` that `parseInt(string)` reads without a radix
argument, `none` where the result is `NaN`: leading white space is skipped, a sign and
a `0x` prefix are read, then the longest run of digits of the radix. -/
def parseIntChars (cs : List Char) : Option Int :=
  let (sign, cs) := readSign (cs.dropWhile isJsWhitespace)
  let (radix, cs) := readRadix cs
  match leadingDigits radix cs with
  | [] => none
  | ds => some (sign * ((ds.foldl (fun acc d => radix * acc + d) 0 : Nat) : Int))

/-- The number of binary digits of `n`; `fuel` bounds it. -/
def bitLength : Nat → Nat → Nat
  | 0, _ => 0
  | fuel + 1, n => if n = 0 then 0 else bitLength fuel (n / 2) + 1

/-- The Number for a mathematical integer: the integer itself when 53 binary digits
hold it, and otherwise the nearest integer with a significand of 53 binary digits,
a tie going to the even significand.  From `2^1024 - 2^970` on the Number is an
infinity, which is no integer; the integers of the model have no such bound. -/
def toDouble (n : Int) : Int :=
  let a := n.natAbs
  let bits := bitLength a a
  if bits ≤ 53 then n
  else
    let unit := 2 ^ (bits - 53)
    let q := a / unit
    let r := a % unit
    let q := if 2 * r > unit ∨ (2 * r = unit ∧ q % 2 = 1) then q + 1 else q
    (if n < 0 then -1 else 1) * ((q * unit : Nat) : Int)

/-- `parseInt(string)` on the characters of a string: the Number for the integer
read, `none` for `NaN`.  (For a numeral of more than 20 digits the standard lets a
runtime drop the digits after the 20th; the exact numeral is rounded here.) -/
def parseIntNumber (cs : List Char) : Option Int :=
  (parseIntChars cs).map toDouble

/-- `x || 0` for the result of `parseInt`: `NaN` and zero give 0. -/
def orZero (x : Option Int) : Int :=
  x.getD 0

/-- `date.match(/^\d{4}-\d{2}-\d{2}$/)` is not `null`. -/
def matchesDatePattern (cs : List Char) : Bool :=
  match cs with
  | [y1, y2, y3, y4, '-', m1, m2, '-', d1, d2] => [y1, y2, y3, y4, m1, m2, d1, d2].all isDigit
  | _ => false

/-- The decimal digits of a natural number, most significant first; `fuel` bounds
the number of digits. -/
def natDigits : Nat → Nat → List Char
  | 0, _ => []
  | fuel + 1, n => if n < 10 then [digitChar n] else natDigits fuel (n / 10) ++ [digitChar n]

/-- Drops the zeros at the end of a run of digits. -/
def stripTrailingZeros (cs : List Char) : List Char :=
  (cs.reverse.dropWhile (fun c => c == '0')).reverse

/-- `Number.prototype.toString` on a non-negative integer: plain decimal digits below
`10^21`, and from there on the exponent form `d.ddde+XX`.  In the exponent form the
digits are those of `n`, which is what the runtime prints for a number of at most
15 significant digits. -/
def natToString (n : Nat) : List Char :=
  let ds := natDigits (n + 1) n
  if n < 10 ^ 21 then ds
  else
    match stripTrailingZeros ds with
    | [] => ds
    | [d] => d :: 'e' :: '+' :: natDigits ds.length (ds.length - 1)
    | d :: rest => d :: '.' :: rest ++ 'e' :: '+' :: natDigits ds.length (ds.length - 1)

/-- `Number.prototype.toString` on an integer. -/
def numberToString (n : Int) : List Char :=
  if n < 0 then '-' :: natToString (-n).toNat else natToString n.toNat

/-- `Number.prototype.toString` on the Number `±0.d₁…dₖ × 10^n`, from its digits and
`n = point`: plain digits for `-5 ≤ n ≤ 21` (zeros appended when `k ≤ n`, a point
after `n` digits when `0 < n < k`, and `0.` with `-n` zeros in front when `n ≤ 0`),
and otherwise the exponent form, the exponent being `n - 1`. -/
def decToString (negative : Bool) (digits : Nat) (point : Int) : List Char :=
  let ds := natDigits (digits + 1) digits
  let k : Int := ds.length
  let n := point
  let body :=
    if -5 ≤ n ∧ n ≤ 21 then
      if k ≤ n then ds ++ List.replicate (n - k).toNat '0'
      else if 0 < n then ds.take n.toNat ++ '.' :: ds.drop n.toNat
      else '0' :: '.' :: List.replicate (-n).toNat '0' ++ ds
    else
      let exponentSign := if n < 0 then '-' else '+'
      let exponent := natDigits ((n - 1).natAbs + 1) (n - 1).natAbs
      match ds with
      | [] => []
      | [d] => d :: 'e' :: exponentSign :: exponent
      | d :: rest => d :: '.' :: rest ++ 'e' :: exponentSign :: exponent
  if negative then '-' :: body else body

/-- The integer part of the Number `±0.d₁…dₖ × 10^point`, toward zero. -/
def decTruncate (negative : Bool) (digits : Nat) (point : Int) : Int :=
  let k : Int := (natDigits (digits + 1) digits).length
  let magnitude : Nat :=
    if k ≤ point then digits * 10 ^ (point - k).toNat
    else digits / 10 ^ (k - point).toNat
  if negative then -(magnitude : Int) else magnitude

/-! ## Property access and conversions on values

`Option JsVal` is a value that may be `undefined` (`none`). -/

/-- The value stored under a key of a property list; the first entry counts. -/
def lookupKey (k : String) : List (String × JsVal) → Option JsVal
  | [] => none
  | (k', v) :: rest => if k' = k then some v else lookupKey k rest

/-- Assignment to a key of a property list: the entry is replaced where it is, or
appended. -/
def assignKey (k : String) (x : JsVal) : List (String × JsVal) → List (String × JsVal)
  | [] => [(k, x)]
  | (k', v) :: rest => if k' = k then (k, x) :: rest else (k', v) :: assignKey k x rest

/-- The read `v[k]` for a value that is neither `null` nor `undefined`, for the
property names the code uses (`records`, `date`, `merce`, `patri`, `steps`, `points`,
`bonus`, `weeklyPrenda`, `achievements`, `monthlyWinners`): an own property of an
object or array, `undefined` on a string, number or boolean. -/
def JsVal.getProp (v : JsVal) (k : String) : Option JsVal :=
  match v with
  | JsVal.obj fields => lookupKey k fields
  | JsVal.arr _ props => lookupKey k props
  | _ => none

/-- The assignment `v[k] = x` for a value that is neither `null` nor `undefined`.
On a string, number or boolean the assignment has no effect (the script is not in
strict mode). -/
def JsVal.setProp (v : JsVal) (k : String) (x : JsVal) : JsVal :=
  match v with
  | JsVal.obj fields => JsVal.obj (assignKey k x fields)
  | JsVal.arr items props => JsVal.arr items (assignKey k x props)
  | other => other

/-- Truthiness, as `!x` and `x || y` test it. -/
def truthy : Option JsVal → Bool
  | none => false
  | some JsVal.null => false
  | some (JsVal.bool b) => b
  | some (JsVal.num n) => n != 0
  | some (JsVal.dec _ digits _) => digits != 0
  | some (JsVal.str s) => s != ""
  | some (JsVal.arr _ _) => true
  | some (JsVal.obj _) => true

/-- `Array.isArray(x)`. -/
def isArray : Option JsVal → Bool
  | some (JsVal.arr _ _) => true
  | _ => false

/-- The message of the `TypeError` that the runtime raises; its wording is the
runtime's own. -/
def typeErrorMessage : String := "TypeError"

/-- The message of the `SyntaxError` that `JSON.parse` raises; its wording is the
runtime's own. -/
def syntaxErrorMessage : String := "SyntaxError"

mutual
/-- `ToString(v)`.  An object answers `[object Object]` unless it has an own
property `toString`, which in a parsed document is never a function, so that the
conversion raises a `TypeError`; an array joins its items with commas, a `null` item
giving the empty string. -/
def JsVal.toJsString : JsVal → Except String (List Char)
  | JsVal.null => pure "null".data
  | JsVal.bool true => pure "true".data
  | JsVal.bool false => pure "false".data
  | JsVal.num n => pure (numberToString n)
  | JsVal.dec negative digits point => pure (decToString negative digits point)
  | JsVal.str s => pure s.data
  | JsVal.arr items _ => joinItems items
  | JsVal.obj fields =>
    if fields.any (fun p => p.1 == "toString") then throw typeErrorMessage
    else pure "[object Object]".data
/-- `Array.prototype.join` with the separator `,`. -/
def joinItems : List JsVal → Except String (List Char)
  | [] => pure []
  | [JsVal.null] => pure []
  | [x] => JsVal.toJsString x
  | JsVal.null :: y :: rest => do
    let tail ← joinItems (y :: rest)
    pure (',' :: tail)
  | x :: y :: rest => do
    let head ← JsVal.toJsString x
    let tail ← joinItems (y :: rest)
    pure (head ++ ',' :: tail)
end

/-- `parseInt(x) || 0` for a value that may be `undefined`: `x` is converted to
text (`undefined` reads `undefined`, which has no digits) and `parseInt` reads the
text.  For a Number that holds an integer the text is printed from that Number, and
the integer read from its own digits is the Number again, not rounded. -/
def parseIntOrZero : Option JsVal → Except String Int
  | none => pure 0
  | some (JsVal.num n) => pure (orZero (parseIntChars (numberToString n)))
  | some v => do
    let s ← v.toJsString
    pure (orZero (parseIntNumber s))

/-! ## DataManager: export and import (`src/app.js`, lines 212-287) -/

/-- The state as `importData` leaves it: whatever values the document carried. -/
structure RawState where
  records : List JsVal
  weeklyPrenda : JsVal
  achievements : JsVal
  monthlyWinners : JsVal

/-- The object `{ steps, points, bonus }`. -/
def PlayerDay.toJs (p : PlayerDay) : JsVal :=
  JsVal.obj [("steps", JsVal.num p.steps), ("points", JsVal.num p.points),
    ("bonus", JsVal.num p.bonus)]

/-- The object `{ date, merce, patri }`. -/
def DailyRecord.toJs (r : DailyRecord) : JsVal :=
  JsVal.obj [("date", JsVal.str r.date), ("merce", r.merce.toJs), ("patri", r.patri.toJs)]

/-- The state of the add-record path among the states that `importData` leaves. -/
def State.toRaw (state : State) : RawState :=
  { records := state.records.map DailyRecord.toJs
    weeklyPrenda := JsVal.str state.weeklyPrenda
    achievements := state.achievements
    monthlyWinners := JsVal.arr state.monthlyWinners [] }

mutual
/-- What `JSON.parse(JSON.stringify(v))` yields: the named properties of arrays are
not serialised; objects, strings, booleans, `null` and integers come back as they
were. -/
def JsVal.jsonCopy : JsVal → JsVal
  | JsVal.arr items _ => JsVal.arr (jsonCopyItems items) []
  | JsVal.obj fields => JsVal.obj (jsonCopyFields fields)
  | other => other
/-- `JsVal.jsonCopy` on the items of an array. -/
def jsonCopyItems : List JsVal → List JsVal
  | [] => []
  | x :: rest => JsVal.jsonCopy x :: jsonCopyItems rest
/-- `JsVal.jsonCopy` on the properties of an object. -/
def jsonCopyFields : List (String × JsVal) → List (String × JsVal)
  | [] => []
  | (k, x) :: rest => (k, JsVal.jsonCopy x) :: jsonCopyFields rest
end

/-- `DataManager.exportData`: `JSON.stringify(state, null, 2)`.  The text is
represented by the document it parses to. -/
def exportData (state : State) : JsVal :=
  JsVal.jsonCopy
    (JsVal.obj [("records", JsVal.arr (state.records.map DailyRecord.toJs) []),
      ("weeklyPrenda", JsVal.str state.weeklyPrenda),
      ("achievements", state.achievements),
      ("monthlyWinners", JsVal.arr state.monthlyWinners [])])

/-- The outcome that the two import functions return: `{ success: true, count }` or
`{ success: false, error }`. -/
inductive ImportResult where
  | success (count : Nat) : ImportResult
  | failure (error : String) : ImportResult
  deriving DecidableEq, Repr

/-- The read `x.k` where `x` may be `null` or `undefined`, which raises a
`TypeError`. -/
def readProp (x : Option JsVal) (k : String) : Except String (Option JsVal) :=
  match x with
  | none => throw typeErrorMessage
  | some JsVal.null => throw typeErrorMessage
  | some v => pure (v.getProp k)

/-- `x || d`: `x` when it is truthy, else `d`. -/
def orElse (x : Option JsVal) (d : JsVal) : JsVal :=
  if truthy x then x.getD d else d

/-- The six assignments of the `forEach` of `importData`, on the values found under
`record.merce` and `record.patri` (truthy, hence not `null`), line by line;
`calculatePoints` reads the `steps` just stored (on a string, number or boolean
nothing is stored at all, see `JsVal.setProp`).  The mutated objects are the ones the
record refers to. -/
def recomputePlayers (record merce patri : JsVal) : Except String JsVal := do
  let merceSteps ← parseIntOrZero (merce.getProp "steps")
  let merce := merce.setProp "steps" (JsVal.num merceSteps)
  let patriSteps ← parseIntOrZero (patri.getProp "steps")
  let patri := patri.setProp "steps" (JsVal.num patriSteps)
  let merce := merce.setProp "points" (JsVal.num (calculatePoints merceSteps))
  let patri := patri.setProp "points" (JsVal.num (calculatePoints patriSteps))
  let merce := merce.setProp "bonus" (orElse (merce.getProp "bonus") (JsVal.num 0))
  let patri := patri.setProp "bonus" (orElse (patri.getProp "bonus") (JsVal.num 0))
  pure ((record.setProp "merce" merce).setProp "patri" patri)

/-- The body of the `forEach` of `importData` for one record.  The three reads of
the validation raise a `TypeError` together when the record is `null`. -/
def importRecord (record : JsVal) : Except String JsVal := do
  let date ← readProp (some record) "date"
  let merce ← readProp (some record) "merce"
  let patri ← readProp (some record) "patri"
  if !truthy date || !truthy merce || !truthy patri then
    throw "Cada registro debe tener date, merce y patri"
  else
    recomputePlayers record (merce.getD JsVal.null) (patri.getD JsVal.null)

/-- The `forEach` over `imported.records`: the records in order, the first
exception ending the walk. -/
def importRecords : List JsVal → Except String (List JsVal)
  | [] => pure []
  | record :: rest => do
    let record ← importRecord record
    let rest ← importRecords rest
    pure (record :: rest)

/-- `state.records.sort((a, b) => new Date(b.date) - new Date(a.date))` on the
records of a document; `new Date(undefined)` is an invalid date. -/
def sortRawRecords (rt : Runtime) (records : List JsVal) : List JsVal :=
  jsSort (fun a b => dateDifference ((b.getProp "date").bind rt.timeValue)
    ((a.getProp "date").bind rt.timeValue)) records

/-- The items of `imported.records` once it is known to be an array. -/
def arrayItems : Option JsVal → List JsVal
  | some (JsVal.arr items _) => items
  | _ => []

/-- The `try` block of `importData`: the new state and the count, or the message
of the exception.  `jsonData` is the document that `JSON.parse` yields, `none` when
the text is not JSON. -/
def importDataTry (rt : Runtime) (jsonData : Option JsVal) : Except String (RawState × Nat) :=
  match jsonData with
  | none => throw syntaxErrorMessage
  | some imported => do
    let records ← readProp (some imported) "records"
    if !truthy records || !isArray records then
      throw "El JSON debe contener un array \"records\""
    else
      let items ← importRecords (arrayItems records)
      let state : RawState :=
        { records := items
          weeklyPrenda := orElse (imported.getProp "weeklyPrenda") (JsVal.str "")
          achievements := orElse (imported.getProp "achievements") (JsVal.obj [])
          monthlyWinners := orElse (imported.getProp "monthlyWinners") (JsVal.arr [] []) }
      let state := { state with records := sortRawRecords rt state.records }
      pure (state, state.records.length)

/-- `DataManager.importData`: the returned object and the state after the call. -/
def importData (rt : Runtime) (state : RawState) (jsonData : Option JsVal) :
    ImportResult × RawState :=
  match importDataTry rt jsonData with
  | Except.ok (newState, count) => (ImportResult.success count, newState)
  | Except.error message => (ImportResult.failure message, state)

/-- The body of the `forEach` of `importSimpleData` for one line, on the state and
the counter `imported`.  `parts.length >= 3` is the match on three leading parts. -/
def importLine (rt : Runtime) (acc : State × Nat) (line : List Char) : State × Nat :=
  let parts := (splitChars ',' line).map trimChars
  match parts with
  | date :: part1 :: part2 :: _ =>
    let merceSteps := orZero (parseIntNumber part1)
    let patriSteps := orZero (parseIntNumber part2)
    if matchesDatePattern date then
      ((addRecord rt acc.1 (String.mk date) merceSteps patriSteps).1, acc.2 + 1)
    else acc
  | _ => acc

/-- `DataManager.importSimpleData`: nothing in the `try` block raises on a string,
so the result is always `{ success: true, count: imported }`. -/
def importSimpleData (rt : Runtime) (state : State) (data : String) : ImportResult × State :=
  let lines := splitChars '\n' (trimChars data.data)
  let (state, imported) := lines.foldl (importLine rt) (state, 0)
  (ImportResult.success imported, state)

/-- `DataManager.reset`. -/
def reset (_state : RawState) : RawState :=
  State.initial.toRaw

/-! ## Concrete runtime -/

/-- The value of a run of decimal digits, most significant first. -/
def digitsValue (cs : List Char) : Nat :=
  cs.foldl (fun acc c => 10 * acc + (c.toNat - 48)) 0

/-- Number of days of a month of a year. -/
def daysInMonth (y m : Int) : Int :=
  if m = 2 then
    (if y % 4 = 0 ∧ (y % 100 ≠ 0 ∨ y % 400 = 0) then 29 else 28)
  else if m = 4 ∨ m = 6 ∨ m = 9 ∨ m = 11 then 30
  else 31

/-- The time value of `new Date(s)` for a date-only ISO string `YYYY-MM-DD` that
names a calendar date: midnight UTC of that date.  Any other string is read as an
invalid date here. -/
def parseISODate (s : String) : Option Int :=
  match s.data with
  | [y1, y2, y3, y4, '-', m1, m2, '-', d1, d2] =>
    if [y1, y2, y3, y4, m1, m2, d1, d2].all isDigit then
      let y : Int := digitsValue [y1, y2, y3, y4]
      let m : Int := digitsValue [m1, m2]
      let d : Int := digitsValue [d1, d2]
      if 1 ≤ m ∧ m ≤ 12 ∧ 1 ≤ d ∧ d ≤ daysInMonth y m then
        some (daysFromCivil y m d * msPerDay)
      else none
    else none
  | _ => none

/-- `new Date(v)` where `v` is a date-only ISO string, a number within the range of
time values (its integer part counts), a boolean or `null` (read as the numbers 1, 0
and 0).  Strings in another format, arrays and objects are read as invalid dates
here, which leaves out what a runtime accepts beyond the date-only form. -/
def isoTimeValue : JsVal → Option Int
  | JsVal.str s => parseISODate s
  | JsVal.num n => if -8640000000000000 ≤ n ∧ n ≤ 8640000000000000 then some n else none
  | JsVal.dec negative digits point =>
    let n := decTruncate negative digits point
    if -8640000000000000 ≤ n ∧ n ≤ 8640000000000000 then some n else none
  | JsVal.bool b => some (if b then 1 else 0)
  | JsVal.null => some 0
  | _ => none

/-- A runtime in the UTC time zone whose clock reads `now`. -/
def utcRuntime (now : Int) : Runtime :=
  { now := now, localTZA := fun _ _ => 0, timeValue := isoTimeValue }

/-- The time zone keeps one offset from UTC at all times. -/
def FixedOffset (rt : Runtime) : Prop :=
  ∃ offset : Int, ∀ (t : Int) (isUTC : Bool), rt.localTZA t isUTC = offset

/-- A local time converted to UTC is an instant of the same local day: no change of
offset carries a local time into another day. -/
def KeepsLocalDay (rt : Runtime) : Prop :=
  ∀ tlocal : Int, localDay rt (utcOfLocal rt tlocal) = tlocal / msPerDay

/-- The instant 2024-03-31T01:00:00Z, at which Europe/Madrid went from UTC+1 to
UTC+2 (02:00 local became 03:00). -/
def madridDstStart : Int := 1711846800000

/-- The instant 2024-10-27T01:00:00Z, at which Europe/Madrid went back from UTC+2 to
UTC+1 (03:00 local became 02:00). -/
def madridDstEnd : Int := 1729990800000

/-- `LocalTZA` of Europe/Madrid by the rules of 2024: two hours between the two
changes and one hour otherwise.  A local time is in summer time from 03:00 of
2024-03-31 up to 03:00 of 2024-10-27, so that the skipped hour is read with the
offset before the change and the repeated hour likewise. -/
def madridTZA (t : Int) (isUTC : Bool) : Int :=
  if isUTC then
    if madridDstStart ≤ t ∧ t < madridDstEnd then 7200000 else 3600000
  else
    if madridDstStart + 7200000 ≤ t ∧ t < madridDstEnd + 7200000 then 7200000 else 3600000

/-- A runtime in the Europe/Madrid time zone whose clock reads `now`. -/
def madridRuntime (now : Int) : Runtime :=
  { now := now, localTZA := madridTZA, timeValue := isoTimeValue }

/-- The instant 2024-03-31T23:30:00Z, which is 01:30 of 2024-04-01 in Madrid. -/
def springNow : Int := 1711927800000

/-- A record as `addRecord` would build it with no streak bonus. -/
def plainRecord (date : String) (merceSteps patriSteps : Int) : DailyRecord :=
  { date := date
    merce := { steps := merceSteps, points := calculatePoints merceSteps,
               bonus := calculateBonus merceSteps 0 }
    patri := { steps := patriSteps, points := calculatePoints patriSteps,
               bonus := calculateBonus patriSteps 0 } }

/-- Noon UTC of Wednesday 2024-01-10. -/
def sampleNow : Int := 1704888000000

/-- Five consecutive days ending on 2024-01-10 with at least 5000 steps for
Merce, and nothing on 2024-01-05. -/
def fiveDayState : State :=
  { State.initial with
    records :=
      [ plainRecord "2024-01-10" 6000 100, plainRecord "2024-01-09" 5000 100,
        plainRecord "2024-01-08" 7000 100, plainRecord "2024-01-07" 8000 100,
        plainRecord "2024-01-06" 9000 100, plainRecord "2024-01-04" 9000 100 ] }

/-- Today with exactly 5000 steps for Merce, the day before with 4999 and the day
before that with 9000. -/
def thresholdState : State :=
  { State.initial with
    records :=
      [ plainRecord "2024-01-10" 5000 100, plainRecord "2024-01-09" 4999 100,
        plainRecord "2024-01-08" 9000 100 ] }

/-- A store whose only record is dated 2024-03-31, with 6000 steps for Merce. -/
def springState : State :=
  { State.initial with records := [plainRecord "2024-03-31" 6000 100] }

/-- A store whose only record is dated Monday 2024-01-08. -/
def mondayState : State :=
  { State.initial with records := [plainRecord "2024-01-08" 12000 3000] }

/-! ### importSimpleData in the words of the specification -/

/-- The pieces are what `split` on the separator makes of the text: there is at
least one piece, no piece holds the separator, and the pieces joined by the separator
give the text. -/
def IsSplitOf (sep : Char) (cs : List Char) (pieces : List (List Char)) : Prop :=
  pieces ≠ [] ∧ (∀ piece ∈ pieces, sep ∉ piece) ∧ [sep].intercalate pieces = cs

/-- The text `t` is the text `cs` trimmed: `cs` is `t` between two runs of white
space, and `t` neither starts nor ends with white space. -/
def IsTrimOf (cs t : List Char) : Prop :=
  ∃ before after, cs = before ++ t ++ after ∧
    (∀ c ∈ before, isJsWhitespace c = true) ∧ (∀ c ∈ after, isJsWhitespace c = true) ∧
    (∀ c ∈ t.head?, isJsWhitespace c = false) ∧ (∀ c ∈ t.getLast?, isJsWhitespace c = false)

/-- The text matches `^\d{4}-\d{2}-\d{2}$`: four digits, a hyphen, two digits, a
hyphen and two digits, and nothing else. -/
def IsDateText (cs : List Char) : Prop :=
  ∃ y1 y2 y3 y4 m1 m2 d1 d2 : Char, cs = [y1, y2, y3, y4, '-', m1, m2, '-', d1, d2] ∧
    ∀ c ∈ [y1, y2, y3, y4, m1, m2, d1, d2], c.isDigit = true

/-- The line splits on `,` into at least three fields and its trimmed first field
matches the date pattern. -/
def isValidLine (line : List Char) : Bool :=
  decide ((splitChars ',' line).length ≥ 3) &&
    matchesDatePattern (trimChars ((splitChars ',' line).headD []))

/-- The trimmed field of index `k` of a line. -/
def lineField (k : Nat) (line : List Char) : List Char :=
  trimChars ((splitChars ',' line).getD k [])

/-- The `addRecord` call that a valid line stands for, steps that are not numbers
taken as 0. -/
def addLine (rt : Runtime) (state : State) (line : List Char) : State :=
  (addRecord rt state (String.mk (lineField 0 line))
    (orZero (parseIntNumber (lineField 1 line)))
    (orZero (parseIntNumber (lineField 2 line)))).1

/-- The simplified import as the specification words it: the valid lines, in
order, each an `addRecord` call; the count is their number. -/
def importSimpleBySpec (rt : Runtime) (state : State) (data : String) : ImportResult × State :=
  let valid := (splitChars '\n' (trimChars data.data)).filter isValidLine
  (ImportResult.success valid.length, valid.foldl (addLine rt) state)

/-- Three valid lines and a malformed one. -/
def sampleText : String :=
  "2024-01-08,6000,7000\n2024-01-09, 8000 ,100\nnot a record\n2024-01-10,12000,x"

/-- White space around the text and around the fields, a carriage return before the
line feed, and seven lines: three valid ones (the second with a fourth field, a
numeral that no Number holds and a field that starts with a number; the third with
an empty field and a negative number) and four that are skipped (a date that does not
match the pattern, twice; two fields only; an empty line). -/
def trickyText : String :=
  "  \n 2024-01-08 ,6000,7000\r\n2024-1-09,1,2\n2024-01-09,5\n" ++
  "2024-01-10,9007199254740993, 12abc ,extra\nx2024-01-11,1,2\n\n2024-01-12,,-7\n\t"

/-- A document whose second record lacks `merce`. -/
def missingMerceDoc : JsVal :=
  JsVal.obj
    [("records", JsVal.arr
      [ (plainRecord "2024-01-09" 6000 7000).toJs,
        JsVal.obj [("date", JsVal.str "2024-01-10"), ("patri", JsVal.obj [("steps", JsVal.num 1)])] ]
      [])]

/-! ### The full-document import in the words of the specification -/

/-- The value is an object or an array: one on which an assignment to a property
takes effect. -/
def isObject : JsVal → Bool
  | JsVal.obj _ => true
  | JsVal.arr _ _ => true
  | _ => false

/-- The step field converts to text: `ToString` raises no `TypeError` on it, as it
does on an object with an own property `toString` and on an array that holds such an
object. -/
def ReadableSteps (x : Option JsVal) : Prop :=
  ∀ v, x = some v → ∃ text, v.toJsString = Except.ok text

/-- The integer value of a supplied step field.  An integer below `10^21` in
absolute value is itself.  A string, a number that is not such an integer (in its
printed form) and an array (its items joined by commas) give the integer that
`parseInt` reads at the start of the text, and 0 when it reads none.  An absent field,
`null`, a boolean and an object give 0. -/
def integerValue : Option JsVal → Int
  | some (JsVal.num n) =>
    if -(10 : Int) ^ 21 < n ∧ n < 10 ^ 21 then n
    else orZero (parseIntChars (numberToString n))
  | some (JsVal.dec negative digits point) =>
    orZero (parseIntNumber (decToString negative digits point))
  | some (JsVal.str s) => orZero (parseIntNumber s.data)
  | some (JsVal.arr items _) =>
    match joinItems items with
    | Except.ok text => orZero (parseIntNumber text)
    | Except.error _ => 0
  | _ => 0

/-- A record of a document with a truthy `date` and with an object or an array under
`merce` and under `patri` whose step fields convert to text. -/
def WellFormedRecord (r : JsVal) : Prop :=
  truthy (r.getProp "date") = true ∧
  ∃ m p, r.getProp "merce" = some m ∧ r.getProp "patri" = some p ∧
    isObject m = true ∧ isObject p = true ∧
    ReadableSteps (m.getProp "steps") ∧ ReadableSteps (p.getProp "steps")

/-- What the import makes of the object of one player: `steps` is the integer value
of the supplied field, `points` is recomputed from it, `bonus` is the supplied one
when that is truthy and 0 otherwise, and every other property, the items of an array
among them, is kept. -/
def PlayerImported (before after : JsVal) : Prop :=
  after.getProp "steps" = some (JsVal.num (integerValue (before.getProp "steps"))) ∧
  after.getProp "points"
    = some (JsVal.num (calculatePoints (integerValue (before.getProp "steps")))) ∧
  (∃ bonus, after.getProp "bonus" = some bonus ∧
    (truthy (before.getProp "bonus") = true → before.getProp "bonus" = some bonus) ∧
    (truthy (before.getProp "bonus") = false → bonus = JsVal.num 0)) ∧
  (∀ k, k ≠ "steps" → k ≠ "points" → k ≠ "bonus" → after.getProp k = before.getProp k) ∧
  isArray (some after) = isArray (some before) ∧
  arrayItems (some after) = arrayItems (some before)

/-- What the import makes of one record: the objects of both players are imported
and every other property, `date` among them, is kept. -/
def RecordImported (r r' : JsVal) : Prop :=
  (∃ m m', r.getProp "merce" = some m ∧ r'.getProp "merce" = some m' ∧
    PlayerImported m m') ∧
  (∃ p p', r.getProp "patri" = some p ∧ r'.getProp "patri" = some p' ∧
    PlayerImported p p') ∧
  (∀ k, k ≠ "merce" → k ≠ "patri" → r'.getProp k = r.getProp k)

/-- A document whose record has the number 5 under `merce` and a supplied bonus
`false` for Patri. -/
def primitiveMerceDoc : JsVal :=
  JsVal.obj
    [("records", JsVal.arr
      [JsVal.obj [("date", JsVal.str "2024-01-10"), ("merce", JsVal.num 5),
        ("patri", JsVal.obj [("steps", JsVal.num 100), ("bonus", JsVal.bool false)])]]
      [])]

/-- A document whose record carries the empty string as its `date`. -/
def emptyDateDoc : JsVal :=
  JsVal.obj
    [("records", JsVal.arr
      [JsVal.obj [("date", JsVal.str ""), ("merce", JsVal.obj [("steps", JsVal.num 100)]),
        ("patri", JsVal.obj [("steps", JsVal.num 200)])]]
      [])]

/-- A document whose record has the object `{"toString": 1}` as the steps of
Merce. -/
def unreadableStepsDoc : JsVal :=
  JsVal.obj
    [("records", JsVal.arr
      [JsVal.obj [("date", JsVal.str "2024-01-10"),
        ("merce", JsVal.obj [("steps", JsVal.obj [("toString", JsVal.num 1)])]),
        ("patri", JsVal.obj [("steps", JsVal.num 200)])]]
      [])]

/-- A document with the steps `1e21` and `5e-7` in its first record, with its two
records in ascending order of date and with `weeklyPrenda: 0`. -/
def oddStepsDoc : JsVal :=
  JsVal.obj
    [("records", JsVal.arr
      [ JsVal.obj [("date", JsVal.str "2024-01-08"),
          ("merce", JsVal.obj [("steps", JsVal.dec false 1 22)]),
          ("patri", JsVal.obj [("steps", JsVal.dec false 5 (-6))])],
        JsVal.obj [("date", JsVal.str "2024-01-10"),
          ("merce", JsVal.obj [("steps", JsVal.num 6000)]),
          ("patri", JsVal.obj [("steps", JsVal.num 7000)])] ]
      []),
     ("weeklyPrenda", JsVal.num 0)]

/-- Two well-formed records, out of order: steps given as a string, as numbers, as
an object and not at all, a supplied `points` that is wrong, a supplied `bonus`, and
an array under `patri`. -/
def sampleRecords : List JsVal :=
  [ JsVal.obj [("date", JsVal.str "2024-01-08"),
      ("merce", JsVal.obj [("steps", JsVal.str "12000 pasos"), ("points", JsVal.num 99)]),
      ("patri", JsVal.obj [("steps", JsVal.num 3000), ("bonus", JsVal.num 7)])],
    JsVal.obj [("date", JsVal.str "2024-01-10"),
      ("merce", JsVal.obj [("steps", JsVal.obj []), ("name", JsVal.str "Merce")]),
      ("patri", JsVal.arr [JsVal.num 1] [])] ]

/-- A document with the records `sampleRecords` and a garment. -/
def sampleDoc : JsVal :=
  JsVal.obj
    [("records", JsVal.arr sampleRecords []), ("weeklyPrenda", JsVal.str "calcetines")]

/-! ### Histories of `addRecord` calls -/

/-- The state after a sequence of `addRecord` calls, each `(now, date, merceSteps,
patriSteps)` made when the clock reads `now`. -/
def applyCalls (rt : Runtime) (calls : List (Int × String × Int × Int)) (state : State) : State :=
  calls.foldl
    (fun s call => (addRecord { rt with now := call.1 } s call.2.1 call.2.2.1 call.2.2.2).1)
    state

/-- The state with no records and the garment `w`, as `savePrenda` leaves it. -/
def emptyWithPrenda (w : String) : State :=
  { State.initial with weeklyPrenda := w }

/-- A record as `addRecord` builds it from a non-empty date and steps from 0 up to,
not including, `10^21`. -/
def Exportable (r : DailyRecord) : Prop :=
  r.date ≠ "" ∧
  (0 ≤ r.merce.steps ∧ r.merce.steps < 10 ^ 21) ∧
  (0 ≤ r.patri.steps ∧ r.patri.steps < 10 ^ 21) ∧
  r.merce.points = calculatePoints r.merce.steps ∧
  r.patri.points = calculatePoints r.patri.steps


/-- Three calls on consecutive days, the last one replacing the record of the
first, with the garment `calcetines`. -/
def sampleCalls : List (Int × String × Int × Int) :=
  [ (sampleNow - 86400000, "2024-01-09", 6000, 7000),
    (sampleNow, "2024-01-10", 12000, 0),
    (sampleNow, "2024-01-09", 20500, 9999) ]

/-- One call that records `10^21` steps for Merce. -/
def hugeStepsCalls : List (Int × String × Int × Int) :=
  [(sampleNow, "2024-01-10", 1000000000000000000000, 0)]

/-- One call with the empty string as the date. -/
def emptyDateCalls : List (Int × String × Int × Int) :=
  [(sampleNow, "", 6000, 7000)]

/-! ## UI: standings (`src/app.js`, lines 363-416 and 474-501)

The DOM is not modelled: each function returns what it writes to the page, from the
two totals that it reads with `getWeeklyPoints` or `getMonthlyPoints`. -/

/-- What `UI.updateScoreboard` shows of the weekly standing: whether each crown is
visible (the player's card then has the class `winner`) and the text of
`score-diff`. -/
structure Scoreboard where
  crownMerce : Bool
  crownPatri : Bool
  scoreDiff : String
  deriving DecidableEq, Repr

/-- The standing part of `UI.updateScoreboard`: both crowns are hidden first, then
the `if ... else if` shows at most one; the text names the leader and the
difference, or says that it is a tie. -/
def updateScoreboard (merceWeekly patriWeekly : Int) : Scoreboard :=
  let crownMerce := false
  let crownPatri := false
  let (crownMerce, crownPatri) :=
    if merceWeekly > patriWeekly then (true, crownPatri)
    else if patriWeekly > merceWeekly then (crownMerce, true)
    else (crownMerce, crownPatri)
  let diff := |merceWeekly - patriWeekly|
  let scoreDiff :=
    if diff > 0 then
      let leader := if merceWeekly > patriWeekly then "Merce" else "Patri"
      leader ++ " +" ++ String.mk (numberToString diff) ++ " pts"
    else "¡Empate!"
  { crownMerce := crownMerce, crownPatri := crownPatri, scoreDiff := scoreDiff }

/-- What `UI.updateMonthlyTab` shows of the monthly standing. -/
structure MonthlyBoard where
  leader : String
  second : String
  leaderPts : Int
  secondPts : Int
  deriving DecidableEq, Repr

/-- The standing part of `UI.updateMonthlyTab`: `if (merceMonthly >= patriMonthly)`. -/
def updateMonthlyTab (merceMonthly patriMonthly : Int) : MonthlyBoard :=
  if merceMonthly ≥ patriMonthly then
    { leader := "Merce", second := "Patri", leaderPts := merceMonthly,
      secondPts := patriMonthly }
  else
    { leader := "Patri", second := "Merce", leaderPts := patriMonthly,
      secondPts := merceMonthly }

/-- Seven consecutive days before 2024-01-10 with exactly 5000 steps for Merce. -/
def lowStreakState : State :=
  { State.initial with
    records :=
      [ plainRecord "2024-01-09" 5000 0, plainRecord "2024-01-08" 5000 0,
        plainRecord "2024-01-07" 5000 0, plainRecord "2024-01-06" 5000 0,
        plainRecord "2024-01-05" 5000 0, plainRecord "2024-01-04" 5000 0,
        plainRecord "2024-01-03" 5000 0 ] }

/-- A document with two records dated 2024-01-10. -/
def duplicateDateDoc : JsVal :=
  JsVal.obj
    [("records", JsVal.arr
      [ (plainRecord "2024-01-10" 6000 7000).toJs, (plainRecord "2024-01-10" 100 200).toJs ]
      [])]

/-! ### Calendar dates in the words of the specification -/

/-- Year, month and day of a date-only string `YYYY-MM-DD` that names a calendar
date; `none` for any other string. -/
def calendarDate (s : String) : Option (Int × Int × Int) :=
  match s.data with
  | [y1, y2, y3, y4, '-', m1, m2, '-', d1, d2] =>
    if [y1, y2, y3, y4, m1, m2, d1, d2].all isDigit then
      let y : Int := digitsValue [y1, y2, y3, y4]
      let m : Int := digitsValue [m1, m2]
      let d : Int := digitsValue [d1, d2]
      if 1 ≤ m ∧ m ≤ 12 ∧ 1 ≤ d ∧ d ≤ daysInMonth y m then some (y, m, d) else none
    else none
  | _ => none

/-- The string is a valid `YYYY-MM-DD` calendar date. -/
def ValidDate (s : String) : Prop :=
  ∃ ymd, calendarDate s = some ymd

/-- The calendar date `a` is on or after the calendar date `b`, by year, then month,
then day. -/
def dateOnOrAfter (a b : String) : Prop :=
  ∃ ya ma da yb mb db, calendarDate a = some (ya, ma, da) ∧ calendarDate b = some (yb, mb, db) ∧
    (yb < ya ∨ (yb = ya ∧ (mb < ma ∨ (mb = ma ∧ db ≤ da))))

/-- The date of a record of a document is the valid calendar date `s`. -/
def rawDateIs (r : JsVal) (s : String) : Prop :=
  r.getProp "date" = some (JsVal.str s) ∧ ValidDate s

/-- Five records out of order, all with valid dates. -/
def shuffledState : State :=
  { State.initial with
    records :=
      [ plainRecord "2024-01-07" 1 2, plainRecord "2024-03-01" 3 4,
        plainRecord "2023-12-31" 5 6, plainRecord "2024-02-29" 7 8,
        plainRecord "2024-01-10" 9 10 ] }

/-! ## ACHIEVEMENTS (`src/app.js`, lines 304-347) -/

/-- The identifier of a player as the code passes it around: `'merce'` or
`'patri'`. -/
def Player.key : Player → String
  | Player.merce => "merce"
  | Player.patri => "patri"

/-- An entry of the catalog.  `check` reads the global state and, through
`getStreak`, the clock; it raises only where a property of `null` is read. -/
structure Achievement where
  id : String
  name : String
  desc : String
  icon : String
  check : Runtime → State → Player → Except String Bool

/-- `state.monthlyWinners.some(w => w.player === player)`: the entries in order, up
to the first whose `player` is the identifier; reading `player` of a `null` entry
raises a `TypeError`. -/
def someWinner (player : Player) : List JsVal → Except String Bool
  | [] => Except.ok false
  | w :: rest =>
    match readProp (some w) "player" with
    | Except.error message => Except.error message
    | Except.ok (some (JsVal.str s)) =>
      if s = player.key then Except.ok true else someWinner player rest
    | Except.ok _ => someWinner player rest

/-- The catalog `ACHIEVEMENTS`. -/
def ACHIEVEMENTS : List Achievement :=
  [ { id := "first_week"
      name := "Primera Semana"
      desc := "Gana tu primera semana"
      icon := "🏆"
      check := fun _ state player => someWinner player state.monthlyWinners },
    { id := "streak_7"
      name := "Semana Perfecta"
      desc := "7 días seguidos activa"
      icon := "🔥"
      check := fun rt state player => Except.ok (decide (getStreak rt state player ≥ 7)) },
    { id := "steps_15k"
      name := "Día 15K"
      desc := "Llega a 15.000 pasos en un día"
      icon := "🚀"
      check := fun _ state player =>
        Except.ok (state.records.any (fun r => decide ((r.get player).steps ≥ 15000))) },
    { id := "steps_20k"
      name := "Máximo Poder"
      desc := "Llega a 20.000 pasos en un día"
      icon := "⚡"
      check := fun _ state player =>
        Except.ok (state.records.any (fun r => decide ((r.get player).steps ≥ 20000))) },
    { id := "streak_30"
      name := "Mes Perfecto"
      desc := "30 días seguidos activa"
      icon := "💎"
      check := fun rt state player => Except.ok (decide (getStreak rt state player ≥ 30)) },
    { id := "total_100k"
      name := "Centenaria"
      desc := "Acumula 100.000 pasos totales"
      icon := "🎯"
      check := fun _ state player =>
        Except.ok (decide
          (state.records.foldl (fun sum r => sum + (r.get player).steps) 0 ≥ 100000)) } ]

/-- A state with one monthly winner, Patri, and two records. -/
def winnerState : State :=
  { State.initial with
    records := [plainRecord "2024-01-10" 16000 90000, plainRecord "2024-01-09" 4000 20000]
    monthlyWinners :=
      [JsVal.obj [("month", JsVal.str "2023-12"), ("player", JsVal.str "patri")]] }

/-- A state whose monthly winners are `null` and then an entry that names Merce. -/
def nullWinnerState : State :=
  { State.initial with
    monthlyWinners :=
      [JsVal.null, JsVal.obj [("month", JsVal.str "2023-12"), ("player", JsVal.str "merce")]] }

/-- A document without records whose `monthlyWinners` are those of
`nullWinnerState`. -/
def nullWinnerDoc : JsVal :=
  JsVal.obj
    [("records", JsVal.arr [] []),
     ("monthlyWinners", JsVal.arr nullWinnerState.monthlyWinners [])]

/-! ## Theorems -/

/-- The floor division of the embedding is the floor of the exact quotient. -/
theorem calculatePoints_eq_floor (steps : Int) :
    calculatePoints steps = ⌊((min steps 20000 : Int) : ℚ) / 1000⌋ := by
  have h := Rat.floor_intCast_div_natCast (min steps 20000) 1000
  simp only [Nat.cast_ofNat] at h
  rw [h]
  simp only [calculatePoints, MAX_DAILY_STEPS, POINTS_PER_STEPS]
  exact Int.fdiv_eq_ediv _ (by norm_num)

/-- C1: for every non-negative integer `steps`, `calculatePoints steps` is
`floor(min(steps, 20000) / 1000)`; the four sample values of the spec hold, and any
`steps` above the cap of 20000 yields the same 20 points as the cap itself. -/
theorem calculatePoints_spec (steps : Int) (_h : 0 ≤ steps) :
    calculatePoints steps = ⌊((min steps 20000 : Int) : ℚ) / 1000⌋ ∧
    calculatePoints 0 = 0 ∧ calculatePoints 9999 = 9 ∧
    calculatePoints 10000 = 10 ∧ calculatePoints 25000 = 20 ∧
    (20000 < steps → calculatePoints steps = calculatePoints 20000) := by
  refine ⟨calculatePoints_eq_floor steps, by decide, by decide, by decide, by decide, ?_⟩
  intro hs
  simp only [calculatePoints, MAX_DAILY_STEPS]
  rw [min_eq_right (le_of_lt hs)]
  rfl

/-- Witness for C1 at `steps = 25000`. -/
theorem calculatePoints_spec_witness :
    (0 : Int) ≤ 25000 ∧ calculatePoints 25000 = calculatePoints 20000 :=
  ⟨by decide, (calculatePoints_spec 25000 (by decide)).2.2.2.2.2 (by decide)⟩

/-- C2: for all integers `steps` and `streak`, `calculateBonus` is the sum of the
10k bonus (1 when `steps ≥ 10000`) and the streak bonus (2 when `streak ≥ 7`); the
four sample values of the spec hold. -/
theorem calculateBonus_spec (steps streak : Int) :
    calculateBonus steps streak
      = (if steps ≥ 10000 then 1 else 0) + (if streak ≥ 7 then 2 else 0) ∧
    calculateBonus 9999 0 = 0 ∧ calculateBonus 10000 0 = 1 ∧
    calculateBonus 10000 7 = 3 ∧ calculateBonus 5000 7 = 2 := by
  refine ⟨?_, by decide, by decide, by decide, by decide⟩
  simp only [calculateBonus, BONUS_10K, BONUS_7_DAYS_8K]
  split_ifs <;> rfl


/-! ### getStreak -/

/-- In a time zone of fixed offset `setDate` moves the instant by whole days. -/
theorem setDate_fixedOffset (rt : Runtime) (h : FixedOffset rt) (t dt : Int) :
    setDate rt t dt = t + (dt - getDate rt t) * msPerDay := by
  obtain ⟨offset, hoff⟩ := h
  simp only [setDate, utcOfLocal, localDay, localTime, hoff]
  generalize getDate rt t = g
  unfold msPerDay
  omega

/-- In a time zone of fixed offset, setting the day of the month `i` days back
shifts the UTC day number by `i`. -/
theorem toISODate_sub_days (rt : Runtime) (h : FixedOffset rt) (t : Int) (i : Nat) :
    toISODate (setDate rt t (getDate rt t - (i : Int)))
      = isoDateOfDay (t / msPerDay - (i : Int)) := by
  rw [setDate_fixedOffset rt h]
  unfold toISODate msPerDay
  congr 1
  omega

/-- With at most one record per date, the record that `find` returns decides
whether a day qualifies. -/
theorem find_date_qualifies (records : List DailyRecord) (player : Player) (s : String)
    (hnd : (records.map (fun r => r.date)).Nodup) :
    (match records.find? (fun r => r.date == s) with
      | some record => decide ((record.get player).steps ≥ MIN_DAILY_STEPS)
      | none => false)
    = records.any (fun r => r.date == s && decide ((r.get player).steps ≥ 5000)) := by
  induction records with
  | nil => rfl
  | cons r rs ih =>
    simp only [List.map_cons, List.nodup_cons] at hnd
    by_cases hr : r.date = s
    · have hnone : rs.any (fun r => r.date == s &&
          decide ((r.get player).steps ≥ 5000)) = false := by
        rw [List.any_eq_false]
        intro x hx hq
        simp only [Bool.and_eq_true, beq_iff_eq] at hq
        exact hnd.1 (List.mem_map.mpr ⟨x, hx, by rw [hq.1, hr]⟩)
      have hb : (r.date == s) = true := by simpa using hr
      simp only [List.find?_cons, hb, List.any_cons, hnone, Bool.true_and, Bool.or_false,
        MIN_DAILY_STEPS]
    · have hb : (r.date == s) = false := by simpa using hr
      simp only [List.find?_cons, hb, List.any_cons, Bool.false_and, Bool.false_or]
      exact ih hnd.2

/-- One iteration of the loop in terms of `qualifies`, in a time zone of fixed
offset. -/
theorem getStreakLoop_succ (rt : Runtime) (hfix : FixedOffset rt) (state : State)
    (player : Player) (hnd : (state.records.map (fun r => r.date)).Nodup)
    (fuel i streak : Nat) :
    getStreakLoop rt state player (fuel + 1) i streak =
      if qualifies state player (currentDay rt - (i : Int)) then
        getStreakLoop rt state player fuel (i + 1) (streak + 1)
      else if i > 0 then streak
      else getStreakLoop rt state player fuel (i + 1) streak := by
  have hq := find_date_qualifies state.records player
    (isoDateOfDay (currentDay rt - (i : Int))) hnd
  unfold qualifies
  rw [← hq, getStreakLoop]
  simp only [toISODate_sub_days rt hfix, currentDay]
  have key : ∀ (found : Option DailyRecord) (a b : Nat),
      (match found with
        | some record => if (record.get player).steps ≥ MIN_DAILY_STEPS then a else b
        | none => b)
      = if (match found with
            | some record => decide ((record.get player).steps ≥ MIN_DAILY_STEPS)
            | none => false) = true then a else b := by
    intro found a b
    cases found with
    | none => simp
    | some record =>
      by_cases hs : (record.get player).steps ≥ MIN_DAILY_STEPS <;> simp [hs]
  exact key _ _ _

/-- After today the loop counts the run of qualifying days and stops at the first
day that does not qualify. -/
theorem getStreakLoop_run (rt : Runtime) (hfix : FixedOffset rt) (state : State)
    (player : Player) (hnd : (state.records.map (fun r => r.date)).Nodup) (fuel : Nat) :
    ∀ (i streak : Nat), 0 < i →
      getStreakLoop rt state player fuel i streak =
        streak + ((List.range' i fuel).takeWhile
          (fun (j : Nat) => qualifies state player (currentDay rt - (j : Int)))).length := by
  induction fuel with
  | zero => intro i streak _; simp [getStreakLoop]
  | succ n ih =>
    intro i streak hi
    rw [getStreakLoop_succ rt hfix state player hnd, List.range'_succ]
    by_cases hq : qualifies state player (currentDay rt - (i : Int)) = true
    · rw [if_pos hq, ih (i + 1) (streak + 1) (Nat.succ_pos i), List.takeWhile_cons]
      simp only [hq, if_true, List.length_cons]
      omega
    · rw [if_neg hq, if_pos hi, List.takeWhile_cons]
      simp only [hq, Bool.false_eq_true, if_false, List.length_nil, Nat.add_zero]

/-- In a time zone of fixed offset the loop of the source computes the streak of
the specification. -/
theorem getStreak_eq_streakBySpec (rt : Runtime) (hfix : FixedOffset rt) (state : State)
    (player : Player) (hnd : (state.records.map (fun r => r.date)).Nodup) :
    getStreak rt state player = streakBySpec rt state player := by
  unfold getStreak streakBySpec
  rw [getStreakLoop_succ rt hfix state player hnd]
  simp only [Nat.cast_zero, sub_zero, lt_irrefl, if_false, Nat.zero_add]
  by_cases hq : qualifies state player (currentDay rt) = true
  · rw [if_pos hq, if_pos hq, getStreakLoop_run rt hfix state player hnd 364 1 1 Nat.one_pos]
  · rw [if_neg hq, if_neg hq, getStreakLoop_run rt hfix state player hnd 364 1 0 Nat.one_pos]

/-- The length of the run of qualifying days in a range of day offsets. -/
theorem takeWhile_range_length (p : Nat → Bool) (n : Nat) :
    ∀ (s m : Nat), m ≤ n → (∀ j, s ≤ j → j < s + m → p j = true) →
      (m < n → p (s + m) = false) →
      ((List.range' s n).takeWhile p).length = m := by
  induction n with
  | zero => intro s m hm _ _; simp; omega
  | succ n ih =>
    intro s m hm hall hstop
    rw [List.range'_succ, List.takeWhile_cons]
    cases m with
    | zero =>
      have h0 : p s = false := by simpa using hstop (Nat.succ_pos n)
      simp [h0]
    | succ m =>
      have hs : p s = true := hall s (Nat.le_refl s) (by omega)
      simp only [hs, if_true, List.length_cons, Nat.add_right_cancel_iff]
      apply ih (s + 1) m (by omega)
      · intro j h1 h2
        exact hall j (by omega) (by omega)
      · intro h
        have := hstop (by omega)
        rwa [show s + (m + 1) = s + 1 + m by omega] at this

/-- In a time zone of fixed offset and a store with at most one record per date,
`getStreak` is 1 when today has a record with at least 5000 steps for the player (0
otherwise) plus the number of consecutive days `t-1, t-2, ...` (at most 364) that
each have such a record; `k` consecutive qualifying days ending today followed by a
day that does not qualify give a streak of `k`. -/
theorem getStreak_fixedOffset (rt : Runtime) (hfix : FixedOffset rt) (state : State)
    (player : Player) (hnd : (state.records.map (fun r => r.date)).Nodup) :
    getStreak rt state player
      = (if qualifies state player (currentDay rt) then 1 else 0) +
        ((List.range' 1 364).takeWhile
          (fun (i : Nat) => qualifies state player (currentDay rt - (i : Int)))).length ∧
    (∀ k : Nat, 1 ≤ k → k ≤ 365 →
      (∀ i : Nat, i < k → qualifies state player (currentDay rt - (i : Int)) = true) →
      qualifies state player (currentDay rt - (k : Int)) = false →
      getStreak rt state player = k) := by
  have heq := getStreak_eq_streakBySpec rt hfix state player hnd
  refine ⟨heq, ?_⟩
  intro k hk1 hk365 hall hstop
  rw [heq]
  unfold streakBySpec
  have h0 : qualifies state player (currentDay rt) = true := by
    simpa using hall 0 (by omega)
  rw [if_pos h0,
    takeWhile_range_length
      (fun (i : Nat) => qualifies state player (currentDay rt - (i : Int))) 364 1 (k - 1)
      (by omega) (fun j h1 h2 => hall j (by omega))
      (fun h => by
        have hk : 1 + (k - 1) = k := by omega
        simpa only [hk] using hstop)]
  omega

/-- C3, evaluated at a failing input.  Where the offset of the time zone is fixed,
and the store has at most one record per date, `getStreak` is what the claim says:
1 for a today with at least 5000 steps plus the run of such days before it, so that
five such days ending today give 5, and a day of 4999 steps ends the run where one of
5000 continues it.  But in Europe/Madrid at 2024-03-31T23:30Z (01:30 of 2024-04-01
local, the night after the clocks went forward), with the one record dated
2024-03-31, the keys that the loop builds for `i = 0, 1, 2` are `2024-03-31`,
`2024-03-31` and `2024-03-30`: the recorded day is counted twice and `getStreak` is
2, where the claim gives 1 (today with 6000 steps, no record the day before). -/
theorem getStreak_counts_day_twice :
    (∀ (rt : Runtime) (state : State) (player : Player), FixedOffset rt →
      (state.records.map (fun r => r.date)).Nodup →
      getStreak rt state player
        = (if qualifies state player (currentDay rt) then 1 else 0) +
          ((List.range' 1 364).takeWhile
            (fun (i : Nat) => qualifies state player (currentDay rt - (i : Int)))).length ∧
      (∀ k : Nat, 1 ≤ k → k ≤ 365 →
        (∀ i : Nat, i < k → qualifies state player (currentDay rt - (i : Int)) = true) →
        qualifies state player (currentDay rt - (k : Int)) = false →
        getStreak rt state player = k)) ∧
    getStreak (utcRuntime sampleNow) fiveDayState Player.merce = 5 ∧
    getStreak (utcRuntime sampleNow) thresholdState Player.merce = 1 ∧
    getStreak (utcRuntime (sampleNow + 86400000)) thresholdState Player.merce = 1 ∧
    getStreak (utcRuntime (sampleNow - 86400000)) thresholdState Player.merce = 1 ∧
    (springState.records.map (fun r => r.date)).Nodup ∧
    toISODate springNow = "2024-03-31" ∧
    qualifies springState Player.merce (currentDay (madridRuntime springNow)) = true ∧
    qualifies springState Player.merce (currentDay (madridRuntime springNow) - 1) = false ∧
    streakBySpec (madridRuntime springNow) springState Player.merce = 1 ∧
    (List.range 3).map (fun (i : Nat) =>
        toISODate (setDate (madridRuntime springNow) springNow
          (getDate (madridRuntime springNow) springNow - (i : Int))))
      = ["2024-03-31", "2024-03-31", "2024-03-30"] ∧
    getStreak (madridRuntime springNow) springState Player.merce = 2 ∧
    getStreak (utcRuntime springNow) springState Player.merce = 1 := by
  refine ⟨fun rt state player hfix hnd => getStreak_fixedOffset rt hfix state player hnd,
    by decide, by decide, by decide, by decide, by decide, by decide, by decide, by decide,
    by decide, by decide, by decide, by decide⟩

/-! ### addRecord -/

/-- The streak reads nothing of the state but its records. -/
theorem getStreakLoop_congr (rt : Runtime) (s₁ s₂ : State) (player : Player)
    (h : s₁.records = s₂.records) (fuel : Nat) :
    ∀ (i streak : Nat),
      getStreakLoop rt s₁ player fuel i streak = getStreakLoop rt s₂ player fuel i streak := by
  induction fuel with
  | zero => intro i streak; rfl
  | succ n ih =>
    intro i streak
    rw [getStreakLoop, getStreakLoop, h]
    simp only [ih]

/-- The streak reads nothing of the state but its records. -/
theorem getStreak_congr (rt : Runtime) (s₁ s₂ : State) (player : Player)
    (h : s₁.records = s₂.records) :
    getStreak rt s₁ player = getStreak rt s₂ player :=
  getStreakLoop_congr rt s₁ s₂ player h 365 0 0

/-- Sorting permutes the records. -/
theorem sortRecords_perm (rt : Runtime) (records : List DailyRecord) :
    (sortRecords rt records).Perm records :=
  List.perm_insertionSort _ records

/-- The date of the record that `addRecord` builds. -/
theorem addRecord_date (rt : Runtime) (state : State) (d : String) (a b : Int) :
    (addRecord rt state d a b).2.date = d := rfl

/-- The store after `addRecord` is, up to order, the old store without the records
dated `d`, plus the new record. -/
theorem addRecord_records_perm (rt : Runtime) (state : State) (d : String) (a b : Int) :
    (addRecord rt state d a b).1.records.Perm
      (state.records.filter (fun r => r.date != d) ++ [(addRecord rt state d a b).2]) :=
  sortRecords_perm rt _

/-- After `addRecord` the records dated `d` are the new record alone. -/
theorem addRecord_filter_date (rt : Runtime) (state : State) (d : String) (a b : Int) :
    (addRecord rt state d a b).1.records.filter (fun r => r.date == d)
      = [(addRecord rt state d a b).2] := by
  have hp := (addRecord_records_perm rt state d a b).filter (fun r => r.date == d)
  have hnone : (state.records.filter (fun r => r.date != d)).filter (fun r => r.date == d)
      = [] := by
    rw [List.filter_filter, List.filter_eq_nil_iff]
    intro r _
    by_cases h : r.date = d <;> simp [h]
  rw [List.filter_append, hnone, List.nil_append] at hp
  have hone : [(addRecord rt state d a b).2].filter (fun r => r.date == d)
      = [(addRecord rt state d a b).2] := by
    simp [addRecord_date]
  rw [hone] at hp
  exact List.perm_singleton.mp hp

/-- A record dated otherwise occurs after `addRecord` as often as before. -/
theorem addRecord_count_other (rt : Runtime) (state : State) (d : String) (a b : Int)
    (r : DailyRecord) (hr : r.date ≠ d) :
    (addRecord rt state d a b).1.records.count r = state.records.count r := by
  rw [(addRecord_records_perm rt state d a b).count_eq, List.count_append]
  have hne : r ≠ (addRecord rt state d a b).2 := by
    intro h
    apply hr
    rw [h]
    rfl
  rw [List.count_singleton, if_neg (by simpa using Ne.symm hne), Nat.add_zero]
  exact List.count_filter (by simpa using hr)

/-- C4: after `addRecord(d, a, b)` the store holds exactly one record dated `d`, the
record just built; it has `merce.steps = a`, `patri.steps = b`,
`merce.points = calculatePoints a` and `patri.points = calculatePoints b`; it is the
same whatever records dated `d` the store held before (no field of an earlier record
for `d` enters it); and every record dated otherwise occurs in the store as often as
before, unchanged. -/
theorem addRecord_spec (rt : Runtime) (state : State) (d : String) (a b : Int) :
    (addRecord rt state d a b).1.records.filter (fun r => r.date == d)
      = [(addRecord rt state d a b).2] ∧
    (addRecord rt state d a b).2.date = d ∧
    (addRecord rt state d a b).2.merce.steps = a ∧
    (addRecord rt state d a b).2.patri.steps = b ∧
    (addRecord rt state d a b).2.merce.points = calculatePoints a ∧
    (addRecord rt state d a b).2.patri.points = calculatePoints b ∧
    (∀ other : State,
      other.records.filter (fun r => r.date != d)
        = state.records.filter (fun r => r.date != d) →
      (addRecord rt other d a b).2 = (addRecord rt state d a b).2) ∧
    (∀ r : DailyRecord, r.date ≠ d →
      (addRecord rt state d a b).1.records.count r = state.records.count r) := by
  refine ⟨addRecord_filter_date rt state d a b, rfl, rfl, rfl, rfl, rfl, ?_,
    addRecord_count_other rt state d a b⟩
  intro other h
  have hm := getStreak_congr rt
    { other with records := other.records.filter (fun r => r.date != d) }
    { state with records := state.records.filter (fun r => r.date != d) } Player.merce h
  have hp := getStreak_congr rt
    { other with records := other.records.filter (fun r => r.date != d) }
    { state with records := state.records.filter (fun r => r.date != d) } Player.patri h
  simp only [addRecord, hm, hp]

/-- C5: the bonus that `addRecord` stores for each player is `calculateBonus` of that
player's steps and of the streak read on the store from which the records dated `d`
have been removed and to which the new record has not been added; a later
`addRecord` for another date leaves the stored record, bonus included, as it is.
The closing example has a later record that raises the streak from 7 to 8 while the
bonus stored on 2024-01-05 stays 1, where a fresh computation would give 3. -/
theorem addRecord_bonus_snapshot (rt : Runtime) (state : State) (d : String) (a b : Int) :
    (addRecord rt state d a b).2 ∈ (addRecord rt state d a b).1.records ∧
    (addRecord rt state d a b).2.merce.bonus
      = calculateBonus a
          (getStreak rt { state with records := state.records.filter (fun r => r.date != d) }
            Player.merce) ∧
    (addRecord rt state d a b).2.patri.bonus
      = calculateBonus b
          (getStreak rt { state with records := state.records.filter (fun r => r.date != d) }
            Player.patri) ∧
    (∀ (later : Runtime) (d' : String) (a' b' : Int), d' ≠ d →
      (addRecord later (addRecord rt state d a b).1 d' a' b').1.records.filter
          (fun r => r.date == d)
        = [(addRecord rt state d a b).2]) ∧
    (getStreak (utcRuntime sampleNow) fiveDayState Player.merce = 5 ∧
     getStreak (utcRuntime sampleNow)
        (addRecord (utcRuntime sampleNow) fiveDayState "2024-01-05" 12000 3).1
        Player.merce = 7 ∧
     getStreak (utcRuntime sampleNow)
        (addRecord (utcRuntime sampleNow)
          (addRecord (utcRuntime sampleNow) fiveDayState "2024-01-05" 12000 3).1
          "2024-01-03" 6000 0).1
        Player.merce = 8 ∧
     ((addRecord (utcRuntime sampleNow)
          (addRecord (utcRuntime sampleNow) fiveDayState "2024-01-05" 12000 3).1
          "2024-01-03" 6000 0).1.records.filter
        (fun r => r.date == "2024-01-05")).map (fun r => r.merce.bonus) = [1] ∧
     calculateBonus 12000 8 = 3) := by
  refine ⟨?_, rfl, rfl, ?_, by decide, by decide, by decide, by decide, by decide⟩
  · have h := addRecord_filter_date rt state d a b
    have hmem : (addRecord rt state d a b).2 ∈
        (addRecord rt state d a b).1.records.filter (fun r => r.date == d) := by
      rw [h]
      exact List.mem_singleton.mpr rfl
    exact (List.mem_filter.mp hmem).1
  · intro later d' a' b' hd
    have hp := (addRecord_records_perm later (addRecord rt state d a b).1 d' a' b').filter
      (fun r => r.date == d)
    have hnew : [(addRecord later (addRecord rt state d a b).1 d' a' b').2].filter
        (fun r => r.date == d) = [] := by
      simp [addRecord_date, hd]
    have hold : ((addRecord rt state d a b).1.records.filter (fun r => r.date != d')).filter
        (fun r => r.date == d)
        = (addRecord rt state d a b).1.records.filter (fun r => r.date == d) := by
      rw [List.filter_filter]
      congr 1
      funext r
      by_cases h : r.date = d
      · simp [h, Ne.symm hd]
      · simp [h]
    rw [List.filter_append, hnew, List.append_nil, hold, addRecord_filter_date] at hp
    exact List.perm_singleton.mp hp

/-! ### Weekly window -/

/-- C6, evaluated at a failing input: at noon UTC of Wednesday 2024-01-10 the week
runs from Monday 2024-01-08 to Sunday 2024-01-14, yet `getWeekRecords` drops the
record dated 2024-01-08 and `getWeeklyPoints` counts none of its 13 points, because
the lower bound is Monday at the current time of day, not at midnight. -/
theorem getWeekRecords_drops_monday :
    getDay (utcRuntime sampleNow) sampleNow = 3 ∧
    toISODate (getMonday (utcRuntime sampleNow) sampleNow) = "2024-01-08" ∧
    toISODate (getSunday (utcRuntime sampleNow) sampleNow) = "2024-01-14" ∧
    getMonday (utcRuntime sampleNow) sampleNow = 1704715200000 ∧
    isoTimeValue (JsVal.str "2024-01-08") = some 1704672000000 ∧
    getWeekRecords (utcRuntime sampleNow) mondayState = [] ∧
    getWeeklyPoints (utcRuntime sampleNow) mondayState Player.merce = 0 ∧
    mondayState.records.map (fun r => r.merce.points + r.merce.bonus) = [13] := by
  decide

/-! ### importData: malformed documents -/

/-- The body of the `forEach` on a record that is not `null`. -/
theorem importRecord_eq (r : JsVal) (hr : r ≠ JsVal.null) :
    importRecord r =
      if (!truthy (r.getProp "date") || !truthy (r.getProp "merce")
          || !truthy (r.getProp "patri")) = true then
        Except.error "Cada registro debe tener date, merce y patri"
      else
        recomputePlayers r ((r.getProp "merce").getD JsVal.null)
          ((r.getProp "patri").getD JsVal.null) := by
  cases r with
  | null => exact absurd rfl hr
  | bool b => rfl
  | num n => rfl
  | dec negative digits point => rfl
  | str s => rfl
  | arr items props => rfl
  | obj fields => rfl

/-- A record that lacks `date`, `merce` or `patri` makes the body of the `forEach`
raise. -/
theorem importRecord_lacking (r : JsVal)
    (h : r.getProp "date" = none ∨ r.getProp "merce" = none ∨ r.getProp "patri" = none) :
    ∃ message, importRecord r = Except.error message := by
  by_cases hr : r = JsVal.null
  · subst hr
    exact ⟨typeErrorMessage, rfl⟩
  · refine ⟨"Cada registro debe tener date, merce y patri", ?_⟩
    rw [importRecord_eq r hr, if_pos]
    rcases h with h | h | h <;> simp [h, truthy]

/-- One record that raises makes the whole `forEach` raise, wherever it stands. -/
theorem importRecords_error (items : List JsVal)
    (h : ∃ r ∈ items, ∃ message, importRecord r = Except.error message) :
    ∃ message, importRecords items = Except.error message := by
  induction items with
  | nil => simp at h
  | cons x rest ih =>
    cases hx : importRecord x with
    | error e => exact ⟨e, by simp [importRecords, hx, bind, Except.bind]⟩
    | ok x' =>
      obtain ⟨r, hr, message, hm⟩ := h
      rcases List.mem_cons.mp hr with rfl | hr
      · rw [hx] at hm
        cases hm
      · obtain ⟨e, he⟩ := ih ⟨r, hr, message, hm⟩
        exact ⟨e, by simp [importRecords, hx, he, bind, Except.bind]⟩

/-- The `try` block on a document that is not `null`. -/
theorem importDataTry_eq (rt : Runtime) (doc : JsVal) (hd : doc ≠ JsVal.null) :
    importDataTry rt (some doc) =
      if (!truthy (doc.getProp "records") || !isArray (doc.getProp "records")) = true then
        Except.error "El JSON debe contener un array \"records\""
      else
        (importRecords (arrayItems (doc.getProp "records"))).bind (fun items =>
          Except.ok
            ({ records := sortRawRecords rt items
               weeklyPrenda := orElse (doc.getProp "weeklyPrenda") (JsVal.str "")
               achievements := orElse (doc.getProp "achievements") (JsVal.obj [])
               monthlyWinners := orElse (doc.getProp "monthlyWinners") (JsVal.arr [] []) },
             (sortRawRecords rt items).length)) := by
  cases doc with
  | null => exact absurd rfl hd
  | bool b => rfl
  | num n => rfl
  | dec negative digits point => rfl
  | str s => rfl
  | arr items props => rfl
  | obj fields => rfl

/-- C7: a document whose `records` is missing or is not a list, or whose list holds
at any position a record lacking `date`, `merce` or `patri`, makes `importData`
return `success = false` with an error message and leaves the state as it was; so
does a text that is not JSON. -/
theorem importData_malformed (rt : Runtime) (state : RawState) (doc : JsVal)
    (h : (∀ items props, doc.getProp "records" ≠ some (JsVal.arr items props)) ∨
      (∃ items props, doc.getProp "records" = some (JsVal.arr items props) ∧
        ∃ r ∈ items,
          r.getProp "date" = none ∨ r.getProp "merce" = none ∨ r.getProp "patri" = none)) :
    (∃ message, importData rt state (some doc) = (ImportResult.failure message, state)) ∧
    importData rt state none = (ImportResult.failure syntaxErrorMessage, state) := by
  refine ⟨?_, rfl⟩
  have key : ∃ message, importDataTry rt (some doc) = Except.error message := by
    by_cases hd : doc = JsVal.null
    · subst hd
      exact ⟨typeErrorMessage, rfl⟩
    · rw [importDataTry_eq rt doc hd]
      rcases h with h | ⟨items, props, hrec, r, hr, hlack⟩
      · refine ⟨_, if_pos ?_⟩
        cases hrec : doc.getProp "records" with
        | none => rfl
        | some v =>
          cases v with
          | arr items props => exact absurd hrec (h items props)
          | _ => simp [isArray]
      · rw [hrec, if_neg (by simp [truthy, isArray])]
        obtain ⟨e, he⟩ := importRecords_error items ⟨r, hr, importRecord_lacking r hlack⟩
        exact ⟨e, by simp [arrayItems, he, Except.bind]⟩
  obtain ⟨message, hm⟩ := key
  exact ⟨message, by simp [importData, hm]⟩

/-- Witness for C7: a document whose second record lacks `merce`. -/
theorem importData_malformed_witness :
    ∃ message, importData (utcRuntime sampleNow) fiveDayState.toRaw (some missingMerceDoc)
      = (ImportResult.failure message, fiveDayState.toRaw) :=
  (importData_malformed (utcRuntime sampleNow) fiveDayState.toRaw missingMerceDoc
    (Or.inr ⟨_, _, rfl, _, List.mem_cons_of_mem _ (List.mem_singleton.mpr rfl),
      Or.inr (Or.inl rfl)⟩)).1

/-! ### Printing and reading integers -/

/-- What the reader of integers needs to know of the ten digit characters. -/
theorem digit_facts : ∀ k : Nat, k < 10 →
    isJsWhitespace (Char.ofNat (48 + k)) = false ∧ Char.ofNat (48 + k) ≠ '-' ∧
    Char.ofNat (48 + k) ≠ '+' ∧ Char.ofNat (48 + k) ≠ 'x' ∧ Char.ofNat (48 + k) ≠ 'X' ∧
    radixDigit 10 (Char.ofNat (48 + k)) = some k := by
  decide

/-- The value of a run of digit characters read in radix 10. -/
theorem leadingDigits_append_digit (cs : List Char) (k : Nat) (hk : k < 10)
    (hcs : ∀ c ∈ cs, ∃ j, j < 10 ∧ c = Char.ofNat (48 + j)) :
    leadingDigits 10 (cs ++ [Char.ofNat (48 + k)]) = leadingDigits 10 cs ++ [k] ∧
    (leadingDigits 10 cs).length = cs.length := by
  induction cs with
  | nil => simp [leadingDigits, (digit_facts k hk).2.2.2.2.2]
  | cons c rest ih =>
    obtain ⟨j, hj, rfl⟩ := hcs c (List.mem_cons_self _ _)
    have ih' := ih (fun c hc => hcs c (List.mem_cons_of_mem _ hc))
    simp [leadingDigits, (digit_facts j hj).2.2.2.2.2, ih'.1, ih'.2]

/-- The digits that `natDigits` prints are digit characters, and read back they
give the number. -/
theorem natDigits_read (fuel : Nat) :
    ∀ n : Nat, n < fuel →
      (∀ c ∈ natDigits fuel n, ∃ j, j < 10 ∧ c = Char.ofNat (48 + j)) ∧
      natDigits fuel n ≠ [] ∧
      (leadingDigits 10 (natDigits fuel n)).foldl (fun acc d => 10 * acc + d) 0 = n := by
  induction fuel with
  | zero => intro n hn; omega
  | succ fuel ih =>
    intro n hn
    by_cases h10 : n < 10
    · have hd : natDigits (fuel + 1) n = [Char.ofNat (48 + n)] := by
        simp [natDigits, h10, digitChar, Nat.mod_eq_of_lt h10]
      rw [hd]
      refine ⟨?_, by simp, ?_⟩
      · intro c hc
        exact ⟨n, h10, List.mem_singleton.mp hc⟩
      · simp [leadingDigits, (digit_facts n h10).2.2.2.2.2]
    · have hd : natDigits (fuel + 1) n
          = natDigits fuel (n / 10) ++ [Char.ofNat (48 + n % 10)] := by
        simp [natDigits, h10, digitChar]
      obtain ⟨hall, hne, hval⟩ := ih (n / 10) (by omega)
      have hk : n % 10 < 10 := Nat.mod_lt _ (by decide)
      rw [hd]
      refine ⟨?_, by simp, ?_⟩
      · intro c hc
        rcases List.mem_append.mp hc with hc | hc
        · exact hall c hc
        · exact ⟨n % 10, hk, List.mem_singleton.mp hc⟩
      · rw [(leadingDigits_append_digit _ _ hk hall).1, List.foldl_append, hval]
        simp only [List.foldl_cons, List.foldl_nil]
        omega

/-- `parseInt` on a non-empty run of digit characters, with or without a minus
sign. -/
theorem parseIntChars_digits (cs : List Char) (hne : cs ≠ [])
    (hcs : ∀ c ∈ cs, ∃ j, j < 10 ∧ c = Char.ofNat (48 + j)) :
    parseIntChars cs
        = some (((leadingDigits 10 cs).foldl (fun acc d => 10 * acc + d) 0 : Nat) : Int) ∧
    parseIntChars ('-' :: cs)
        = some (-(((leadingDigits 10 cs).foldl (fun acc d => 10 * acc + d) 0 : Nat) : Int)) := by
  obtain ⟨c, tl, rfl⟩ := List.exists_cons_of_ne_nil hne
  obtain ⟨j, hj, rfl⟩ := hcs c (List.mem_cons_self _ _)
  obtain ⟨hws, hminus, hplus, -, -, hrd⟩ := digit_facts j hj
  have hradix : readRadix (Char.ofNat (48 + j) :: tl) = (10, Char.ofNat (48 + j) :: tl) := by
    cases tl with
    | nil => rfl
    | cons x rest =>
      obtain ⟨i, hi, rfl⟩ := hcs x (List.mem_cons_of_mem _ (List.mem_cons_self _ _))
      obtain ⟨-, -, -, hx, hX, -⟩ := digit_facts i hi
      simp [readRadix, hx, hX]
  have hlead : leadingDigits 10 (Char.ofNat (48 + j) :: tl) = j :: leadingDigits 10 tl := by
    simp [leadingDigits, hrd]
  constructor
  · simp [parseIntChars, List.dropWhile, hws, readSign, hminus, hplus, hradix, hlead]
  · have hm : isJsWhitespace '-' = false := by decide
    simp [parseIntChars, List.dropWhile, hm, readSign, hradix, hlead]

/-- Reading back what `Number.prototype.toString` prints gives the integer, below
`10^21` in absolute value. -/
theorem parseIntChars_numberToString (n : Int) (h : -(10 : Int) ^ 21 < n ∧ n < 10 ^ 21) :
    parseIntChars (numberToString n) = some n := by
  unfold numberToString
  by_cases hneg : n < 0
  · have hm : (-n).toNat < 10 ^ 21 := by omega
    obtain ⟨hall, hne, hval⟩ := natDigits_read ((-n).toNat + 1) (-n).toNat (by omega)
    rw [if_pos hneg]
    simp only [natToString, hm, if_true]
    rw [(parseIntChars_digits _ hne hall).2, hval]
    congr 1
    omega
  · have hm : n.toNat < 10 ^ 21 := by omega
    obtain ⟨hall, hne, hval⟩ := natDigits_read (n.toNat + 1) n.toNat (by omega)
    rw [if_neg hneg]
    simp only [natToString, hm, if_true]
    rw [(parseIntChars_digits _ hne hall).1, hval]
    congr 1
    omega

/-! ### importSimpleData -/

/-- The split of the embedding is the library split on a separator. -/
theorem splitChars_eq_splitOn (sep : Char) (cs : List Char) :
    splitChars sep cs = cs.splitOn sep := by
  induction cs with
  | nil => rfl
  | cons c rest ih =>
    have hne : rest.splitOn sep ≠ [] := List.splitOnP_ne_nil _ _
    simp only [splitChars, List.splitOn, List.splitOnP_cons, ih, beq_iff_eq]
    by_cases h : c = sep
    · simp [h]
    · simp only [h, if_false]
      cases hs : List.splitOnP (fun x => x == sep) rest with
      | nil => exact absurd hs hne
      | cons piece pieces => rfl

/-- No piece of a split holds the separator. -/
theorem splitChars_no_sep (sep : Char) (cs : List Char) :
    ∀ piece ∈ splitChars sep cs, sep ∉ piece := by
  induction cs with
  | nil =>
    intro piece hp
    simp only [splitChars, List.mem_singleton] at hp
    subst hp
    simp
  | cons c rest ih =>
    intro piece hp
    by_cases h : c = sep
    · simp only [splitChars, h, if_true, List.mem_cons] at hp
      rcases hp with rfl | hp
      · simp
      · exact ih piece hp
    · simp only [splitChars, h, if_false] at hp
      cases hs : splitChars sep rest with
      | nil =>
        rw [hs] at hp
        simp only [List.mem_singleton] at hp
        subst hp
        simpa using Ne.symm h
      | cons first others =>
        rw [hs] at hp ih
        simp only [List.mem_cons] at hp
        rcases hp with rfl | hp
        · have := ih first (List.mem_cons_self _ _)
          simp only [List.mem_cons, not_or]
          exact ⟨Ne.symm h, this⟩
        · exact ih piece (List.mem_cons_of_mem _ hp)

/-- What `split` yields are pieces without the separator that join to the text. -/
theorem splitChars_isSplitOf (sep : Char) (cs : List Char) :
    IsSplitOf sep cs (splitChars sep cs) := by
  refine ⟨?_, splitChars_no_sep sep cs, ?_⟩
  · rw [splitChars_eq_splitOn]
    exact List.splitOnP_ne_nil _ _
  · rw [splitChars_eq_splitOn]
    exact List.intercalate_splitOn _ _

/-- Only what `split` yields are pieces without the separator that join to the
text. -/
theorem isSplitOf_unique (sep : Char) (cs : List Char) (pieces : List (List Char))
    (h : IsSplitOf sep cs pieces) : pieces = splitChars sep cs := by
  obtain ⟨hne, hno, hjoin⟩ := h
  rw [splitChars_eq_splitOn, ← hjoin, List.splitOn_intercalate _ _ hno hne]

/-- The digit test of the embedding is the library one. -/
theorem isDigit_eq (c : Char) : isDigit c = c.isDigit := by
  simp only [isDigit, Char.isDigit, Char.le_def]
  have h0 : ('0' : Char).val = 48 := rfl
  have h9 : ('9' : Char).val = 57 := rfl
  rw [h0, h9]
  by_cases h1 : (48 : UInt32) ≤ c.val <;> by_cases h2 : c.val ≤ (57 : UInt32) <;>
    simp [h1, h2]

/-- The pattern matches exactly the texts of four digits, a hyphen, two digits, a
hyphen and two digits. -/
theorem matchesDatePattern_iff (cs : List Char) :
    matchesDatePattern cs = true ↔ IsDateText cs := by
  constructor
  · intro h
    unfold matchesDatePattern at h
    split at h
    · rename_i y1 y2 y3 y4 m1 m2 d1 d2
      refine ⟨y1, y2, y3, y4, m1, m2, d1, d2, rfl, ?_⟩
      intro c hc
      rw [← isDigit_eq]
      exact List.all_eq_true.mp h c hc
    · cases h
  · rintro ⟨y1, y2, y3, y4, m1, m2, d1, d2, rfl, hd⟩
    simp only [matchesDatePattern]
    rw [List.all_eq_true]
    intro c hc
    rw [isDigit_eq]
    exact hd c hc

/-- The first element that `dropWhile` leaves does not satisfy the test. -/
theorem head_dropWhile_false {α : Type} (p : α → Bool) (l : List α) :
    ∀ c ∈ (l.dropWhile p).head?, p c = false := by
  intro c hc
  have h := List.head?_dropWhile_not p l
  rw [Option.mem_def] at hc
  rw [hc] at h
  exact h

/-- The last element of what `dropWhile` leaves is the last element of the list. -/
theorem getLast_dropWhile {α : Type} (p : α → Bool) (l : List α) :
    ∀ c ∈ (l.dropWhile p).getLast?, c ∈ l.getLast? := by
  intro c hc
  have hsplit := List.takeWhile_append_dropWhile p l
  rw [Option.mem_def] at hc ⊢
  rw [← hsplit, List.getLast?_append, hc]
  rfl

/-- What `trim` yields is the text between two runs of white space, with no white
space at its ends. -/
theorem trimChars_spec (cs : List Char) : IsTrimOf cs (trimChars cs) := by
  refine ⟨cs.takeWhile isJsWhitespace,
    ((cs.dropWhile isJsWhitespace).reverse.takeWhile isJsWhitespace).reverse, ?_, ?_, ?_, ?_, ?_⟩
  · unfold trimChars
    rw [List.append_assoc, ← List.reverse_append, List.takeWhile_append_dropWhile,
      List.reverse_reverse, List.takeWhile_append_dropWhile]
  · intro c hc
    exact List.mem_takeWhile_imp hc
  · intro c hc
    exact List.mem_takeWhile_imp (List.mem_reverse.mp hc)
  · intro c hc
    unfold trimChars at hc
    rw [List.head?_reverse] at hc
    have h1 := getLast_dropWhile isJsWhitespace _ c hc
    rw [List.getLast?_reverse] at h1
    exact head_dropWhile_false isJsWhitespace cs c h1
  · intro c hc
    unfold trimChars at hc
    rw [List.getLast?_reverse] at hc
    exact head_dropWhile_false isJsWhitespace _ c hc

/-- `dropWhile` removes a prefix that satisfies the test and stops at an element
that does not. -/
theorem dropWhile_prefix {α : Type} (p : α → Bool) (before t : List α)
    (hb : ∀ c ∈ before, p c = true) (ht : ∀ c ∈ t.head?, p c = false) :
    (before ++ t).dropWhile p = t := by
  rw [List.dropWhile_append_of_pos hb]
  cases t with
  | nil => rfl
  | cons x rest =>
    have hx : p x = false := ht x rfl
    simp [List.dropWhile_cons, hx]

/-- Only what `trim` yields is the text trimmed. -/
theorem isTrimOf_unique (cs t : List Char) (h : IsTrimOf cs t) : t = trimChars cs := by
  obtain ⟨before, after, rfl, hb, ha, hh, hl⟩ := h
  unfold trimChars
  cases t with
  | nil =>
    have hall : (before ++ [] ++ after).dropWhile isJsWhitespace = [] := by
      rw [List.dropWhile_eq_nil_iff]
      intro x hx
      simp only [List.append_nil, List.mem_append] at hx
      rcases hx with hx | hx
      · exact hb x hx
      · exact ha x hx
    rw [hall]
    rfl
  | cons x rest =>
    have h1 : (before ++ x :: rest ++ after).dropWhile isJsWhitespace = x :: rest ++ after := by
      rw [List.append_assoc]
      exact dropWhile_prefix isJsWhitespace before (x :: rest ++ after) hb
        (by intro c hc; exact hh c (by simpa using hc))
    rw [h1, List.reverse_append]
    have h2 : (after.reverse ++ (x :: rest).reverse).dropWhile isJsWhitespace
        = (x :: rest).reverse :=
      dropWhile_prefix isJsWhitespace after.reverse (x :: rest).reverse
        (fun c hc => ha c (List.mem_reverse.mp hc))
        (by intro c hc; rw [List.head?_reverse] at hc; exact hl c hc)
    rw [h2, List.reverse_reverse]

/-- A character that `Char.isDigit` accepts is one of the ten digit characters. -/
theorem isDigit_char (c : Char) (h : c.isDigit = true) : ∃ j, j < 10 ∧ c = Char.ofNat (48 + j) := by
  simp only [Char.isDigit, Bool.and_eq_true, decide_eq_true_eq, ge_iff_le] at h
  obtain ⟨h1, h2⟩ := h
  have h1' : 48 ≤ c.val.toNat := by
    have := UInt32.le_def.mp h1
    simpa using this
  have h2' : c.val.toNat ≤ 57 := by
    have := UInt32.le_def.mp h2
    simpa using this
  refine ⟨c.toNat - 48, ?_, ?_⟩
  · show c.val.toNat - 48 < 10
    omega
  · have : 48 + (c.toNat - 48) = c.toNat := by
      show 48 + (c.val.toNat - 48) = c.val.toNat
      omega
    rw [this, Char.ofNat_toNat]

/-- The value of each of the ten digit characters. -/
theorem digit_value : ∀ j : Nat, j < 10 → (Char.ofNat (48 + j)).toNat - 48 = j := by
  decide

/-- The number of binary digits of a number below `2^k` is at most `k`. -/
theorem bitLength_le (fuel : Nat) : ∀ (n k : Nat), n < 2 ^ k → bitLength fuel n ≤ k := by
  induction fuel with
  | zero => intro n k _; simp [bitLength]
  | succ fuel ih =>
    intro n k h
    by_cases h0 : n = 0
    · simp [bitLength, h0]
    · cases k with
      | zero => simp at h; exact absurd h h0
      | succ k =>
        simp only [bitLength, h0, if_false]
        have := ih (n / 2) k (by rw [Nat.pow_succ] at h; omega)
        omega

/-- An integer below `2^53` in absolute value is a Number. -/
theorem toDouble_small (n : Int) (h : n.natAbs < 2 ^ 53) : toDouble n = n := by
  simp only [toDouble, bitLength_le _ _ 53 h, if_true]

/-- The digits that `leadingDigits` reads from digit characters, folded, are the
decimal value of the characters. -/
theorem leadingDigits_value (cs : List Char)
    (hcs : ∀ c ∈ cs, ∃ j, j < 10 ∧ c = Char.ofNat (48 + j)) :
    ∀ acc : Nat, (leadingDigits 10 cs).foldl (fun acc d => 10 * acc + d) acc
      = cs.foldl (fun acc c => 10 * acc + (c.toNat - 48)) acc := by
  induction cs with
  | nil => intro acc; rfl
  | cons c rest ih =>
    intro acc
    obtain ⟨j, hj, rfl⟩ := hcs c (List.mem_cons_self _ _)
    have hrd := (digit_facts j hj).2.2.2.2.2
    have hval : (Char.ofNat (48 + j)).toNat - 48 = j := digit_value j hj
    simp only [leadingDigits, hrd, List.foldl_cons, hval]
    exact ih (fun c hc => hcs c (List.mem_cons_of_mem _ hc)) _

/-- The decimal value of `k` digit characters is below `10^k`. -/
theorem digitsValue_lt (cs : List Char)
    (hcs : ∀ c ∈ cs, ∃ j, j < 10 ∧ c = Char.ofNat (48 + j)) :
    ∀ acc : Nat, cs.foldl (fun acc c => 10 * acc + (c.toNat - 48)) acc
      < (acc + 1) * 10 ^ cs.length := by
  induction cs with
  | nil => intro acc; simp
  | cons c rest ih =>
    intro acc
    obtain ⟨j, hj, rfl⟩ := hcs c (List.mem_cons_self _ _)
    have hval : (Char.ofNat (48 + j)).toNat - 48 = j := digit_value j hj
    simp only [List.foldl_cons, hval, List.length_cons]
    have h := ih (fun c hc => hcs c (List.mem_cons_of_mem _ hc)) (10 * acc + j)
    calc _ < (10 * acc + j + 1) * 10 ^ rest.length := h
      _ ≤ (10 * (acc + 1)) * 10 ^ rest.length := Nat.mul_le_mul_right _ (by omega)
      _ = (acc + 1) * 10 ^ (rest.length + 1) := by rw [Nat.pow_succ]; ring

/-- A step field of one to fifteen digits is read as the number that it writes. -/
theorem parseIntNumber_digits (cs : List Char) (hne : cs ≠ []) (hlen : cs.length ≤ 15)
    (hcs : ∀ c ∈ cs, c.isDigit = true) :
    orZero (parseIntNumber cs) = digitsValue cs := by
  have hcs' : ∀ c ∈ cs, ∃ j, j < 10 ∧ c = Char.ofNat (48 + j) :=
    fun c hc => isDigit_char c (hcs c hc)
  have hlt := digitsValue_lt cs hcs' 0
  have hpow : 10 ^ cs.length ≤ 10 ^ 15 := Nat.pow_le_pow_right (by decide) hlen
  have hv := leadingDigits_value cs hcs' 0
  simp only [parseIntNumber, (parseIntChars_digits cs hne hcs').1, hv, Option.map_some',
    orZero, Option.getD_some, digitsValue]
  apply toDouble_small
  simp only [Int.natAbs_ofNat]
  have : (10 : Nat) ^ 15 < 2 ^ 53 := by decide
  omega

/-- A character that is not a decimal digit is no digit of the radix 10. -/
theorem radixDigit_not_digit (c : Char) (hd : c.isDigit = false) : radixDigit 10 c = none := by
  have hd' : ¬ ('0' ≤ c ∧ c ≤ '9') := by
    have := isDigit_eq c
    rw [hd] at this
    simpa [isDigit] using this
  simp only [radixDigit, hd', if_false]
  by_cases ha : 'a' ≤ c ∧ c ≤ 'z'
  · have h1 : 97 ≤ c.toNat := by
      have := UInt32.le_def.mp (Char.le_def.mp ha.1)
      simpa using this
    simp only [ha, and_self, if_true, Option.some_bind]
    rw [if_neg (by omega)]
  · simp only [ha, if_false]
    by_cases hA : 'A' ≤ c ∧ c ≤ 'Z'
    · have h1 : 65 ≤ c.toNat := by
        have := UInt32.le_def.mp (Char.le_def.mp hA.1)
        simpa using this
      simp only [hA, and_self, if_true, Option.some_bind]
      rw [if_neg (by omega)]
    · simp [hA]

/-- A text whose first character is neither white space, nor a sign, nor a digit
holds no number for `parseInt`. -/
theorem parseIntNumber_not_numeric (c : Char) (rest : List Char)
    (hws : isJsWhitespace c = false) (hplus : c ≠ '+') (hminus : c ≠ '-')
    (hd : c.isDigit = false) :
    parseIntNumber (c :: rest) = none := by
  have h0 : c ≠ '0' := by
    intro h
    subst h
    cases hd
  have hradix : readRadix (c :: rest) = (10, c :: rest) := by
    cases rest with
    | nil => rfl
    | cons x r => simp [readRadix, h0]
  simp [parseIntNumber, parseIntChars, List.dropWhile, hws, readSign, hplus, hminus, hradix,
    leadingDigits, radixDigit_not_digit c hd]

/-- A text of white space alone holds no number for `parseInt`. -/
theorem parseIntNumber_blank (cs : List Char) (h : ∀ c ∈ cs, isJsWhitespace c = true) :
    parseIntNumber cs = none := by
  have hdrop : cs.dropWhile isJsWhitespace = [] := List.dropWhile_eq_nil_iff.mpr h
  simp [parseIntNumber, parseIntChars, hdrop, readSign, readRadix, leadingDigits]

/-- The body of the `forEach` processes a valid line as one `addRecord` call and
leaves the state and the counter alone on any other line. -/
theorem importLine_eq (rt : Runtime) (acc : State × Nat) (line : List Char) :
    importLine rt acc line =
      if isValidLine line then (addLine rt acc.1 line, acc.2 + 1) else acc := by
  unfold importLine isValidLine addLine lineField
  generalize splitChars ',' line = parts
  match parts with
  | [] => simp
  | [a] => simp
  | [a, b] => simp
  | a :: b :: c :: rest => simp

/-- The `forEach` over the lines is the fold of `addRecord` over the valid lines,
the counter rising by their number. -/
theorem foldl_importLine (rt : Runtime) (lines : List (List Char)) :
    ∀ acc : State × Nat,
      lines.foldl (importLine rt) acc =
        ((lines.filter isValidLine).foldl (addLine rt) acc.1,
          acc.2 + (lines.filter isValidLine).length) := by
  induction lines with
  | nil => intro acc; rfl
  | cons line rest ih =>
    intro acc
    rw [List.foldl_cons, ih, importLine_eq]
    by_cases hv : isValidLine line = true
    · simp only [hv, if_true, List.filter_cons_of_pos, List.foldl_cons, List.length_cons]
      congr 1
      omega
    · simp only [hv, if_false, Bool.false_eq_true, List.filter_cons_of_neg, not_false_eq_true]

/-- A line is valid exactly when, in the words of the claim, it splits on `,` into
at least three fields and its trimmed first field matches the pattern. -/
theorem isValidLine_iff (line : List Char) :
    isValidLine line = true ↔
      ∃ fields date, IsSplitOf ',' line fields ∧ 3 ≤ fields.length ∧
        IsTrimOf (fields.headD []) date ∧ IsDateText date := by
  constructor
  · intro h
    simp only [isValidLine, Bool.and_eq_true, decide_eq_true_eq] at h
    exact ⟨splitChars ',' line, trimChars ((splitChars ',' line).headD []),
      splitChars_isSplitOf ',' line, h.1, trimChars_spec _, (matchesDatePattern_iff _).mp h.2⟩
  · rintro ⟨fields, date, hsplit, hlen, htrim, hdate⟩
    have hf := isSplitOf_unique ',' line fields hsplit
    subst hf
    have hd := isTrimOf_unique _ date htrim
    subst hd
    simp only [isValidLine, Bool.and_eq_true, decide_eq_true_eq]
    exact ⟨hlen, (matchesDatePattern_iff _).mpr hdate⟩

/-- The white space that `trim` and `parseInt` skip, by code point. -/
theorem isJsWhitespace_iff (c : Char) :
    isJsWhitespace c = true ↔
      (c.toNat ∈ [9, 10, 11, 12, 13, 32, 160, 5760, 8232, 8233, 8239, 8287, 12288, 65279] ∨
        (8192 ≤ c.toNat ∧ c.toNat ≤ 8202)) := by
  simp [isJsWhitespace]

/-- C9: `importSimpleData` leaves the store as the `addRecord` calls, in line order,
for the lines that split on `,` into at least three fields and whose trimmed first
field matches `^\d{4}-\d{2}-\d{2}$`, the date being that trimmed field and the steps
what `parseInt` reads in the trimmed second and third fields (0 when it reads no
number); any other line changes neither the store nor the count; the call returns
`success = true` with the number of lines so processed, 3 for three valid lines and
one malformed line.  The words are taken as follows.  The lines are the pieces of
the trimmed text between line feeds and the fields the pieces of a line between
commas.  To trim is to drop the white space at both ends.  The pattern asks for four
digits, a hyphen, two digits, a hyphen and two digits.  A field of one to fifteen
digits is read as the number it writes, a field that is blank or starts with a
character that is neither white space, nor a sign, nor a digit is read as 0, and a
numeral that no Number holds is read as the nearest Number. -/
theorem importSimpleData_spec (rt : Runtime) (state : State) (data : String) :
    importSimpleData rt state data = importSimpleBySpec rt state data ∧
    (∀ (acc : State × Nat) (line : List Char),
      isValidLine line = false → importLine rt acc line = acc) ∧
    (∀ (acc : State × Nat) (line : List Char),
      isValidLine line = true →
        importLine rt acc line = (addLine rt acc.1 line, acc.2 + 1)) ∧
    (∀ (text : List Char) (lines : List (List Char)),
      IsTrimOf data.data text → IsSplitOf '\n' text lines →
      importSimpleData rt state data
        = (ImportResult.success (lines.filter isValidLine).length,
            (lines.filter isValidLine).foldl (addLine rt) state)) ∧
    (∀ line : List Char,
      isValidLine line = true ↔
        ∃ fields date, IsSplitOf ',' line fields ∧ 3 ≤ fields.length ∧
          IsTrimOf (fields.headD []) date ∧ IsDateText date) ∧
    (∀ (s : State) (line : List Char) (fields : List (List Char)) (date a b : List Char),
      IsSplitOf ',' line fields → IsTrimOf (fields.getD 0 []) date →
      IsTrimOf (fields.getD 1 []) a → IsTrimOf (fields.getD 2 []) b →
      addLine rt s line
        = (addRecord rt s (String.mk date) (orZero (parseIntNumber a))
            (orZero (parseIntNumber b))).1) ∧
    (∀ (sep : Char) (cs : List Char), IsSplitOf sep cs (splitChars sep cs)) ∧
    (∀ cs : List Char, IsTrimOf cs (trimChars cs)) ∧
    (∀ cs : List Char, matchesDatePattern cs = true ↔ IsDateText cs) ∧
    (∀ c : Char, isJsWhitespace c = true ↔
      (c.toNat ∈ [9, 10, 11, 12, 13, 32, 160, 5760, 8232, 8233, 8239, 8287, 12288, 65279] ∨
        (8192 ≤ c.toNat ∧ c.toNat ≤ 8202))) ∧
    (∀ cs : List Char, cs ≠ [] → cs.length ≤ 15 → (∀ c ∈ cs, c.isDigit = true) →
      orZero (parseIntNumber cs) = digitsValue cs) ∧
    (∀ cs : List Char, (∀ c ∈ cs, isJsWhitespace c = true) → orZero (parseIntNumber cs) = 0) ∧
    (∀ (c : Char) (rest : List Char), isJsWhitespace c = false → c ≠ '+' → c ≠ '-' →
      c.isDigit = false → orZero (parseIntNumber (c :: rest)) = 0) ∧
    (orZero (parseIntNumber "6000".data) = 6000 ∧ orZero (parseIntNumber "x".data) = 0 ∧
      orZero (parseIntNumber "-7".data) = -7 ∧ orZero (parseIntNumber "+7".data) = 7 ∧
      orZero (parseIntNumber "-".data) = 0 ∧ orZero (parseIntNumber "12abc".data) = 12 ∧
      orZero (parseIntNumber "12.9".data) = 12 ∧ orZero (parseIntNumber "0x10".data) = 16 ∧
      orZero (parseIntNumber "9007199254740993".data) = 9007199254740992 ∧
      orZero (parseIntNumber "9007199254740995".data) = 9007199254740996) ∧
    (importSimpleData (utcRuntime sampleNow) State.initial sampleText).1
      = ImportResult.success 3 ∧
    (importSimpleData (utcRuntime sampleNow) State.initial sampleText).2.records
      = [plainRecord "2024-01-10" 12000 0, plainRecord "2024-01-09" 8000 100,
         plainRecord "2024-01-08" 6000 7000] ∧
    (importSimpleData (utcRuntime sampleNow) fiveDayState "").1 = ImportResult.success 0 ∧
    (importSimpleData (utcRuntime sampleNow) fiveDayState "").2.records = fiveDayState.records ∧
    (importSimpleData (utcRuntime sampleNow) State.initial trickyText).1
      = ImportResult.success 3 ∧
    (importSimpleData (utcRuntime sampleNow) State.initial trickyText).2.records
      = [plainRecord "2024-01-12" 0 (-7), plainRecord "2024-01-10" 9007199254740992 12,
         plainRecord "2024-01-08" 6000 7000] ∧
    (importSimpleData (utcRuntime sampleNow) State.initial trickyText).2.records.map
        (fun r => (r.date, r.merce.steps, r.patri.steps))
      = [("2024-01-12", 0, -7), ("2024-01-10", 9007199254740992, 12),
         ("2024-01-08", 6000, 7000)] := by
  have hspec : importSimpleData rt state data = importSimpleBySpec rt state data := by
    unfold importSimpleData importSimpleBySpec
    simp only [foldl_importLine, Nat.zero_add]
  refine ⟨hspec, ?_, ?_, ?_, isValidLine_iff, ?_, splitChars_isSplitOf, trimChars_spec,
    matchesDatePattern_iff, isJsWhitespace_iff, parseIntNumber_digits, ?_, ?_, ?_,
    by decide, by decide, by decide, by decide, by decide, by decide, by decide⟩
  · intro acc line hv
    rw [importLine_eq, hv]
    rfl
  · intro acc line hv
    rw [importLine_eq, hv]
    rfl
  · intro text lines htrim hsplit
    have ht := isTrimOf_unique _ _ htrim
    subst ht
    have hl := isSplitOf_unique _ _ _ hsplit
    subst hl
    rw [hspec]
    rfl
  · intro s line fields date a b hsplit hd ha hb
    have hf := isSplitOf_unique _ _ _ hsplit
    subst hf
    have h0 := isTrimOf_unique _ _ hd
    have h1 := isTrimOf_unique _ _ ha
    have h2 := isTrimOf_unique _ _ hb
    subst h0 h1 h2
    rfl
  · intro cs h
    rw [parseIntNumber_blank cs h]
    rfl
  · intro c rest h1 h2 h3 h4
    rw [parseIntNumber_not_numeric c rest h1 h2 h3 h4]
    rfl
  · refine ⟨?_, ?_, ?_, ?_, ?_, ?_, ?_, ?_, ?_, ?_⟩ <;> decide

/-! ### importData: well-formed documents -/

/-- Reading the key just assigned. -/
theorem lookupKey_assignKey_same (k : String) (x : JsVal) (l : List (String × JsVal)) :
    lookupKey k (assignKey k x l) = some x := by
  induction l with
  | nil => simp [assignKey, lookupKey]
  | cons p rest ih =>
    obtain ⟨k', v⟩ := p
    by_cases h : k' = k
    · simp [assignKey, lookupKey, h]
    · simp [assignKey, lookupKey, h, ih]

/-- Reading another key than the one assigned. -/
theorem lookupKey_assignKey_other (k k' : String) (x : JsVal) (l : List (String × JsVal))
    (h : k' ≠ k) : lookupKey k' (assignKey k x l) = lookupKey k' l := by
  induction l with
  | nil => simp [assignKey, lookupKey, Ne.symm h]
  | cons p rest ih =>
    obtain ⟨k₁, v⟩ := p
    by_cases h₁ : k₁ = k
    · subst h₁
      simp [assignKey, lookupKey, Ne.symm h]
    · by_cases h₂ : k₁ = k'
      · subst h₂
        simp [assignKey, lookupKey, h₁]
      · simp [assignKey, lookupKey, h₁, h₂, ih]

/-- Reading a property after an assignment to an object or an array. -/
theorem getProp_setProp_object (v : JsVal) (hv : isObject v = true) (k k' : String)
    (x : JsVal) :
    (v.setProp k x).getProp k' = if k' = k then some x else v.getProp k' := by
  cases v with
  | obj fields =>
    by_cases h : k' = k
    · subst h
      simp [JsVal.setProp, JsVal.getProp, lookupKey_assignKey_same]
    · simp [JsVal.setProp, JsVal.getProp, lookupKey_assignKey_other _ _ _ _ h, h]
  | arr items props =>
    by_cases h : k' = k
    · subst h
      simp [JsVal.setProp, JsVal.getProp, lookupKey_assignKey_same]
    · simp [JsVal.setProp, JsVal.getProp, lookupKey_assignKey_other _ _ _ _ h, h]
  | null => cases hv
  | bool b => cases hv
  | num n => cases hv
  | dec negative digits point => cases hv
  | str s => cases hv

/-- A value that has a property is an object or an array. -/
theorem isObject_of_getProp (v : JsVal) (k : String) (hv : ∃ y, v.getProp k = some y) :
    isObject v = true := by
  obtain ⟨y, hy⟩ := hv
  cases v with
  | obj fields => rfl
  | arr items props => rfl
  | null => cases hy
  | bool b => cases hy
  | num n => cases hy
  | dec negative digits point => cases hy
  | str s => cases hy

/-- Reading a property after an assignment to a value that has the property. -/
theorem getProp_setProp (v : JsVal) (k k' : String) (x : JsVal)
    (hv : ∃ y, v.getProp k = some y) :
    (v.setProp k x).getProp k' = if k' = k then some x else v.getProp k' :=
  getProp_setProp_object v (isObject_of_getProp v k hv) k k' x

/-- An assignment leaves an object an object and an array an array. -/
theorem isObject_setProp (v : JsVal) (k : String) (x : JsVal) :
    isObject (v.setProp k x) = isObject v := by
  cases v <;> rfl

/-- An assignment to a named property leaves an array an array. -/
theorem isArray_setProp (v : JsVal) (k : String) (x : JsVal) :
    isArray (some (v.setProp k x)) = isArray (some v) := by
  cases v <;> rfl

/-- An assignment to a named property leaves the items of an array as they are. -/
theorem arrayItems_setProp (v : JsVal) (k : String) (x : JsVal) :
    arrayItems (some (v.setProp k x)) = arrayItems (some v) := by
  cases v <;> rfl

/-- `parseInt(x) || 0` on a step field that converts to text is its integer value. -/
theorem parseIntOrZero_readable (x : Option JsVal) (h : ReadableSteps x) :
    parseIntOrZero x = Except.ok (integerValue x) := by
  cases x with
  | none => rfl
  | some v =>
    cases v with
    | null => rfl
    | bool b => cases b <;> rfl
    | num n =>
      by_cases hn : -(10 : Int) ^ 21 < n ∧ n < 10 ^ 21
      · have hp := parseIntChars_numberToString n hn
        simp only [parseIntOrZero, integerValue, hn, and_self, if_true, hp, orZero,
          Option.getD_some, pure, Except.pure]
      · simp only [parseIntOrZero, integerValue, hn, if_false, pure, Except.pure]
    | dec negative digits point => rfl
    | str s => rfl
    | arr items props =>
      obtain ⟨text, ht⟩ := h _ rfl
      rw [JsVal.toJsString] at ht
      simp only [parseIntOrZero, JsVal.toJsString, integerValue, ht, bind, Except.bind, pure,
        Except.pure]
    | obj fields =>
      obtain ⟨text, ht⟩ := h _ rfl
      by_cases hany : fields.any (fun p => p.1 == "toString") = true
      · simp [JsVal.toJsString, hany, throw, throwThe, MonadExceptOf.throw] at ht
      · simp only [parseIntOrZero, JsVal.toJsString, integerValue, hany, Bool.false_eq_true,
          if_false, bind, Except.bind, pure, Except.pure]
        rfl

/-- The six assignments on two objects whose step fields convert to text. -/
theorem recomputePlayers_objects (r m p : JsVal) (hm : isObject m = true)
    (hp : isObject p = true) (hsm : ReadableSteps (m.getProp "steps"))
    (hsp : ReadableSteps (p.getProp "steps")) :
    recomputePlayers r m p =
      Except.ok
        ((r.setProp "merce"
          (((m.setProp "steps" (JsVal.num (integerValue (m.getProp "steps")))).setProp "points"
            (JsVal.num (calculatePoints (integerValue (m.getProp "steps"))))).setProp "bonus"
            (orElse (m.getProp "bonus") (JsVal.num 0)))).setProp
          "patri"
          (((p.setProp "steps" (JsVal.num (integerValue (p.getProp "steps")))).setProp "points"
            (JsVal.num (calculatePoints (integerValue (p.getProp "steps"))))).setProp "bonus"
            (orElse (p.getProp "bonus") (JsVal.num 0)))) := by
  have hb : ∀ (v : JsVal), isObject v = true → ∀ a b,
      ((v.setProp "steps" a).setProp "points" b).getProp "bonus" = v.getProp "bonus" := by
    intro v hv a b
    rw [getProp_setProp_object _ (by rw [isObject_setProp]; exact hv),
      getProp_setProp_object _ hv]
    simp
  simp only [recomputePlayers, parseIntOrZero_readable _ hsm, parseIntOrZero_readable _ hsp,
    bind, Except.bind, pure, Except.pure, hb m hm, hb p hp]

/-- `x || 0` keeps a truthy `x` and is 0 otherwise. -/
theorem orElse_zero (x : Option JsVal) :
    (truthy x = true → x = some (orElse x (JsVal.num 0))) ∧
    (truthy x = false → orElse x (JsVal.num 0) = JsVal.num 0) := by
  constructor
  · intro h
    cases x with
    | none => cases h
    | some v => simp [orElse, h]
  · intro h
    simp [orElse, h]

/-- What the assignments leave under a player's key. -/
theorem playerImported_assign (m : JsVal) (hm : isObject m = true) :
    PlayerImported m
      (((m.setProp "steps" (JsVal.num (integerValue (m.getProp "steps")))).setProp "points"
        (JsVal.num (calculatePoints (integerValue (m.getProp "steps"))))).setProp "bonus"
        (orElse (m.getProp "bonus") (JsVal.num 0))) := by
  have h1 : ∀ a, isObject (m.setProp "steps" a) = true := fun a => by
    rw [isObject_setProp]; exact hm
  have h2 : ∀ a b, isObject ((m.setProp "steps" a).setProp "points" b) = true := fun a b => by
    rw [isObject_setProp]; exact h1 a
  refine ⟨?_, ?_, ⟨_, ?_, (orElse_zero _).1, (orElse_zero _).2⟩, ?_, ?_, ?_⟩
  · rw [getProp_setProp_object _ (h2 _ _), getProp_setProp_object _ (h1 _),
      getProp_setProp_object _ hm]
    simp
  · rw [getProp_setProp_object _ (h2 _ _), getProp_setProp_object _ (h1 _)]
    simp
  · rw [getProp_setProp_object _ (h2 _ _)]
    simp
  · intro k hk1 hk2 hk3
    rw [getProp_setProp_object _ (h2 _ _), getProp_setProp_object _ (h1 _),
      getProp_setProp_object _ hm]
    simp [hk1, hk2, hk3]
  · rw [isArray_setProp, isArray_setProp, isArray_setProp]
  · rw [arrayItems_setProp, arrayItems_setProp, arrayItems_setProp]

/-- The body of the `forEach` on a well-formed record. -/
theorem importRecord_wellFormed (r : JsVal) (h : WellFormedRecord r) :
    ∃ r', importRecord r = Except.ok r' ∧ RecordImported r r' := by
  obtain ⟨hdate, m, p, hm, hp, hom, hop, hsm, hsp⟩ := h
  have hr : r ≠ JsVal.null := by
    intro hnull
    subst hnull
    cases hm
  have himp := recomputePlayers_objects r m p hom hop hsm hsp
  have htm : truthy (some m) = true := by
    cases m with
    | obj fields => rfl
    | arr items props => rfl
    | null => cases hom
    | bool b => cases hom
    | num n => cases hom
    | dec negative digits point => cases hom
    | str s => cases hom
  have htp : truthy (some p) = true := by
    cases p with
    | obj fields => rfl
    | arr items props => rfl
    | null => cases hop
    | bool b => cases hop
    | num n => cases hop
    | dec negative digits point => cases hop
    | str s => cases hop
  have hstep : importRecord r = recomputePlayers r m p := by
    rw [importRecord_eq r hr, if_neg (by simp [hdate, hm, hp, htm, htp]), hm, hp]
    rfl
  rw [← hstep] at himp
  refine ⟨_, himp, ?_⟩
  have h1 : ∀ x k', (r.setProp "merce" x).getProp k'
      = if k' = "merce" then some x else r.getProp k' :=
    fun x k' => getProp_setProp r "merce" k' x ⟨_, hm⟩
  have h2 : ∀ x y k', ((r.setProp "merce" x).setProp "patri" y).getProp k'
      = if k' = "patri" then some y else (r.setProp "merce" x).getProp k' :=
    fun x y k' => getProp_setProp _ "patri" k' y ⟨p, by rw [h1]; simpa using hp⟩
  refine ⟨⟨m, _, hm, ?_, playerImported_assign m hom⟩,
    ⟨p, _, hp, ?_, playerImported_assign p hop⟩, ?_⟩
  · rw [h2, h1]
    simp
  · rw [h2]
    simp
  · intro k hk1 hk2
    rw [h2, h1]
    simp [hk1, hk2]

/-- The `forEach` on well-formed records. -/
theorem importRecords_wellFormed (items : List JsVal) (h : ∀ r ∈ items, WellFormedRecord r) :
    ∃ processed, importRecords items = Except.ok processed ∧
      List.Forall₂ RecordImported items processed := by
  induction items with
  | nil => exact ⟨[], rfl, List.Forall₂.nil⟩
  | cons r rest ih =>
    obtain ⟨r', hr', himp⟩ := importRecord_wellFormed r (h r (List.mem_cons_self _ _))
    obtain ⟨rest', hrest', hall⟩ := ih (fun x hx => h x (List.mem_cons_of_mem _ hx))
    exact ⟨r' :: rest', by simp [importRecords, hr', hrest', bind, Except.bind, pure, Except.pure],
      List.Forall₂.cons himp hall⟩

/-- Sorting permutes the records of a document. -/
theorem sortRawRecords_perm (rt : Runtime) (records : List JsVal) :
    (sortRawRecords rt records).Perm records :=
  List.perm_insertionSort _ records

/-- The values that are not truthy. -/
theorem truthy_eq_false (x : Option JsVal) :
    truthy x = false ↔
      (x = none ∨ x = some JsVal.null ∨ x = some (JsVal.bool false) ∨
        x = some (JsVal.num 0) ∨ x = some (JsVal.str "") ∨
        ∃ negative point, x = some (JsVal.dec negative 0 point)) := by
  cases x with
  | none => simp [truthy]
  | some v =>
    cases v with
    | null => simp [truthy]
    | bool b => cases b <;> simp [truthy]
    | num n => simp [truthy]
    | dec negative digits point => simp [truthy]
    | str s => simp [truthy]
    | arr items props => simp [truthy]
    | obj fields => simp [truthy]

/-- C8, as amended: for a document whose `records` is a list in which each entry has
a truthy `date` and an object or an array under `merce` and under `patri`, with step
fields that convert to text, `importData` succeeds and reports the number of records;
the new state is made of the document alone (its records in the order of the sort by
date, and its `weeklyPrenda`, `achievements` and `monthlyWinners` when truthy, else
`''`, `{}` and `[]`); for each player `steps` is the integer value of the supplied
field, `points` is `calculatePoints` of it whatever was supplied, `bonus` is the
supplied one when truthy and 0 otherwise, never computed from the streak, and every
other property is kept.  The integer value of a field is the field itself for an
integer below `10^21` in absolute value, what `parseInt` reads at the start of the text
of a string, of an array and of any other number (0 when it reads no integer), and 0
for an absent field, `null`, a boolean and an object; the text of an array is that of
its items joined by commas and the text of a number its printed form. -/
theorem importData_wellFormed (rt : Runtime) (state : RawState) (doc : JsVal)
    (items : List JsVal) (props : List (String × JsVal))
    (hrec : doc.getProp "records" = some (JsVal.arr items props))
    (hwf : ∀ r ∈ items, WellFormedRecord r) :
    (∃ processed : List JsVal,
      List.Forall₂ RecordImported items processed ∧
      (sortRawRecords rt processed).Perm processed ∧
      importData rt state (some doc) =
        (ImportResult.success items.length,
          { records := sortRawRecords rt processed
            weeklyPrenda :=
              if truthy (doc.getProp "weeklyPrenda") then
                (doc.getProp "weeklyPrenda").getD (JsVal.str "")
              else JsVal.str ""
            achievements :=
              if truthy (doc.getProp "achievements") then
                (doc.getProp "achievements").getD (JsVal.obj [])
              else JsVal.obj []
            monthlyWinners :=
              if truthy (doc.getProp "monthlyWinners") then
                (doc.getProp "monthlyWinners").getD (JsVal.arr [] [])
              else JsVal.arr [] [] })) ∧
    (∀ x, truthy x = false ↔
      (x = none ∨ x = some JsVal.null ∨ x = some (JsVal.bool false) ∨
        x = some (JsVal.num 0) ∨ x = some (JsVal.str "") ∨
        ∃ negative point, x = some (JsVal.dec negative 0 point))) ∧
    (ReadableSteps none ∧ ReadableSteps (some (JsVal.obj [])) ∧
      ReadableSteps (some (JsVal.arr [JsVal.num 7, JsVal.null, JsVal.str "a"] [])) ∧
      ¬ ReadableSteps (some (JsVal.obj [("toString", JsVal.num 1)])) ∧
      ¬ ReadableSteps (some (JsVal.arr [JsVal.obj [("toString", JsVal.num 1)]] []))) ∧
    ((JsVal.arr [JsVal.num 7, JsVal.null, JsVal.str "a"] []).toJsString
        = Except.ok "7,,a".data ∧
      (JsVal.obj [("a", JsVal.num 1)]).toJsString = Except.ok "[object Object]".data ∧
      JsVal.null.toJsString = Except.ok "null".data ∧
      (JsVal.bool true).toJsString = Except.ok "true".data ∧
      (JsVal.num (-12)).toJsString = Except.ok "-12".data ∧
      (JsVal.num 1000000000000000000000).toJsString = Except.ok "1e+21".data ∧
      (JsVal.dec false 127 2).toJsString = Except.ok "12.7".data ∧
      (JsVal.dec true 39 1).toJsString = Except.ok "-3.9".data ∧
      (JsVal.dec false 5 0).toJsString = Except.ok "0.5".data ∧
      (JsVal.dec false 5 (-6)).toJsString = Except.ok "5e-7".data ∧
      (JsVal.dec false 1 22).toJsString = Except.ok "1e+21".data) ∧
    (∀ n : Int, -(10 : Int) ^ 21 < n → n < 10 ^ 21 → integerValue (some (JsVal.num n)) = n) ∧
    (integerValue none = 0 ∧ integerValue (some JsVal.null) = 0 ∧
      integerValue (some (JsVal.bool true)) = 0 ∧
      integerValue (some (JsVal.obj [("a", JsVal.num 1)])) = 0 ∧
      integerValue (some (JsVal.str "12000 pasos")) = 12000 ∧
      integerValue (some (JsVal.str " -42")) = -42 ∧
      integerValue (some (JsVal.str "0x1F")) = 31 ∧
      integerValue (some (JsVal.str "1e3")) = 1 ∧
      integerValue (some (JsVal.str "muchos")) = 0 ∧
      integerValue (some (JsVal.str "")) = 0 ∧
      integerValue (some (JsVal.str "9007199254740993")) = 9007199254740992 ∧
      integerValue (some (JsVal.num 1000000000000000000000)) = 1 ∧
      integerValue (some (JsVal.dec false 1 22)) = 1 ∧
      integerValue (some (JsVal.dec false 127 2)) = 12 ∧
      integerValue (some (JsVal.dec true 39 1)) = -3 ∧
      integerValue (some (JsVal.dec false 5 0)) = 0 ∧
      integerValue (some (JsVal.dec false 5 (-6))) = 5 ∧
      integerValue (some (JsVal.arr [JsVal.num 7] [])) = 7 ∧
      integerValue (some (JsVal.arr [JsVal.num 7, JsVal.num 8] [])) = 7 ∧
      integerValue (some (JsVal.arr [] [])) = 0) := by
  refine ⟨?_, truthy_eq_false, ⟨?_, ?_, ?_, ?_, ?_⟩,
    ⟨rfl, rfl, rfl, rfl, rfl, rfl, rfl, rfl, rfl, rfl, rfl⟩, ?_, ?_⟩
  · obtain ⟨processed, hproc, hall⟩ := importRecords_wellFormed items hwf
    have hd : doc ≠ JsVal.null := by
      intro hnull
      subst hnull
      cases hrec
    have hlen : (sortRawRecords rt processed).length = items.length := by
      rw [(sortRawRecords_perm rt processed).length_eq, hall.length_eq]
    refine ⟨processed, hall, sortRawRecords_perm rt processed, ?_⟩
    simp only [importData, importDataTry_eq rt doc hd, hrec, truthy, isArray, arrayItems, hproc,
      Except.bind, hlen, Bool.not_true, Bool.or_self, Bool.false_eq_true, if_false, orElse]
  · intro v hv
    cases hv
  · intro v hv
    cases hv
    exact ⟨_, rfl⟩
  · intro v hv
    cases hv
    exact ⟨_, rfl⟩
  · intro h
    obtain ⟨text, ht⟩ := h _ rfl
    cases ht
  · intro h
    obtain ⟨text, ht⟩ := h _ rfl
    cases ht
  · intro n h1 h2
    simp only [integerValue, h1, h2, and_self, if_true]
  · refine ⟨rfl, rfl, rfl, rfl, ?_, ?_, ?_, ?_, ?_, ?_, ?_, ?_, ?_, ?_, ?_, ?_, ?_, ?_, ?_, ?_⟩ <;>
      decide

/-- Witness for C8 as amended: a document with two well-formed records, out of
order, is imported as the literal state shown. -/
theorem importData_wellFormed_witness :
    (∀ r ∈ sampleRecords, WellFormedRecord r) ∧
    (∃ processed : List JsVal,
      List.Forall₂ RecordImported sampleRecords processed ∧
      (sortRawRecords (utcRuntime sampleNow) processed).Perm processed ∧
      importData (utcRuntime sampleNow) fiveDayState.toRaw (some sampleDoc) =
        (ImportResult.success 2,
          { records := sortRawRecords (utcRuntime sampleNow) processed
            weeklyPrenda := JsVal.str "calcetines"
            achievements := JsVal.obj []
            monthlyWinners := JsVal.arr [] [] })) ∧
    importData (utcRuntime sampleNow) fiveDayState.toRaw (some sampleDoc) =
      (ImportResult.success 2,
        { records :=
            [ JsVal.obj [("date", JsVal.str "2024-01-10"),
                ("merce", JsVal.obj [("steps", JsVal.num 0), ("name", JsVal.str "Merce"),
                  ("points", JsVal.num 0), ("bonus", JsVal.num 0)]),
                ("patri", JsVal.arr [JsVal.num 1]
                  [("steps", JsVal.num 0), ("points", JsVal.num 0), ("bonus", JsVal.num 0)])],
              JsVal.obj [("date", JsVal.str "2024-01-08"),
                ("merce", JsVal.obj [("steps", JsVal.num 12000), ("points", JsVal.num 12),
                  ("bonus", JsVal.num 0)]),
                ("patri", JsVal.obj [("steps", JsVal.num 3000), ("bonus", JsVal.num 7),
                  ("points", JsVal.num 3)])] ]
          weeklyPrenda := JsVal.str "calcetines"
          achievements := JsVal.obj []
          monthlyWinners := JsVal.arr [] [] }) :=
  have hwf : ∀ r ∈ sampleRecords, WellFormedRecord r := by
    intro r hr
    simp only [sampleRecords, List.mem_cons, List.mem_singleton, List.not_mem_nil, or_false] at hr
    rcases hr with rfl | rfl
    · refine ⟨rfl, _, _, rfl, rfl, rfl, rfl, ?_, ?_⟩
      · intro v hv
        cases hv
        exact ⟨_, rfl⟩
      · intro v hv
        cases hv
        exact ⟨_, rfl⟩
    · refine ⟨rfl, _, _, rfl, rfl, rfl, rfl, ?_, ?_⟩
      · intro v hv
        cases hv
        exact ⟨_, rfl⟩
      · intro v hv
        cases hv
  ⟨hwf,
    (importData_wellFormed (utcRuntime sampleNow) fiveDayState.toRaw sampleDoc sampleRecords []
      rfl hwf).1,
    rfl⟩

/-- C8 fails as stated, at documents whose records all carry `date`, `merce` and
`patri`.  With the number 5 under `merce` the import succeeds with count 1, yet the
stored record still has the number 5 under `merce`, with no `steps`, `points` or
`bonus`; and the bonus `false` supplied for Patri is stored as 0, not as given.  A
record whose `date` is the empty string makes the import fail, and so does a steps
field `{"toString": 1}`, with a `TypeError`.  The steps `1e21` and `5e-7`, whose
integer values are `10^21` and 0, are stored as 1 and 5, the first digit of their
texts `1e+21` and `5e-7`; the records of that document come back in another order
and its `weeklyPrenda`, 0, is replaced by `''`. -/
theorem importData_primitive_player :
    importData (utcRuntime sampleNow) State.initial.toRaw (some primitiveMerceDoc) =
      (ImportResult.success 1,
        { records :=
            [JsVal.obj [("date", JsVal.str "2024-01-10"), ("merce", JsVal.num 5),
              ("patri", JsVal.obj [("steps", JsVal.num 100), ("bonus", JsVal.num 0),
                ("points", JsVal.num 0)])]]
          weeklyPrenda := JsVal.str ""
          achievements := JsVal.obj []
          monthlyWinners := JsVal.arr [] [] }) ∧
    (JsVal.num 5).getProp "steps" = none ∧
    importData (utcRuntime sampleNow) fiveDayState.toRaw (some emptyDateDoc) =
      (ImportResult.failure "Cada registro debe tener date, merce y patri",
        fiveDayState.toRaw) ∧
    importData (utcRuntime sampleNow) fiveDayState.toRaw (some unreadableStepsDoc) =
      (ImportResult.failure typeErrorMessage, fiveDayState.toRaw) ∧
    importData (utcRuntime sampleNow) fiveDayState.toRaw (some oddStepsDoc) =
      (ImportResult.success 2,
        { records :=
            [ JsVal.obj [("date", JsVal.str "2024-01-10"),
                ("merce", JsVal.obj [("steps", JsVal.num 6000), ("points", JsVal.num 6),
                  ("bonus", JsVal.num 0)]),
                ("patri", JsVal.obj [("steps", JsVal.num 7000), ("points", JsVal.num 7),
                  ("bonus", JsVal.num 0)])],
              JsVal.obj [("date", JsVal.str "2024-01-08"),
                ("merce", JsVal.obj [("steps", JsVal.num 1), ("points", JsVal.num 0),
                  ("bonus", JsVal.num 0)]),
                ("patri", JsVal.obj [("steps", JsVal.num 5), ("points", JsVal.num 0),
                  ("bonus", JsVal.num 0)])] ]
          weeklyPrenda := JsVal.str ""
          achievements := JsVal.obj []
          monthlyWinners := JsVal.arr [] [] }) ∧
    (JsVal.dec false 1 22).toJsString = Except.ok "1e+21".data ∧
    (JsVal.dec false 5 (-6)).toJsString = Except.ok "5e-7".data ∧
    decTruncate false 1 22 = 1000000000000000000000 ∧
    decTruncate false 5 (-6) = 0 := by
  refine ⟨rfl, rfl, rfl, rfl, rfl, rfl, rfl, ?_, ?_⟩ <;> decide

/-! ### Sorting twice -/

/-- The head of a list after an ordered insertion is the inserted element or the old
head. -/
theorem head_orderedInsert {α : Type} (r : α → α → Prop) [DecidableRel r] (a : α)
    (l : List α) : ∀ y ∈ (l.orderedInsert r a).head?, y = a ∨ y ∈ l.head? := by
  intro y hy
  cases l with
  | nil => left; simpa [List.orderedInsert] using hy.symm
  | cons b rest =>
    by_cases h : r a b
    · left
      simpa [List.orderedInsert, h] using hy.symm
    · right
      simpa [List.orderedInsert, h] using hy

/-- Ordered insertion keeps neighbours in order, for a total relation. -/
theorem chain_orderedInsert {α : Type} (r : α → α → Prop) [DecidableRel r]
    (htot : ∀ a b, r a b ∨ r b a) (a : α) :
    ∀ l : List α, l.Chain' r → (l.orderedInsert r a).Chain' r := by
  intro l
  induction l with
  | nil => intro _; simp [List.orderedInsert]
  | cons b rest ih =>
    intro hc
    by_cases h : r a b
    · simp only [List.orderedInsert, h, if_true]
      exact List.Chain'.cons h hc
    · simp only [List.orderedInsert, h, if_false]
      have hba : r b a := (htot a b).resolve_left h
      refine List.Chain'.cons' (ih hc.tail) ?_
      intro y hy
      rcases head_orderedInsert r a rest y hy with rfl | hy'
      · exact hba
      · exact hc.rel_head? hy'

/-- The output of the sort has its neighbours in order, for a total relation. -/
theorem chain_insertionSort {α : Type} (r : α → α → Prop) [DecidableRel r]
    (htot : ∀ a b, r a b ∨ r b a) (l : List α) : (l.insertionSort r).Chain' r := by
  induction l with
  | nil => simp
  | cons a rest ih => exact chain_orderedInsert r htot a _ ih

/-- The sort leaves a list whose neighbours are in order as it is. -/
theorem insertionSort_of_chain {α : Type} (r : α → α → Prop) [DecidableRel r] :
    ∀ l : List α, l.Chain' r → l.insertionSort r = l := by
  intro l
  induction l with
  | nil => intro _; rfl
  | cons a rest ih =>
    intro hc
    rw [List.insertionSort, ih hc.tail]
    cases rest with
    | nil => rfl
    | cons b rest' =>
      have hab : r a b := (List.chain'_cons.mp hc).1
      simp [List.orderedInsert, hab]

/-! ### Export then import -/

/-- `x || 0` on a number is that number. -/
theorem orElse_num (b : Int) : orElse (some (JsVal.num b)) (JsVal.num 0) = JsVal.num b := by
  by_cases h : b = 0
  · subst h
    rfl
  · simp [orElse, truthy, h]

/-- The body of the `forEach` leaves an exported record as it is. -/
theorem importRecord_toJs (r : DailyRecord) (h : Exportable r) :
    importRecord r.toJs = Except.ok r.toJs := by
  obtain ⟨hdate, hm, hp, hmp, hpp⟩ := h
  have htd : truthy (some (JsVal.str r.date)) = true := by
    simp [truthy, hdate]
  have hstep : importRecord r.toJs
      = recomputePlayers r.toJs
          (JsVal.obj [("steps", JsVal.num r.merce.steps), ("points", JsVal.num r.merce.points),
            ("bonus", JsVal.num r.merce.bonus)])
          (JsVal.obj [("steps", JsVal.num r.patri.steps), ("points", JsVal.num r.patri.points),
            ("bonus", JsVal.num r.patri.bonus)]) := by
    rw [importRecord_eq _ (by simp [DailyRecord.toJs])]
    have hc : (!truthy (r.toJs.getProp "date") || !truthy (r.toJs.getProp "merce")
        || !truthy (r.toJs.getProp "patri")) = false := by
      simp [DailyRecord.toJs, PlayerDay.toJs, JsVal.getProp, lookupKey, truthy, hdate]
    rw [if_neg (by simp [hc])]
    rfl
  have hread : ∀ n : Int, ReadableSteps (some (JsVal.num n)) := by
    intro n v hv
    cases hv
    exact ⟨_, rfl⟩
  have hvm : integerValue (some (JsVal.num r.merce.steps)) = r.merce.steps := by
    simp only [integerValue]
    rw [if_pos (by omega)]
  have hvp : integerValue (some (JsVal.num r.patri.steps)) = r.patri.steps := by
    simp only [integerValue]
    rw [if_pos (by omega)]
  rw [hstep, recomputePlayers_objects r.toJs
    (JsVal.obj [("steps", JsVal.num r.merce.steps), ("points", JsVal.num r.merce.points),
      ("bonus", JsVal.num r.merce.bonus)])
    (JsVal.obj [("steps", JsVal.num r.patri.steps), ("points", JsVal.num r.patri.points),
      ("bonus", JsVal.num r.patri.bonus)]) rfl rfl (hread _) (hread _)]
  simp only [JsVal.getProp, lookupKey, if_true, hvm, hvp]
  simp [lookupKey, assignKey, orElse_num, ← hmp, ← hpp, DailyRecord.toJs,
    PlayerDay.toJs, JsVal.setProp]

/-- The `forEach` leaves exported records as they are. -/
theorem importRecords_toJs (records : List DailyRecord) (h : ∀ r ∈ records, Exportable r) :
    importRecords (records.map DailyRecord.toJs) = Except.ok (records.map DailyRecord.toJs) := by
  induction records with
  | nil => rfl
  | cons r rest ih =>
    simp [importRecords, importRecord_toJs r (h r (List.mem_cons_self _ _)),
      ih (fun x hx => h x (List.mem_cons_of_mem _ hx)), bind, Except.bind, pure, Except.pure]

/-- Serialising the records of the add-record path and parsing them back yields the
same values. -/
theorem jsonCopyItems_toJs (records : List DailyRecord) :
    jsonCopyItems (records.map DailyRecord.toJs) = records.map DailyRecord.toJs := by
  induction records with
  | nil => rfl
  | cons r rest ih =>
    simp only [List.map_cons, jsonCopyItems, ih]
    rfl

/-- The relation of the comparator is total. -/
theorem dateDifference_total (x y : Option Int) :
    dateDifference y x ≤ 0 ∨ dateDifference x y ≤ 0 := by
  cases x <;> cases y <;> simp [dateDifference]
  omega

/-- Sorting the exported records again leaves them in the order of the store. -/
theorem sortRawRecords_toJs (rt : Runtime) (records : List DailyRecord) :
    sortRawRecords rt ((sortRecords rt records).map DailyRecord.toJs)
      = (sortRecords rt records).map DailyRecord.toJs := by
  unfold sortRawRecords jsSort
  apply insertionSort_of_chain
  rw [List.chain'_map]
  exact chain_insertionSort _ (fun a b => dateDifference_total _ _) records

/-- What a sequence of `addRecord` calls keeps true of the state. -/
theorem applyCalls_invariant (rt : Runtime) (calls : List (Int × String × Int × Int))
    (hcalls : ∀ call ∈ calls, call.2.1 ≠ "" ∧
      (0 ≤ call.2.2.1 ∧ call.2.2.1 < 10 ^ 21) ∧ (0 ≤ call.2.2.2 ∧ call.2.2.2 < 10 ^ 21)) :
    ∀ state : State,
      (∀ r ∈ state.records, Exportable r) →
      sortRecords rt state.records = state.records →
      (∀ r ∈ (applyCalls rt calls state).records, Exportable r) ∧
      sortRecords rt (applyCalls rt calls state).records = (applyCalls rt calls state).records ∧
      (applyCalls rt calls state).weeklyPrenda = state.weeklyPrenda ∧
      (applyCalls rt calls state).achievements = state.achievements ∧
      (applyCalls rt calls state).monthlyWinners = state.monthlyWinners := by
  induction calls with
  | nil => intro state hgood hsorted; exact ⟨hgood, hsorted, rfl, rfl, rfl⟩
  | cons call rest ih =>
    intro state hgood _
    obtain ⟨hd, ha, hb⟩ := hcalls call (List.mem_cons_self _ _)
    have hnext := ih (fun c hc => hcalls c (List.mem_cons_of_mem _ hc))
      (addRecord { rt with now := call.1 } state call.2.1 call.2.2.1 call.2.2.2).1
      (by
        intro r hr
        have hmem := (addRecord_records_perm { rt with now := call.1 } state call.2.1
          call.2.2.1 call.2.2.2).mem_iff.mp hr
        rcases List.mem_append.mp hmem with hold | hnew
        · exact hgood r (List.mem_filter.mp hold).1
        · rw [List.mem_singleton.mp hnew]
          exact ⟨hd, ha, hb, rfl, rfl⟩)
      (by
        apply insertionSort_of_chain
        exact chain_insertionSort _ (fun a b => dateDifference_total _ _) _)
    exact hnext

/-- The document that `exportData` writes for a state of the add-record path. -/
theorem exportData_eq (state : State) (hach : state.achievements = JsVal.obj [])
    (hmw : state.monthlyWinners = []) :
    exportData state =
      JsVal.obj [("records", JsVal.arr (state.records.map DailyRecord.toJs) []),
        ("weeklyPrenda", JsVal.str state.weeklyPrenda),
        ("achievements", JsVal.obj []),
        ("monthlyWinners", JsVal.arr [] [])] := by
  simp only [exportData, hach, hmw, JsVal.jsonCopy, jsonCopyFields, jsonCopyItems,
    jsonCopyItems_toJs]

/-- `x || ''` on a string is that string. -/
theorem orElse_str (w : String) : orElse (some (JsVal.str w)) (JsVal.str "") = JsVal.str w := by
  by_cases h : w = ""
  · subst h
    rfl
  · simp [orElse, truthy, h]

/-- C10, as amended: for every state built from the empty store (with any
`weeklyPrenda`) by `addRecord` calls whose dates are not the empty string and whose
steps are integers from 0 up to, not including, `10^21`, `importData` of
`exportData` succeeds, reports the number of records, and leaves the same records in
the same order, each with the same date, steps, points and bonus for both players,
and the same `weeklyPrenda`, `achievements` and `monthlyWinners`. -/
theorem export_import_roundtrip (rt : Runtime) (w : String)
    (calls : List (Int × String × Int × Int))
    (hcalls : ∀ call ∈ calls, call.2.1 ≠ "" ∧
      (0 ≤ call.2.2.1 ∧ call.2.2.1 < 10 ^ 21) ∧ (0 ≤ call.2.2.2 ∧ call.2.2.2 < 10 ^ 21))
    (before : RawState) :
    importData rt before (some (exportData (applyCalls rt calls (emptyWithPrenda w))))
      = (ImportResult.success (applyCalls rt calls (emptyWithPrenda w)).records.length,
          (applyCalls rt calls (emptyWithPrenda w)).toRaw) := by
  obtain ⟨hgood, hsorted, hw, hach, hmw⟩ :=
    applyCalls_invariant rt calls hcalls (emptyWithPrenda w) (by intro r hr; cases hr) rfl
  have hsort := sortRawRecords_toJs rt (applyCalls rt calls (emptyWithPrenda w)).records
  rw [hsorted] at hsort
  have hach' : (applyCalls rt calls (emptyWithPrenda w)).achievements = JsVal.obj [] := hach
  have hmw' : (applyCalls rt calls (emptyWithPrenda w)).monthlyWinners = [] := hmw
  have hrecords : (exportData (applyCalls rt calls (emptyWithPrenda w))).getProp "records"
      = some (JsVal.arr
          ((applyCalls rt calls (emptyWithPrenda w)).records.map DailyRecord.toJs) []) := by
    rw [exportData_eq _ hach' hmw']
    rfl
  have hprenda : (exportData (applyCalls rt calls (emptyWithPrenda w))).getProp "weeklyPrenda"
      = some (JsVal.str (applyCalls rt calls (emptyWithPrenda w)).weeklyPrenda) := by
    rw [exportData_eq _ hach' hmw']
    rfl
  have hachievements :
      (exportData (applyCalls rt calls (emptyWithPrenda w))).getProp "achievements"
        = some (JsVal.obj []) := by
    rw [exportData_eq _ hach' hmw']
    rfl
  have hwinners :
      (exportData (applyCalls rt calls (emptyWithPrenda w))).getProp "monthlyWinners"
        = some (JsVal.arr [] []) := by
    rw [exportData_eq _ hach' hmw']
    rfl
  have hdoc : exportData (applyCalls rt calls (emptyWithPrenda w)) ≠ JsVal.null := by
    rw [exportData_eq _ hach' hmw']
    intro h
    cases h
  have htry : importDataTry rt (some (exportData (applyCalls rt calls (emptyWithPrenda w))))
      = Except.ok ((applyCalls rt calls (emptyWithPrenda w)).toRaw,
          (applyCalls rt calls (emptyWithPrenda w)).records.length) := by
    rw [importDataTry_eq rt _ hdoc, hrecords, hprenda, hachievements, hwinners,
      if_neg (by simp [truthy, isArray])]
    simp only [arrayItems, importRecords_toJs _ hgood, Except.bind, hsort, orElse_str,
      State.toRaw, hach', hmw', List.length_map]
    rfl
  simp only [importData, htry]

/-- Witness for C10 as amended: three calls, one of them replacing a record. -/
theorem export_import_roundtrip_witness :
    importData (utcRuntime sampleNow) State.initial.toRaw
        (some (exportData
          (applyCalls (utcRuntime sampleNow) sampleCalls (emptyWithPrenda "calcetines"))))
      = (ImportResult.success 2,
          (applyCalls (utcRuntime sampleNow) sampleCalls (emptyWithPrenda "calcetines")).toRaw) :=
  export_import_roundtrip (utcRuntime sampleNow) "calcetines" sampleCalls (by decide)
    State.initial.toRaw

/-- C10 fails as stated.  A call with `10^21` steps stores 20 points; the exported
number reads `1e+21`, of which `parseInt` takes the 1, so that the import leaves 1
step and 0 points.  A call with the empty string as the date stores a record that
the import rejects, so that `importData` of `exportData` does not succeed. -/
theorem export_import_breaks :
    (applyCalls (utcRuntime sampleNow) hugeStepsCalls (emptyWithPrenda "")).records
      = [{ date := "2024-01-10"
           merce := { steps := 1000000000000000000000, points := 20, bonus := 1 }
           patri := { steps := 0, points := 0, bonus := 0 } }] ∧
    importData (utcRuntime sampleNow)
        (applyCalls (utcRuntime sampleNow) hugeStepsCalls (emptyWithPrenda "")).toRaw
        (some (exportData
          (applyCalls (utcRuntime sampleNow) hugeStepsCalls (emptyWithPrenda ""))))
      = (ImportResult.success 1,
          { records :=
              [DailyRecord.toJs
                { date := "2024-01-10"
                  merce := { steps := 1, points := 0, bonus := 1 }
                  patri := { steps := 0, points := 0, bonus := 0 } }]
            weeklyPrenda := JsVal.str ""
            achievements := JsVal.obj []
            monthlyWinners := JsVal.arr [] [] }) ∧
    importData (utcRuntime sampleNow)
        (applyCalls (utcRuntime sampleNow) emptyDateCalls (emptyWithPrenda "")).toRaw
        (some (exportData
          (applyCalls (utcRuntime sampleNow) emptyDateCalls (emptyWithPrenda ""))))
      = (ImportResult.failure "Cada registro debe tener date, merce y patri",
          (applyCalls (utcRuntime sampleNow) emptyDateCalls (emptyWithPrenda "")).toRaw) := by
  refine ⟨by decide, rfl, rfl⟩

/-! ### calculatePoints below zero -/

/-- C15 fails as stated: `calculatePoints` has no lower clamp, and one step below
zero already gives one point below zero. -/
theorem calculatePoints_negative_one :
    calculatePoints (-1) = -1 ∧ calculatePoints (-1) ≠ 0 ∧ calculatePoints (-1500) = -2 := by
  decide

/-- C15, as amended: `calculatePoints` caps its input at 20000 from above only.  For
every integer `steps` it is `floor(min(steps, 20000) / 1000)`, never above 20;
it is negative for every negative `steps` and non-negative for every
non-negative `steps`. -/
theorem calculatePoints_sign (steps : Int) :
    calculatePoints steps = ⌊((min steps 20000 : Int) : ℚ) / 1000⌋ ∧
    calculatePoints steps ≤ 20 ∧
    (steps < 0 → calculatePoints steps < 0) ∧
    (0 ≤ steps → 0 ≤ calculatePoints steps) := by
  have hdiv : calculatePoints steps = min steps 20000 / 1000 := by
    simp only [calculatePoints, MAX_DAILY_STEPS, POINTS_PER_STEPS]
    exact Int.fdiv_eq_ediv _ (by norm_num)
  refine ⟨calculatePoints_eq_floor steps, ?_, ?_, ?_⟩
  · rw [hdiv]
    omega
  · intro h
    rw [hdiv]
    omega
  · intro h
    rw [hdiv]
    omega

/-! ### Week bounds -/

/-- The local day number after `setDate`, in a time zone that keeps the local day:
the day moves by the difference of the days of the month. -/
theorem localDay_setDate (rt : Runtime) (h : KeepsLocalDay rt) (t dt : Int) :
    localDay rt (setDate rt t dt) = localDay rt t - getDate rt t + dt := by
  simp only [setDate]
  rw [h]
  generalize localDay rt t - getDate rt t + dt = day
  generalize localTime rt t = tlocal
  unfold msPerDay
  omega

/-- A time zone of fixed offset keeps the local day. -/
theorem keepsLocalDay_of_fixedOffset (rt : Runtime) (h : FixedOffset rt) :
    KeepsLocalDay rt := by
  obtain ⟨offset, hoff⟩ := h
  intro tlocal
  simp only [localDay, localTime, utcOfLocal, hoff]
  congr 1
  omega

/-- Europe/Madrid keeps the local day: the hour that the clocks skip is read as the
hour after it, on the same day. -/
theorem keepsLocalDay_madrid (now : Int) : KeepsLocalDay (madridRuntime now) := by
  intro tlocal
  simp only [localDay, localTime, utcOfLocal, madridRuntime, madridTZA, madridDstStart,
    madridDstEnd, msPerDay, if_true, Bool.false_eq_true, if_false]
  split_ifs <;> omega

/-- C17: for every instant `D`, in calendar days of the local time zone (one in which
no change of offset carries a local time into another day): `getMonday(D)` falls on a
Monday and lies from 0 to 6 days on or before the day of `D`; for a Sunday `D` it is
6 days before and for a Monday `D` it is the day of `D` itself; `getSunday(D)` is
the day 6 days after `getMonday(D)`, a Sunday on or after the day of `D`.  Where the
offset of the time zone is fixed the same holds of the instants: `getMonday(D)` is
`D` minus a whole number of days, from 0 to 6, at the same time of day (`D` minus 6
days for a Sunday, `D` itself for a Monday), and `getSunday(D)` is exactly 6 days
after `getMonday(D)`, falls on a Sunday and is on or after `D`. -/
theorem getMonday_getSunday_spec (rt : Runtime) (D : Int) :
    (FixedOffset rt →
      getDay rt (getMonday rt D) = 1 ∧
      (∃ k : Int, 0 ≤ k ∧ k ≤ 6 ∧ getMonday rt D = D - k * msPerDay) ∧
      (getDay rt D = 0 → getMonday rt D = D - 6 * msPerDay) ∧
      (getDay rt D = 1 → getMonday rt D = D) ∧
      getSunday rt D = getMonday rt D + 6 * msPerDay ∧
      getDay rt (getSunday rt D) = 0 ∧
      D ≤ getSunday rt D ∧
      getSunday rt D - D ≤ 6 * msPerDay) ∧
    (KeepsLocalDay rt →
      getDay rt (getMonday rt D) = 1 ∧
      (∃ k : Int, 0 ≤ k ∧ k ≤ 6 ∧ localDay rt (getMonday rt D) = localDay rt D - k) ∧
      (getDay rt D = 0 → localDay rt (getMonday rt D) = localDay rt D - 6) ∧
      (getDay rt D = 1 → localDay rt (getMonday rt D) = localDay rt D) ∧
      localDay rt (getSunday rt D) = localDay rt (getMonday rt D) + 6 ∧
      getDay rt (getSunday rt D) = 0 ∧
      localDay rt D ≤ localDay rt (getSunday rt D) ∧
      localDay rt (getSunday rt D) - localDay rt D ≤ 6) := by
  constructor
  · intro hfix
    obtain ⟨offset, hoff⟩ := id hfix
    have hm : getMonday rt D
        = D + (-(getDay rt D) + (if getDay rt D = 0 then -6 else 1)) * msPerDay := by
      simp only [getMonday, setDate_fixedOffset rt hfix]
      congr 1
      congr 1
      omega
    have hs : getSunday rt D = getMonday rt D + 6 * msPerDay := by
      simp only [getSunday, setDate_fixedOffset rt hfix]
      congr 1
      congr 1
      omega
    rw [hs, hm]
    simp only [getDay, localDay, localTime, hoff, msPerDay]
    split_ifs with h0
    · refine ⟨by omega, ⟨6, by omega, by omega, by omega⟩, fun _ => by omega,
        fun h => by omega, trivial, by omega, by omega, by omega⟩
    · refine ⟨by omega, ⟨((D + offset) / 86400000 + 4) % 7 - 1, by omega, by omega, by omega⟩,
        fun h => absurd h h0, fun h => by omega, trivial, by omega, by omega, by omega⟩
  · intro hkeep
    have hm : localDay rt (getMonday rt D)
        = localDay rt D + (-(getDay rt D) + (if getDay rt D = 0 then -6 else 1)) := by
      simp only [getMonday, localDay_setDate rt hkeep]
      omega
    have hs : localDay rt (getSunday rt D) = localDay rt (getMonday rt D) + 6 := by
      simp only [getSunday, localDay_setDate rt hkeep]
      omega
    have hdm : getDay rt (getMonday rt D) = (localDay rt (getMonday rt D) + 4) % 7 := rfl
    have hds : getDay rt (getSunday rt D) = (localDay rt (getSunday rt D) + 4) % 7 := rfl
    have hd : getDay rt D = (localDay rt D + 4) % 7 := rfl
    rw [hdm, hds, hs, hm, hd]
    generalize localDay rt D = day
    split_ifs with h0
    · refine ⟨by omega, ⟨6, by omega, by omega, by omega⟩, fun _ => by omega,
        fun h => by omega, rfl, by omega, by omega, by omega⟩
    · refine ⟨by omega, ⟨(day + 4) % 7 - 1, by omega, by omega, by omega⟩,
        fun h => absurd h h0, fun h => by omega, rfl, by omega, by omega, by omega⟩

/-- Witness for C17: the UTC time zone has a fixed offset and Europe/Madrid keeps
the local day; at 01:30 local time of Monday 2024-04-01 in Madrid the week runs from
that day to Sunday 2024-04-07, and the Monday is the instant itself. -/
theorem getMonday_getSunday_spec_witness :
    FixedOffset (utcRuntime sampleNow) ∧
    getDay (utcRuntime sampleNow) (getMonday (utcRuntime sampleNow) sampleNow) = 1 ∧
    KeepsLocalDay (madridRuntime springNow) ∧
    getDay (madridRuntime springNow) (getMonday (madridRuntime springNow) springNow) = 1 ∧
    getDay (madridRuntime springNow) (getSunday (madridRuntime springNow) springNow) = 0 ∧
    getMonday (madridRuntime springNow) springNow = springNow ∧
    isoDateOfDay (localDay (madridRuntime springNow) springNow) = "2024-04-01" ∧
    isoDateOfDay (localDay (madridRuntime springNow)
      (getSunday (madridRuntime springNow) springNow)) = "2024-04-07" :=
  ⟨⟨0, fun _ _ => rfl⟩,
    ((getMonday_getSunday_spec (utcRuntime sampleNow) sampleNow).1 ⟨0, fun _ _ => rfl⟩).1,
    keepsLocalDay_madrid springNow,
    ((getMonday_getSunday_spec (madridRuntime springNow) springNow).2
      (keepsLocalDay_madrid springNow)).1,
    ((getMonday_getSunday_spec (madridRuntime springNow) springNow).2
      (keepsLocalDay_madrid springNow)).2.2.2.2.2.1,
    by decide, by decide, by decide⟩

/-! ### Standings -/

/-- C13, evaluated at a failing input: the weekly scoreboard crowns the player with
the strictly greater total and nobody on a tie, and the monthly tab names the player
with the strictly greater total as leader; but on equal monthly totals (0 and 0, or
5 and 5) the monthly tab still names Merce as leader and Patri as second. -/
theorem updateMonthlyTab_tie :
    (∀ m p : Int, m > p →
      (updateScoreboard m p).crownMerce = true ∧ (updateScoreboard m p).crownPatri = false) ∧
    (∀ m p : Int, p > m →
      (updateScoreboard m p).crownMerce = false ∧ (updateScoreboard m p).crownPatri = true) ∧
    (∀ m : Int, updateScoreboard m m
      = { crownMerce := false, crownPatri := false, scoreDiff := "¡Empate!" }) ∧
    (∀ m p : Int, m > p → (updateMonthlyTab m p).leader = "Merce") ∧
    (∀ m p : Int, p > m → (updateMonthlyTab m p).leader = "Patri") ∧
    updateMonthlyTab 0 0
      = { leader := "Merce", second := "Patri", leaderPts := 0, secondPts := 0 } ∧
    updateMonthlyTab 5 5
      = { leader := "Merce", second := "Patri", leaderPts := 5, secondPts := 5 } := by
  refine ⟨?_, ?_, ?_, ?_, ?_, by decide, by decide⟩
  · intro m p h
    simp [updateScoreboard, h]
  · intro m p h
    have h' : ¬ m > p := by omega
    simp [updateScoreboard, h, h']
  · intro m
    simp [updateScoreboard]
  · intro m p h
    have h' : m ≥ p := by omega
    simp [updateMonthlyTab, h']
  · intro m p h
    have h' : ¬ m ≥ p := by omega
    simp [updateMonthlyTab, h']

/-! ### The streak bonus -/

/-- C16, evaluated at a failing input: after seven consecutive days of exactly 5000
steps, `addRecord` for today with 5000 steps reads a streak of 7 and stores the
2-point bonus, although no record of the store has 8000 steps. -/
theorem addRecord_bonus_below_8000 :
    getStreak (utcRuntime sampleNow) lowStreakState Player.merce = 7 ∧
    (addRecord (utcRuntime sampleNow) lowStreakState "2024-01-10" 5000 0).2.merce.bonus
      = BONUS_7_DAYS_8K ∧
    (∀ r ∈ (addRecord (utcRuntime sampleNow) lowStreakState "2024-01-10" 5000 0).1.records,
      r.merce.steps < 8000) := by
  decide

/-! ### Uniqueness of dates -/

/-- `addRecord` keeps the dates of the store distinct. -/
theorem addRecord_nodup (rt : Runtime) (state : State) (d : String) (a b : Int)
    (hnd : (state.records.map (fun r => r.date)).Nodup) :
    ((addRecord rt state d a b).1.records.map (fun r => r.date)).Nodup := by
  have hp := (addRecord_records_perm rt state d a b).map (fun r => r.date)
  rw [hp.nodup_iff, List.map_append, List.map_singleton, addRecord_date]
  have hsub : ((state.records.filter (fun r => r.date != d)).map (fun r => r.date)).Sublist
      (state.records.map (fun r => r.date)) :=
    (List.filter_sublist _).map _
  refine List.Nodup.append (hnd.sublist hsub) (List.nodup_singleton d) ?_
  rw [List.disjoint_singleton]
  intro hmem
  obtain ⟨r, hr, hrd⟩ := List.mem_map.mp hmem
  have := (List.mem_filter.mp hr).2
  simp [hrd] at this

/-- C11, evaluated at a failing input: `addRecord` keeps the dates distinct, but
`importData` of a document with two records dated 2024-01-10 succeeds from the empty
store and leaves both records in `state.records`. -/
theorem importData_duplicate_dates :
    (∀ (rt : Runtime) (state : State) (d : String) (a b : Int),
      (state.records.map (fun r => r.date)).Nodup →
      ((addRecord rt state d a b).1.records.map (fun r => r.date)).Nodup) ∧
    (importData (utcRuntime sampleNow) State.initial.toRaw (some duplicateDateDoc)).1
      = ImportResult.success 2 ∧
    (importData (utcRuntime sampleNow) State.initial.toRaw (some duplicateDateDoc)).2.records
      = [ (plainRecord "2024-01-10" 6000 7000).toJs, (plainRecord "2024-01-10" 100 200).toJs ] ∧
    ((importData (utcRuntime sampleNow) State.initial.toRaw
        (some duplicateDateDoc)).2.records.map (fun r => r.getProp "date"))
      = [some (JsVal.str "2024-01-10"), some (JsVal.str "2024-01-10")] :=
  ⟨addRecord_nodup, rfl, rfl, rfl⟩

/-! ### The calendar of the runtime -/

/-- The day number in closed form. -/
theorem daysFromCivil_eq (y m d : Int) :
    daysFromCivil y m d =
      365 * (if m ≤ 2 then y - 1 else y) + (if m ≤ 2 then y - 1 else y) / 4
        - (if m ≤ 2 then y - 1 else y) / 100 + (if m ≤ 2 then y - 1 else y) / 400
        + (153 * (if m > 2 then m - 3 else m + 9) + 2) / 5 + d - 1 - 719468 := by
  unfold daysFromCivil
  simp only
  split_ifs <;> omega

/-- A year is 365 days long, and 366 when the year that follows the March start is
a leap year. -/
theorem leap_len (y : Int) :
    365 * (y + 1) + (y + 1) / 4 - (y + 1) / 100 + (y + 1) / 400
      = 365 * y + y / 4 - y / 100 + y / 400 + 365
        + (if (y + 1) % 4 = 0 ∧ ((y + 1) % 100 ≠ 0 ∨ (y + 1) % 400 = 0) then 1 else 0) := by
  split_ifs <;> omega

/-- The count of days before a year grows with the year. -/
theorem year_mono (y1 y2 : Int) (h : y1 ≤ y2) :
    365 * y1 + y1 / 4 - y1 / 100 + y1 / 400 ≤ 365 * y2 + y2 / 4 - y2 / 100 + y2 / 400 := by
  omega

/-- Within a year that starts in March, a later month starts after the last day of
an earlier one. -/
theorem month_start_lt (mp1 mp2 d1 d2 : Int) (h1 : 0 ≤ mp1) (h12 : mp1 < mp2) (h2 : mp2 ≤ 11)
    (hd1 : d1 ≤ 31) (h30 : mp1 = 1 ∨ mp1 = 3 ∨ mp1 = 6 ∨ mp1 = 8 → d1 ≤ 30) (hd2 : 1 ≤ d2) :
    (153 * mp1 + 2) / 5 + d1 < (153 * mp2 + 2) / 5 + d2 := by
  have hb : mp1 ≤ 10 := by omega
  interval_cases mp1 <;> omega

/-- A year that starts in March ends before the next one starts. -/
theorem year_start_lt (y1 y2 doy1 doy2 : Int) (hy : y1 < y2) (h2 : 0 ≤ doy2)
    (h1 : doy1 ≤ 364 + (if (y1 + 1) % 4 = 0 ∧ ((y1 + 1) % 100 ≠ 0 ∨ (y1 + 1) % 400 = 0)
      then 1 else 0)) :
    365 * y1 + y1 / 4 - y1 / 100 + y1 / 400 + doy1
      < 365 * y2 + y2 / 4 - y2 / 100 + y2 / 400 + doy2 := by
  have hl := leap_len y1
  have hm := year_mono (y1 + 1) y2 (by omega)
  omega

/-- The day numbers of two dates given by March-based year, month and day follow the
order of the dates. -/
theorem civil_lt_core (Y1 P1 d1 Y2 P2 d2 : Int) (hP1 : 0 ≤ P1 ∧ P1 ≤ 11)
    (hP2 : 0 ≤ P2 ∧ P2 ≤ 11) (hd1 : 1 ≤ d1 ∧ d1 ≤ 31) (hd2 : 1 ≤ d2)
    (h30 : P1 = 1 ∨ P1 = 3 ∨ P1 = 6 ∨ P1 = 8 → d1 ≤ 30)
    (hfeb : P1 = 11 → d1 ≤ 28 +
      (if (Y1 + 1) % 4 = 0 ∧ ((Y1 + 1) % 100 ≠ 0 ∨ (Y1 + 1) % 400 = 0) then 1 else 0))
    (hlt : Y1 < Y2 ∨ (Y1 = Y2 ∧ (P1 < P2 ∨ (P1 = P2 ∧ d1 < d2)))) :
    365 * Y1 + Y1 / 4 - Y1 / 100 + Y1 / 400 + (153 * P1 + 2) / 5 + d1 - 1 - 719468
      < 365 * Y2 + Y2 / 4 - Y2 / 100 + Y2 / 400 + (153 * P2 + 2) / 5 + d2 - 1 - 719468 := by
  rcases hlt with hy | ⟨hy, hp | ⟨hp, hd⟩⟩
  · have hbound : (153 * P1 + 2) / 5 + d1 - 1 ≤ 364 +
        (if (Y1 + 1) % 4 = 0 ∧ ((Y1 + 1) % 100 ≠ 0 ∨ (Y1 + 1) % 400 = 0) then 1 else 0) := by
      by_cases h11 : P1 = 11
      · have := hfeb h11
        subst h11
        omega
      · have : (153 * P1 + 2) / 5 ≤ 306 := by omega
        split_ifs <;> omega
    have h := year_start_lt Y1 Y2 ((153 * P1 + 2) / 5 + d1 - 1) ((153 * P2 + 2) / 5 + d2 - 1)
      hy (by omega) hbound
    omega
  · subst hy
    have h := month_start_lt P1 P2 d1 d2 hP1.1 hp hP2.2 hd1.2 h30 hd2
    omega
  · subst hy
    subst hp
    omega

/-- The day number of a calendar date grows with the date: a date that is earlier by
year, month and day has the smaller day number. -/
theorem daysFromCivil_lt (y1 m1 d1 y2 m2 d2 : Int)
    (hm1 : 1 ≤ m1 ∧ m1 ≤ 12) (hm2 : 1 ≤ m2 ∧ m2 ≤ 12)
    (hd1 : 1 ≤ d1 ∧ d1 ≤ daysInMonth y1 m1) (hd2 : 1 ≤ d2 ∧ d2 ≤ daysInMonth y2 m2)
    (hlt : y1 < y2 ∨ (y1 = y2 ∧ (m1 < m2 ∨ (m1 = m2 ∧ d1 < d2)))) :
    daysFromCivil y1 m1 d1 < daysFromCivil y2 m2 d2 := by
  rw [daysFromCivil_eq, daysFromCivil_eq]
  have hlen : d1 ≤ 31 ∧ (m1 = 4 ∨ m1 = 6 ∨ m1 = 9 ∨ m1 = 11 → d1 ≤ 30) ∧
      (m1 = 2 → d1 ≤ 28 +
        (if y1 % 4 = 0 ∧ (y1 % 100 ≠ 0 ∨ y1 % 400 = 0) then 1 else 0)) := by
    unfold daysInMonth at hd1
    split_ifs at hd1 ⊢ <;> omega
  obtain ⟨h31, h30, hfeb⟩ := hlen
  apply civil_lt_core
  · split_ifs <;> omega
  · split_ifs <;> omega
  · exact ⟨hd1.1, h31⟩
  · exact hd2.1
  · intro h
    apply h30
    split_ifs at h <;> omega
  · intro h
    have hm : m1 = 2 := by split_ifs at h <;> omega
    have := hfeb hm
    subst hm
    simpa using this
  · split_ifs <;> omega

/-! ### Order of the records -/

/-- The time value of a valid calendar date is midnight UTC of its day number. -/
theorem parseISODate_eq (s : String) :
    parseISODate s
      = (calendarDate s).map (fun ymd => daysFromCivil ymd.1 ymd.2.1 ymd.2.2 * msPerDay) := by
  unfold parseISODate calendarDate
  split
  · simp only
    split_ifs <;> rfl
  · rfl

/-- Between two valid calendar dates, the one whose midnight is not earlier is on or
after the other. -/
theorem dateOnOrAfter_of_timeValue (a b : String) (ha : ValidDate a) (hb : ValidDate b)
    (h : dateDifference (parseISODate b) (parseISODate a) ≤ 0) : dateOnOrAfter a b := by
  obtain ⟨⟨ya, ma, da⟩, hca⟩ := ha
  obtain ⟨⟨yb, mb, db⟩, hcb⟩ := hb
  refine ⟨ya, ma, da, yb, mb, db, hca, hcb, ?_⟩
  have hva : 1 ≤ ma ∧ ma ≤ 12 ∧ 1 ≤ da ∧ da ≤ daysInMonth ya ma := by
    unfold calendarDate at hca
    split at hca
    · simp only at hca
      split_ifs at hca with h1 h2
      simp only [Option.some.injEq, Prod.mk.injEq] at hca
      obtain ⟨rfl, rfl, rfl⟩ := hca
      exact h2
    · cases hca
  have hvb : 1 ≤ mb ∧ mb ≤ 12 ∧ 1 ≤ db ∧ db ≤ daysInMonth yb mb := by
    unfold calendarDate at hcb
    split at hcb
    · simp only at hcb
      split_ifs at hcb with h1 h2
      simp only [Option.some.injEq, Prod.mk.injEq] at hcb
      obtain ⟨rfl, rfl, rfl⟩ := hcb
      exact h2
    · cases hcb
  rw [parseISODate_eq, parseISODate_eq, hca, hcb] at h
  simp only [Option.map_some', dateDifference, msPerDay] at h
  by_contra hnot
  have hlt : ya < yb ∨ (ya = yb ∧ (ma < mb ∨ (ma = mb ∧ da < db))) := by omega
  have := daysFromCivil_lt ya ma da yb mb db ⟨hva.1, hva.2.1⟩ ⟨hvb.1, hvb.2.1⟩
    ⟨hva.2.2.1, hva.2.2.2⟩ ⟨hvb.2.2.1, hvb.2.2.2⟩ hlt
  omega

/-- After `addRecord`, with valid calendar dates in the store and in the call, the
records are in descending order of date. -/
theorem addRecord_sorted (rt : Runtime)
    (hrt : ∀ s, ValidDate s → rt.timeValue (JsVal.str s) = parseISODate s)
    (state : State) (d : String) (a b : Int)
    (hstore : ∀ r ∈ state.records, ValidDate r.date) (hd : ValidDate d) :
    List.Chain' (fun x y => dateOnOrAfter x.date y.date) (addRecord rt state d a b).1.records := by
  have hvalid : ∀ r ∈ (addRecord rt state d a b).1.records, ValidDate r.date := by
    intro r hr
    rcases List.mem_append.mp ((addRecord_records_perm rt state d a b).mem_iff.mp hr)
      with hold | hnew
    · exact hstore r (List.mem_filter.mp hold).1
    · rw [List.mem_singleton.mp hnew]
      exact hd
  have hc : List.Chain'
      (fun x y : DailyRecord => dateDifference (rt.timeValue (JsVal.str y.date))
        (rt.timeValue (JsVal.str x.date)) ≤ 0)
      (addRecord rt state d a b).1.records :=
    chain_insertionSort _ (fun x y => dateDifference_total _ _) _
  rw [List.Chain'.iff_mem] at hc
  refine hc.imp ?_
  rintro x y ⟨hx, hy, hxy⟩
  rw [hrt _ (hvalid x hx), hrt _ (hvalid y hy)] at hxy
  exact dateOnOrAfter_of_timeValue _ _ (hvalid x hx) (hvalid y hy) hxy

/-- What a successful `importData` leaves: the sorted outcome of the `forEach` over
the list under `records`. -/
theorem importData_success (rt : Runtime) (state : RawState) (doc : JsVal) (n : Nat)
    (newState : RawState)
    (h : importData rt state (some doc) = (ImportResult.success n, newState)) :
    ∃ items props processed, doc.getProp "records" = some (JsVal.arr items props) ∧
      importRecords items = Except.ok processed ∧
      newState.records = sortRawRecords rt processed := by
  by_cases hd : doc = JsVal.null
  · subst hd
    simp [importData, importDataTry, readProp, bind, Except.bind, throw, throwThe,
      MonadExceptOf.throw] at h
  · unfold importData at h
    rw [importDataTry_eq rt doc hd] at h
    split_ifs at h with hc
    · simp at h
    · cases hrec : doc.getProp "records" with
      | none => simp [hrec, truthy] at hc
      | some v =>
        cases v with
        | arr items props =>
          cases hproc : importRecords items with
          | error e => simp [hrec, arrayItems, hproc, Except.bind] at h
          | ok processed =>
            simp only [hrec, arrayItems, hproc, Except.bind, Prod.mk.injEq] at h
            exact ⟨items, props, processed, rfl, hproc, by rw [← h.2]⟩
        | _ => simp [hrec, isArray] at hc

/-- The body of the `forEach` keeps the `date` of a record. -/
theorem importRecord_date (r r' : JsVal) (h : importRecord r = Except.ok r') :
    r'.getProp "date" = r.getProp "date" := by
  by_cases hr : r = JsVal.null
  · subst hr
    cases h
  · rw [importRecord_eq r hr] at h
    split_ifs at h with hc
    simp only [Bool.or_eq_true, Bool.not_eq_true', not_or, Bool.not_eq_false] at hc
    obtain ⟨⟨-, hm⟩, hp⟩ := hc
    have hm' : ∃ y, r.getProp "merce" = some y := by
      cases hv : r.getProp "merce" with
      | none => simp [hv, truthy] at hm
      | some y => exact ⟨y, rfl⟩
    have hp' : ∃ y, r.getProp "patri" = some y := by
      cases hv : r.getProp "patri" with
      | none => simp [hv, truthy] at hp
      | some y => exact ⟨y, rfl⟩
    have hshape : ∃ M P, r' = (r.setProp "merce" M).setProp "patri" P := by
      simp only [recomputePlayers, bind, Except.bind, pure, Except.pure] at h
      split at h
      · cases h
      · split at h
        · cases h
        · simp only [Except.ok.injEq] at h
          exact ⟨_, _, h.symm⟩
    obtain ⟨M, P, rfl⟩ := hshape
    have h1 : ∀ k', (r.setProp "merce" M).getProp k'
        = if k' = "merce" then some M else r.getProp k' :=
      fun k' => getProp_setProp r "merce" k' M hm'
    obtain ⟨yp, hyp⟩ := hp'
    rw [getProp_setProp _ "patri" "date" P ⟨yp, by rw [h1]; simpa using hyp⟩, h1]
    simp

/-- The `forEach` keeps the `date` of every record. -/
theorem importRecords_dates (items : List JsVal) :
    ∀ processed, importRecords items = Except.ok processed →
      ∀ r' ∈ processed, ∃ r ∈ items, r'.getProp "date" = r.getProp "date" := by
  induction items with
  | nil =>
    intro processed h r' hr'
    simp only [importRecords, pure, Except.pure, Except.ok.injEq] at h
    subst h
    cases hr'
  | cons x rest ih =>
    intro processed h r' hr'
    cases hx : importRecord x with
    | error e => simp [importRecords, hx, bind, Except.bind] at h
    | ok x' =>
      cases hrest : importRecords rest with
      | error e => simp [importRecords, hx, hrest, bind, Except.bind] at h
      | ok rest' =>
        simp only [importRecords, hx, hrest, bind, Except.bind, pure, Except.pure,
          Except.ok.injEq] at h
        subst h
        rcases List.mem_cons.mp hr' with rfl | hmem
        · exact ⟨x, List.mem_cons_self _ _, importRecord_date x _ hx⟩
        · obtain ⟨r, hr, hdate⟩ := ih rest' hrest r' hmem
          exact ⟨r, List.mem_cons_of_mem _ hr, hdate⟩

/-- C12: with a runtime that reads valid `YYYY-MM-DD` calendar dates as the standard
prescribes, and with valid dates in the store and in the input, `state.records` is in
descending order of date (each record's date is on or after the date of the record
that follows it) after `addRecord` and after a successful `importData`, whatever the
order of the store or of the imported list was. -/
theorem records_sorted_descending (rt : Runtime)
    (hrt : ∀ s, ValidDate s → rt.timeValue (JsVal.str s) = parseISODate s) :
    (∀ (state : State) (d : String) (a b : Int),
      (∀ r ∈ state.records, ValidDate r.date) → ValidDate d →
      List.Chain' (fun x y => dateOnOrAfter x.date y.date)
        (addRecord rt state d a b).1.records) ∧
    (∀ (state : RawState) (doc : JsVal) (n : Nat) (newState : RawState),
      (∀ items props, doc.getProp "records" = some (JsVal.arr items props) →
        ∀ r ∈ items, ∃ s, rawDateIs r s) →
      importData rt state (some doc) = (ImportResult.success n, newState) →
      List.Chain'
        (fun x y => ∃ sx sy, rawDateIs x sx ∧ rawDateIs y sy ∧ dateOnOrAfter sx sy)
        newState.records) := by
  refine ⟨fun state d a b hstore hd => addRecord_sorted rt hrt state d a b hstore hd, ?_⟩
  intro state doc n newState hdoc himp
  obtain ⟨items, props, processed, hrec, hproc, hnew⟩ :=
    importData_success rt state doc n newState himp
  have hvalid : ∀ r' ∈ sortRawRecords rt processed, ∃ s, rawDateIs r' s := by
    intro r' hr'
    obtain ⟨r, hr, hdate⟩ := importRecords_dates items processed hproc r'
      ((sortRawRecords_perm rt processed).mem_iff.mp hr')
    obtain ⟨s, hs, hv⟩ := hdoc items props hrec r hr
    exact ⟨s, by rw [hdate]; exact hs, hv⟩
  have hc : List.Chain'
      (fun x y : JsVal => dateDifference ((y.getProp "date").bind rt.timeValue)
        ((x.getProp "date").bind rt.timeValue) ≤ 0)
      (sortRawRecords rt processed) :=
    chain_insertionSort _ (fun x y => dateDifference_total _ _) _
  rw [hnew]
  rw [List.Chain'.iff_mem] at hc
  refine hc.imp ?_
  rintro x y ⟨hx, hy, hxy⟩
  obtain ⟨sx, hsx, hvx⟩ := hvalid x hx
  obtain ⟨sy, hsy, hvy⟩ := hvalid y hy
  rw [hsx, hsy] at hxy
  simp only [Option.some_bind, hrt _ hvx, hrt _ hvy] at hxy
  exact ⟨sx, sy, ⟨hsx, hvx⟩, ⟨hsy, hvy⟩, dateOnOrAfter_of_timeValue _ _ hvx hvy hxy⟩

/-- Witness for C12: a record added to a store of five records out of order. -/
theorem records_sorted_descending_witness :
    List.Chain' (fun x y => dateOnOrAfter x.date y.date)
      (addRecord (utcRuntime sampleNow) shuffledState "2024-01-08" 6000 7000).1.records ∧
    (addRecord (utcRuntime sampleNow) shuffledState "2024-01-08" 6000 7000).1.records.map
        (fun r => r.date)
      = ["2024-03-01", "2024-02-29", "2024-01-10", "2024-01-08", "2024-01-07", "2023-12-31"] :=
  ⟨(records_sorted_descending (utcRuntime sampleNow) (fun _ _ => rfl)).1 shuffledState
      "2024-01-08" 6000 7000
      (by
        intro r hr
        simp only [shuffledState, List.mem_cons, List.mem_singleton, List.not_mem_nil,
          or_false] at hr
        rcases hr with rfl | rfl | rfl | rfl | rfl <;> exact ⟨_, rfl⟩)
      ⟨_, rfl⟩,
    by decide⟩

/-! ### Achievements -/

/-- `some` over the monthly winners, none of them `null`, finds the player exactly
when an entry names the player. -/
theorem someWinner_spec (player : Player) (winners : List JsVal)
    (hw : ∀ w ∈ winners, w ≠ JsVal.null) :
    (∃ b, someWinner player winners = Except.ok b) ∧
    (someWinner player winners = Except.ok true ↔
      ∃ w ∈ winners, w.getProp "player" = some (JsVal.str player.key)) := by
  induction winners with
  | nil => exact ⟨⟨false, rfl⟩, by simp [someWinner]⟩
  | cons w rest ih =>
    obtain ⟨⟨b, hb⟩, hiff⟩ := ih (fun x hx => hw x (List.mem_cons_of_mem _ hx))
    have hread : readProp (some w) "player" = Except.ok (w.getProp "player") := by
      cases w with
      | null => exact absurd rfl (hw _ (List.mem_cons_self _ _))
      | _ => rfl
    cases hp : w.getProp "player" with
    | none =>
      have hs : someWinner player (w :: rest) = someWinner player rest := by
        simp [someWinner, hread, hp]
      rw [hs]
      refine ⟨⟨b, hb⟩, ?_⟩
      rw [hiff]
      simp [hp]
    | some v =>
      by_cases hv : v = JsVal.str player.key
      · subst hv
        have hs : someWinner player (w :: rest) = Except.ok true := by
          simp [someWinner, hread, hp]
        rw [hs]
        exact ⟨⟨true, rfl⟩, by simp [hp]⟩
      · have hs : someWinner player (w :: rest) = someWinner player rest := by
          cases v with
          | str s =>
            have hne : s ≠ player.key := fun h => hv (by rw [h])
            simp [someWinner, hread, hp, hne]
          | _ => simp [someWinner, hread, hp]
        rw [hs]
        refine ⟨⟨b, hb⟩, ?_⟩
        rw [hiff]
        simp [hp, hv]

/-- `some` over the monthly winners answers `true` exactly when an entry names the
player and no entry before it is `null`. -/
theorem someWinner_true_iff (player : Player) (winners : List JsVal) :
    someWinner player winners = Except.ok true ↔
      ∃ before w after, winners = before ++ w :: after ∧
        w.getProp "player" = some (JsVal.str player.key) ∧ ∀ x ∈ before, x ≠ JsVal.null := by
  induction winners with
  | nil =>
    constructor
    · intro h
      cases h
    · rintro ⟨before, w, after, h, -⟩
      cases before <;> cases h
  | cons v rest ih =>
    by_cases hnull : v = JsVal.null
    · subst hnull
      constructor
      · intro h
        cases h
      · rintro ⟨before, w, after, h, hw, hb⟩
        cases before with
        | nil =>
          simp only [List.nil_append, List.cons.injEq] at h
          rw [← h.1] at hw
          cases hw
        | cons x before =>
          simp only [List.cons_append, List.cons.injEq] at h
          exact absurd h.1.symm (hb x (List.mem_cons_self _ _))
    · have hread : readProp (some v) "player" = Except.ok (v.getProp "player") := by
        cases v with
        | null => exact absurd rfl hnull
        | _ => rfl
      by_cases hv : v.getProp "player" = some (JsVal.str player.key)
      · have hs : someWinner player (v :: rest) = Except.ok true := by
          simp [someWinner, hread, hv]
        rw [hs]
        simp only [true_iff]
        exact ⟨[], v, rest, rfl, hv, by simp⟩
      · have hs : someWinner player (v :: rest) = someWinner player rest := by
          cases hp : v.getProp "player" with
          | none => simp [someWinner, hread, hp]
          | some u =>
            cases u with
            | str s =>
              have hne : s ≠ player.key := fun h => hv (by rw [hp, h])
              simp [someWinner, hread, hp, hne]
            | _ => simp [someWinner, hread, hp]
        rw [hs, ih]
        constructor
        · rintro ⟨before, w, after, h, hw, hb⟩
          refine ⟨v :: before, w, after, by rw [h]; rfl, hw, ?_⟩
          intro x hx
          rcases List.mem_cons.mp hx with rfl | hx
          · exact hnull
          · exact hb x hx
        · rintro ⟨before, w, after, h, hw, hb⟩
          cases before with
          | nil =>
            simp only [List.nil_append, List.cons.injEq] at h
            rw [← h.1] at hw
            exact absurd hw hv
          | cons x before =>
            simp only [List.cons_append, List.cons.injEq] at h
            exact ⟨before, w, after, h.2, hw, fun y hy => hb y (List.mem_cons_of_mem _ hy)⟩

/-- `some` over the monthly winners raises exactly when a `null` entry comes before
any entry that names the player. -/
theorem someWinner_error_iff (player : Player) (winners : List JsVal) :
    (∃ message, someWinner player winners = Except.error message) ↔
      ∃ before after, winners = before ++ JsVal.null :: after ∧
        ∀ x ∈ before, x ≠ JsVal.null ∧ x.getProp "player" ≠ some (JsVal.str player.key) := by
  induction winners with
  | nil =>
    constructor
    · rintro ⟨message, h⟩
      cases h
    · rintro ⟨before, after, h, -⟩
      cases before <;> cases h
  | cons v rest ih =>
    by_cases hnull : v = JsVal.null
    · subst hnull
      constructor
      · intro _
        exact ⟨[], rest, rfl, by simp⟩
      · intro _
        exact ⟨typeErrorMessage, rfl⟩
    · have hread : readProp (some v) "player" = Except.ok (v.getProp "player") := by
        cases v with
        | null => exact absurd rfl hnull
        | _ => rfl
      by_cases hv : v.getProp "player" = some (JsVal.str player.key)
      · have hs : someWinner player (v :: rest) = Except.ok true := by
          simp [someWinner, hread, hv]
        rw [hs]
        constructor
        · rintro ⟨message, h⟩
          cases h
        · rintro ⟨before, after, h, hb⟩
          cases before with
          | nil =>
            simp only [List.nil_append, List.cons.injEq] at h
            exact absurd h.1 hnull
          | cons x before =>
            simp only [List.cons_append, List.cons.injEq] at h
            have := (hb x (List.mem_cons_self _ _)).2
            rw [← h.1] at this
            exact absurd hv this
      · have hs : someWinner player (v :: rest) = someWinner player rest := by
          cases hp : v.getProp "player" with
          | none => simp [someWinner, hread, hp]
          | some u =>
            cases u with
            | str s =>
              have hne : s ≠ player.key := fun h => hv (by rw [hp, h])
              simp [someWinner, hread, hp, hne]
            | _ => simp [someWinner, hread, hp]
        rw [hs, ih]
        constructor
        · rintro ⟨before, after, h, hb⟩
          refine ⟨v :: before, after, by rw [h]; rfl, ?_⟩
          intro x hx
          rcases List.mem_cons.mp hx with rfl | hx
          · exact ⟨hnull, hv⟩
          · exact hb x hx
        · rintro ⟨before, after, h, hb⟩
          cases before with
          | nil =>
            simp only [List.nil_append, List.cons.injEq] at h
            exact absurd h.1 hnull
          | cons x before =>
            simp only [List.cons_append, List.cons.injEq] at h
            exact ⟨before, after, h.2, fun y hy => hb y (List.mem_cons_of_mem _ hy)⟩

/-- The `reduce` that adds the steps is the sum of the steps. -/
theorem foldl_steps_eq_sum (player : Player) (records : List DailyRecord) :
    ∀ init : Int,
      records.foldl (fun sum r => sum + (r.get player).steps) init
        = init + (records.map (fun r => (r.get player).steps)).sum := by
  induction records with
  | nil => intro init; simp
  | cons r rest ih =>
    intro init
    simp only [List.foldl_cons, ih, List.map_cons, List.sum_cons]
    omega

/-- C14 fails as stated: with the monthly winners `null` and then an entry that
names Merce, a list that `importData` accepts and stores, Merce appears in
`monthlyWinners`, yet `check('merce')` of `first_week` is not `true`: reading
`player` of the `null` entry raises a `TypeError`.  The other five checks answer. -/
theorem first_week_null_winner :
    (∃ w ∈ nullWinnerState.monthlyWinners, w.getProp "player" = some (JsVal.str "merce")) ∧
    ACHIEVEMENTS.map (fun a => a.check (utcRuntime sampleNow) nullWinnerState Player.merce)
      = [Except.error typeErrorMessage, Except.ok false, Except.ok false, Except.ok false,
          Except.ok false, Except.ok false] ∧
    someWinner Player.merce nullWinnerState.monthlyWinners ≠ Except.ok true ∧
    someWinner Player.merce nullWinnerState.monthlyWinners.reverse = Except.ok true ∧
    (importData (utcRuntime sampleNow) State.initial.toRaw (some nullWinnerDoc)).1
      = ImportResult.success 0 ∧
    (importData (utcRuntime sampleNow) State.initial.toRaw (some nullWinnerDoc)).2.monthlyWinners
      = JsVal.arr nullWinnerState.monthlyWinners [] := by
  refine ⟨⟨_, List.mem_cons_of_mem _ (List.mem_singleton.mpr rfl), rfl⟩, rfl, ?_, rfl, rfl, rfl⟩
  intro h
  cases h

/-- C14, as amended: the catalog has exactly six entries, in the order `first_week`,
`streak_7`, `steps_15k`, `steps_20k`, `streak_30`, `total_100k`.  The check of
`first_week` is `true` exactly when an entry of `monthlyWinners` names the player and
no entry before it is `null`; it raises a `TypeError` exactly when a `null` entry
comes before any entry that names the player; so on a list without a `null` entry it
returns a boolean, `true` exactly when the player appears in `monthlyWinners`.  Each
of the other five checks returns a boolean, which is `true` exactly when: the streak
is at least 7; some record has at least 15000 steps for the player; some record has at
least 20000; the streak is at least 30; the steps of the player over all records sum
to at least 100000. -/
theorem achievements_spec (rt : Runtime) (state : State) (player : Player) :
    ACHIEVEMENTS.map (fun a => a.id)
      = ["first_week", "streak_7", "steps_15k", "steps_20k", "streak_30", "total_100k"] ∧
    (∀ a ∈ ACHIEVEMENTS, a.id = "first_week" →
      (a.check rt state player = Except.ok true ↔
        ∃ before w after, state.monthlyWinners = before ++ w :: after ∧
          w.getProp "player" = some (JsVal.str player.key) ∧ ∀ x ∈ before, x ≠ JsVal.null) ∧
      ((∃ message, a.check rt state player = Except.error message) ↔
        ∃ before after, state.monthlyWinners = before ++ JsVal.null :: after ∧
          ∀ x ∈ before,
            x ≠ JsVal.null ∧ x.getProp "player" ≠ some (JsVal.str player.key)) ∧
      ((∀ w ∈ state.monthlyWinners, w ≠ JsVal.null) →
        (∃ b, a.check rt state player = Except.ok b) ∧
        (a.check rt state player = Except.ok true ↔
          ∃ w ∈ state.monthlyWinners, w.getProp "player" = some (JsVal.str player.key)))) ∧
    (∀ a ∈ ACHIEVEMENTS, a.id ≠ "first_week" → ∃ b, a.check rt state player = Except.ok b) ∧
    (∀ a ∈ ACHIEVEMENTS, a.id = "streak_7" →
      (a.check rt state player = Except.ok true ↔ getStreak rt state player ≥ 7)) ∧
    (∀ a ∈ ACHIEVEMENTS, a.id = "steps_15k" →
      (a.check rt state player = Except.ok true ↔
        ∃ r ∈ state.records, (r.get player).steps ≥ 15000)) ∧
    (∀ a ∈ ACHIEVEMENTS, a.id = "steps_20k" →
      (a.check rt state player = Except.ok true ↔
        ∃ r ∈ state.records, (r.get player).steps ≥ 20000)) ∧
    (∀ a ∈ ACHIEVEMENTS, a.id = "streak_30" →
      (a.check rt state player = Except.ok true ↔ getStreak rt state player ≥ 30)) ∧
    (∀ a ∈ ACHIEVEMENTS, a.id = "total_100k" →
      (a.check rt state player = Except.ok true ↔
        (state.records.map (fun r => (r.get player).steps)).sum ≥ 100000)) := by
  refine ⟨rfl, ?_, ?_, ?_, ?_, ?_, ?_, ?_⟩
  · intro a ha hid
    simp only [ACHIEVEMENTS, List.mem_cons, List.mem_singleton, List.not_mem_nil,
      or_false] at ha
    rcases ha with rfl | rfl | rfl | rfl | rfl | rfl <;>
      first
        | exact absurd hid (by decide)
        | exact ⟨someWinner_true_iff player state.monthlyWinners,
            someWinner_error_iff player state.monthlyWinners,
            fun hw => someWinner_spec player state.monthlyWinners hw⟩
  · intro a ha hid
    simp only [ACHIEVEMENTS, List.mem_cons, List.mem_singleton, List.not_mem_nil,
      or_false] at ha
    rcases ha with rfl | rfl | rfl | rfl | rfl | rfl
    · exact absurd rfl hid
    all_goals exact ⟨_, rfl⟩
  · intro a ha hid
    simp only [ACHIEVEMENTS, List.mem_cons, List.mem_singleton, List.not_mem_nil,
      or_false] at ha
    rcases ha with rfl | rfl | rfl | rfl | rfl | rfl <;>
      first
        | exact absurd hid (by decide)
        | simp
  · intro a ha hid
    simp only [ACHIEVEMENTS, List.mem_cons, List.mem_singleton, List.not_mem_nil,
      or_false] at ha
    rcases ha with rfl | rfl | rfl | rfl | rfl | rfl <;>
      first
        | exact absurd hid (by decide)
        | simp
  · intro a ha hid
    simp only [ACHIEVEMENTS, List.mem_cons, List.mem_singleton, List.not_mem_nil,
      or_false] at ha
    rcases ha with rfl | rfl | rfl | rfl | rfl | rfl <;>
      first
        | exact absurd hid (by decide)
        | simp
  · intro a ha hid
    simp only [ACHIEVEMENTS, List.mem_cons, List.mem_singleton, List.not_mem_nil,
      or_false] at ha
    rcases ha with rfl | rfl | rfl | rfl | rfl | rfl <;>
      first
        | exact absurd hid (by decide)
        | simp
  · intro a ha hid
    simp only [ACHIEVEMENTS, List.mem_cons, List.mem_singleton, List.not_mem_nil,
      or_false] at ha
    rcases ha with rfl | rfl | rfl | rfl | rfl | rfl <;>
      first
        | exact absurd hid (by decide)
        | simp [foldl_steps_eq_sum]

/-- Witness for C14 as amended: Patri is a monthly winner, has 110000 steps in total
and a day of 90000 steps; Merce has a day of 16000 steps and no more, and in a store
of seven days in a row a streak of 7. -/
theorem achievements_spec_witness :
    (∀ a ∈ ACHIEVEMENTS, a.id ≠ "first_week" →
      ∃ b, a.check (utcRuntime sampleNow) winnerState Player.patri = Except.ok b) ∧
    ACHIEVEMENTS.map (fun a => a.check (utcRuntime sampleNow) winnerState Player.patri)
      = [Except.ok true, Except.ok false, Except.ok true, Except.ok true, Except.ok false,
          Except.ok true] ∧
    ACHIEVEMENTS.map (fun a => a.check (utcRuntime sampleNow) winnerState Player.merce)
      = [Except.ok false, Except.ok false, Except.ok true, Except.ok false, Except.ok false,
          Except.ok false] ∧
    ACHIEVEMENTS.map (fun a => a.check (utcRuntime sampleNow) lowStreakState Player.merce)
      = [Except.ok false, Except.ok true, Except.ok false, Except.ok false, Except.ok false,
          Except.ok false] :=
  ⟨(achievements_spec (utcRuntime sampleNow) winnerState Player.patri).2.2.1, rfl, rfl, rfl⟩

end ContadorPasos
